import Mathlib

/-!
Log-based EXPLAIN capture of the pganalyze collector.

A shallow embedding of `input/postgres/explain.go` (`RunExplain`, `runDbExplain`,
`contains`, `getQuotedParamsStr`) and of the index assignment of
`output/transform/postgres.go` (`transformPostgresRoles`, `transformPostgresDatabases`).

Modelling conventions.

* Go strings are Lean `String`s; `strings.HasPrefix` and `strings.Contains` are
  evaluated on the character lists of the two strings.
* The SQL parser `pg_query.Parse`, the constant `QueryMarkerSQL` and `pq.QuoteLiteral`
  are not defined in `explain.go`; they are the fields of `Deps`, and every statement
  about the code is proved for an arbitrary `Deps`.
* A `*sql.DB` is a `Driver`: the reply to a call is an arbitrary function of the calls
  issued on that connection so far and of the call itself.  The calls a function
  issues are recorded, in order, in a log that is threaded through the code.
* `db.QueryRow(..).Scan(&sample.ExplainOutput)` has one of three outcomes, as in
  `database/sql`: it stores the returned text in the destination and returns no error;
  it returns an error before anything is stored; or it stores the returned text and then
  returns the error of closing the rows.
* `fmt.Sprintf("%s", err)` is the text of the error; errors are represented by that
  text.
-/

namespace Collector

/-! ## Data model -/

/-- The enumeration `pganalyze_collector.QuerySample_ExplainSource`. -/
inductive ExplainSource
  | STATEMENT_LOG_EXPLAIN_SOURCE
  | AUTO_EXPLAIN_EXPLAIN_SOURCE
  deriving DecidableEq, Repr

/-- The enumeration `pganalyze_collector.QuerySample_ExplainFormat`. -/
inductive ExplainFormat
  | TEXT_EXPLAIN_FORMAT
  | JSON_EXPLAIN_FORMAT
  deriving DecidableEq, Repr

/-- The record `state.PostgresQuerySample`, with the fields `explain.go` reads or writes. -/
structure PostgresQuerySample where
  Database : String
  Query : String
  Parameters : List String
  HasExplain : Bool
  ExplainSource : ExplainSource
  ExplainFormat : ExplainFormat
  ExplainOutput : String
  ExplainError : String
  deriving DecidableEq, Repr

/-- The kinds of statement node of `pg_query_nodes` that the type switch of
`runDbExplain` tells apart; every other node type is `Other`, tagged with its name. -/
inductive Node
  | SelectStmt
  | InsertStmt
  | UpdateStmt
  | DeleteStmt
  | Other (typeName : String)
  deriving DecidableEq, Repr

/-- A top-level entry of a parse tree, `pg_query_nodes.RawStmt`. -/
structure RawStmt where
  Stmt : Node
  deriving DecidableEq, Repr

/-- The result of a successful `pg_query.Parse`. -/
structure ParsetreeList where
  Statements : List RawStmt
  deriving DecidableEq, Repr

/-- What `explain.go` uses and does not define: the parser, the marker constant and the
literal quoting of `lib/pq`. -/
structure Deps where
  Parse : String → Except String ParsetreeList
  QueryMarkerSQL : String
  QuoteLiteral : String → String

/-- A bind argument of a database call: a text value, or a `pq.Array` of texts. -/
inductive Arg
  | text (value : String)
  | array (values : List String)
  deriving DecidableEq, Repr

/-- A call made on a `*sql.DB`: `db.Exec(query)` or `db.QueryRow(query, args...)` followed
by `Scan` into one destination. -/
inductive Call
  | Exec (query : String)
  | QueryRow (query : String) (args : List Arg)
  deriving DecidableEq, Repr

/-- The outcome of `db.QueryRow(query, args...).Scan(&dest)`: `ok value`, the column is
copied into `dest` and no error is returned; `error err`, the error `err` is returned and
`dest` is left as it was (the query failed, returned no row, or the column could not be
converted); `closeError value err`, the column is copied into `dest` and then closing the
rows fails with `err`, which is returned. -/
inductive ScanReply
  | ok (value : String)
  | error (err : String)
  | closeError (value : String) (err : String)
  deriving DecidableEq, Repr

/-- The behaviour of one connection.  `Exec log query` is the error of `db.Exec(query)`
issued after the calls in `log` (`none` when it succeeds); `QueryRow log query args` is
the outcome of `db.QueryRow(query, args...).Scan(&dest)`. -/
structure Driver where
  Exec : List Call → String → Option String
  QueryRow : List Call → String → List Arg → ScanReply

/-! ## `getQuotedParamsStr` and `contains` -/

/-- The function `strings.Join`. -/
def stringsJoin : List String → String → String
  | [], _ => ""
  | [a], _ => a
  | a :: b :: rest, sep => a ++ sep ++ stringsJoin (b :: rest) sep

/-- The loop of `getQuotedParamsStr`: the literals collected so far, extended by those of
the remaining parameters. -/
def quoteLoop (quote : String → String) : List String → List String → List String
  | [], params => params
  | p :: rest, params => quoteLoop quote rest (params ++ [quote p])

/-- The function `getQuotedParamsStr` of `explain.go`. -/
def getQuotedParamsStr (E : Deps) (parameters : List String) : String :=
  stringsJoin (quoteLoop E.QuoteLiteral parameters []) ", "

/-- The function `contains` of `explain.go`. -/
def contains : List String → String → Bool
  | [], _ => false
  | str :: rest, val => if str = val then true else contains rest val

/-! ## `runDbExplain` -/

/-- The cases of the type switch in `runDbExplain`. -/
def Node.isExplainable : Node → Bool
  | .SelectStmt => true
  | .InsertStmt => true
  | .UpdateStmt => true
  | .DeleteStmt => true
  | .Other _ => false

/-- The text of the helper call. -/
def helperSQL (E : Deps) : String :=
  E.QueryMarkerSQL ++ "SELECT pganalyze.explain($1, $2)"

/-- The text of the `PREPARE` of a sample. -/
def prepareSQL (E : Deps) (sample : PostgresQuerySample) : String :=
  E.QueryMarkerSQL ++ "PREPARE pganalyze_explain AS " ++ sample.Query

/-- The text of the `EXPLAIN ... EXECUTE` of a sample. -/
def explainExecuteSQL (E : Deps) (sample : PostgresQuerySample) : String :=
  E.QueryMarkerSQL ++ "EXPLAIN (VERBOSE, FORMAT JSON) EXECUTE pganalyze_explain("
    ++ getQuotedParamsStr E sample.Parameters ++ ")"

/-- The text of the `DEALLOCATE`. -/
def deallocateSQL (E : Deps) : String :=
  E.QueryMarkerSQL ++ "DEALLOCATE pganalyze_explain"

/-- The text of the direct `EXPLAIN` of a sample. -/
def explainSQL (E : Deps) (sample : PostgresQuerySample) : String :=
  E.QueryMarkerSQL ++ "EXPLAIN (VERBOSE, FORMAT JSON) " ++ sample.Query

/-- The assignment made by `Scan(&sample.ExplainOutput)` followed by
`if err != nil { sample.ExplainError = fmt.Sprintf("%s", err) }`. -/
def recordScan (sample : PostgresQuerySample) : ScanReply → PostgresQuerySample
  | .ok output => { sample with ExplainOutput := output }
  | .error err => { sample with ExplainError := err }
  | .closeError output err => { sample with ExplainOutput := output, ExplainError := err }

/-- The three assignments at the head of the `case` of the type switch. -/
def markExplain (sample : PostgresQuerySample) : PostgresQuerySample :=
  { sample with
    HasExplain := true
    ExplainSource := ExplainSource.STATEMENT_LOG_EXPLAIN_SOURCE
    ExplainFormat := ExplainFormat.JSON_EXPLAIN_FORMAT }

/-- The body of the `case` of the type switch, after the three assignments: the calls
issued are appended to the log; the second component is `none` when the body leaves the
iteration with `continue`, and the sample to append otherwise. -/
def explainCase (E : Deps) (db : Driver) (useHelper : Bool) (log : List Call)
    (sample : PostgresQuerySample) : List Call × Option PostgresQuerySample :=
  if useHelper then
    let args := [Arg.text sample.Query, Arg.array sample.Parameters]
    (log ++ [Call.QueryRow (helperSQL E) args],
      some (recordScan sample (db.QueryRow log (helperSQL E) args)))
  else if sample.Parameters.length > 0 then
    match db.Exec log (prepareSQL E sample) with
    | some _ => (log ++ [Call.Exec (prepareSQL E sample)], none)
    | none =>
      let log1 := log ++ [Call.Exec (prepareSQL E sample)]
      let sample1 := recordScan sample (db.QueryRow log1 (explainExecuteSQL E sample) [])
      let log2 := log1 ++ [Call.QueryRow (explainExecuteSQL E sample) []]
      (log2 ++ [Call.Exec (deallocateSQL E)], some sample1)
  else
    (log ++ [Call.QueryRow (explainSQL E sample) []],
      some (recordScan sample (db.QueryRow log (explainSQL E sample) [])))

/-- One iteration of the loop of `runDbExplain` on `sample`, started after the calls in
`log`: the log after the iteration, and the sample appended to `outputs` (`none` when
the iteration ends in `continue`). -/
def loopBody (E : Deps) (db : Driver) (useHelper : Bool) (log : List Call)
    (sample : PostgresQuerySample) : List Call × Option PostgresQuerySample :=
  match E.Parse sample.Query with
  | .error _ => (log, none)
  | .ok parsetree =>
    match parsetree.Statements with
    | [raw] =>
      if raw.Stmt.isExplainable then explainCase E db useHelper log (markExplain sample)
      else (log, some sample)
    | _ => (log, none)

/-- The loop of `runDbExplain` over the remaining inputs, from the log and the outputs
reached so far. -/
def runDbExplainLoop (E : Deps) (db : Driver) (useHelper : Bool) :
    List PostgresQuerySample → List Call → List PostgresQuerySample →
      List Call × List PostgresQuerySample
  | [], log, outputs => (log, outputs)
  | sample :: rest, log, outputs =>
    match loopBody E db useHelper log sample with
    | (log1, none) => runDbExplainLoop E db useHelper rest log1 outputs
    | (log1, some sample1) => runDbExplainLoop E db useHelper rest log1 (outputs ++ [sample1])

/-- The function `runDbExplain` of `explain.go`, on a connection on which the calls in
`log` were issued before: the calls issued up to its return, and its `outputs`. -/
def runDbExplain (E : Deps) (db : Driver) (inputs : List PostgresQuerySample)
    (useHelper : Bool) (log : List Call) : List Call × List PostgresQuerySample :=
  runDbExplainLoop E db useHelper inputs log []

/-! ## `RunExplain` -/

/-- The fields of `server.Config` read by `RunExplain`; `GetDbName` is the value returned
by the accessor of that name. -/
structure ServerConfig where
  GetDbName : String
  DbAllNames : Bool
  DbExtraNames : List String
  SystemType : String

/-- The part of `state.Server` read by `RunExplain`. -/
structure Server where
  Config : ServerConfig

/-- The function `strings.HasPrefix`. -/
def stringsHasPrefix (s pre : String) : Bool :=
  pre.data.isPrefixOf s.data

/-- The function `strings.Contains`. -/
def stringsContains (s substr : String) : Bool :=
  s.data.tails.any (fun t => substr.data.isPrefixOf t)

/-- The closure `skip` of `RunExplain`. -/
def skip (E : Deps) (server : Server) (sample : PostgresQuerySample) : Bool :=
  let monitoredDb := sample.Database == "" || sample.Database == server.Config.GetDbName ||
    server.Config.DbAllNames || contains server.Config.DbExtraNames sample.Database
  !monitoredDb ||
    sample.HasExplain ||
    stringsHasPrefix sample.Query E.QueryMarkerSQL ||
    stringsContains sample.Query "pg_start_backup" ||
    stringsContains sample.Query "pg_stop_backup"

/-- An opened connection: its behaviour on the calls of `runDbExplain`, the result of
`statsHelperExists(db, "explain")`, and the result of `connectedAsSuperUser` on a system
type. -/
structure Conn where
  db : Driver
  statsHelperExists : Bool
  connectedAsSuperUser : String → Bool

/-- What `RunExplain` does to the outside, in order. -/
inductive Event
  | EstablishConnection (dbName : String)
  | PrintVerbose (message : String)
  | PrintInfo (message : String)
  | statsHelperExists (dbName : String)
  | connectedAsSuperUser (dbName : String)
  | Call (dbName : String) (call : Call)
  | Close (dbName : String)
  deriving DecidableEq, Repr

/-- A Go map from database names to sample lists: its entries, with pairwise distinct
keys. -/
abbrev SampleMap := List (String × List PostgresQuerySample)

/-- The map read `m[key]`: the stored list, or the nil slice. -/
def SampleMap.get (m : SampleMap) (key : String) : List PostgresQuerySample :=
  match m with
  | [] => []
  | (k, v) :: rest => if k = key then v else SampleMap.get rest key

/-- The map write `m[key] = value`. -/
def SampleMap.set (m : SampleMap) (key : String) (value : List PostgresQuerySample) :
    SampleMap :=
  match m with
  | [] => [(key, value)]
  | (k, v) :: rest => if k = key then (k, value) :: rest else (k, v) :: SampleMap.set rest key value

/-- The surroundings of `RunExplain`: the order in which `range` visits the entries of a
map (any order is allowed by the language), and `EstablishConnection`, whose result for a
database name may depend on everything done before. -/
structure World where
  rangeOrder : SampleMap → SampleMap
  EstablishConnection : List Event → String → Except String Conn

/-- The first loop of `RunExplain`: the samples that are not skipped, appended to the
entry of their database. -/
def groupSamples (E : Deps) (server : Server) : List PostgresQuerySample → SampleMap → SampleMap
  | [], samplesByDb => samplesByDb
  | sample :: rest, samplesByDb =>
    if skip E server sample then groupSamples E server rest samplesByDb
    else groupSamples E server rest
      (samplesByDb.set sample.Database (samplesByDb.get sample.Database ++ [sample]))

/-- The message of the verbose log line on a found helper. -/
def foundHelperMessage (dbName : String) : String :=
  "Found pganalyze.explain() stats helper in database \"" ++ dbName ++ "\""

/-- The message of the warning on a missing helper. -/
def missingHelperMessage (dbName : String) : String :=
  "Warning: pganalyze.explain() helper function not found in database \"" ++ dbName ++
    "\". Please set up" ++
    " the monitoring helper functions (https://github.com/pganalyze/collector#setting-up-a-restricted-monitoring-user)" ++
    " in every database you want to monitor to avoid permissions issues when running log-based EXPLAIN."

/-- The events of the probe of an opened connection and of the log line that follows. -/
def probeEvents (server : Server) (dbName : String) (conn : Conn) : List Event :=
  if conn.statsHelperExists then
    [Event.statsHelperExists dbName, Event.PrintVerbose (foundHelperMessage dbName)]
  else if !conn.connectedAsSuperUser server.Config.SystemType then
    [Event.statsHelperExists dbName, Event.connectedAsSuperUser dbName,
      Event.PrintInfo (missingHelperMessage dbName)]
  else
    [Event.statsHelperExists dbName, Event.connectedAsSuperUser dbName]

/-- The second loop of `RunExplain` over the entries still to visit, from the events and
the outputs reached so far. -/
def rangeSamplesByDb (E : Deps) (W : World) (server : Server) :
    SampleMap → List Event → List PostgresQuerySample → List Event × List PostgresQuerySample
  | [], events, outputs => (events, outputs)
  | (dbName, dbSamples) :: rest, events, outputs =>
    match W.EstablishConnection events dbName with
    | .error err =>
      rangeSamplesByDb E W server rest
        (events ++ [Event.EstablishConnection dbName,
          Event.PrintVerbose ("Could not connect to " ++ dbName ++ " to run explain: " ++ err ++
            "; skipping")])
        outputs
    | .ok conn =>
      let useHelper := conn.statsHelperExists
      let dbRun := runDbExplain E conn.db dbSamples useHelper []
      rangeSamplesByDb E W server rest
        (events ++ [Event.EstablishConnection dbName] ++ probeEvents server dbName conn ++
          dbRun.1.map (Event.Call dbName) ++ [Event.Close dbName])
        (outputs ++ dbRun.2)

/-- The function `RunExplain` of `explain.go`: what it does to the outside, and its
`outputs`. -/
def RunExplain (E : Deps) (W : World) (server : Server) (inputs : List PostgresQuerySample) :
    List Event × List PostgresQuerySample :=
  rangeSamplesByDb E W server (W.rangeOrder (groupSamples E server inputs [])) [] []

/-! ## `transformPostgresRoles` and `transformPostgresDatabases`

The functions of `output/transform/postgres.go` that assign indices to roles and
databases.  The records of the packages `state` and `snapshot` are given with the fields
these functions read or write; a slice of pointers is the list of the records pointed to.
-/

/-- The type `state.Oid`. -/
abbrev Oid := Nat

/-- The conversion `int32(n)` of a length: the value of the low 32 bits of `n`, read in
two's complement. -/
def int32 (n : Nat) : Int :=
  (((n + 2 ^ 31) % 2 ^ 32 : Nat) : Int) - 2 ^ 31

/-- The conversion `uint32(n)`. -/
def uint32 (n : Nat) : Nat :=
  n % 2 ^ 32

/-- The type `OidToIdx`, a Go map from oids to indices: its entries, with pairwise
distinct keys. -/
abbrev OidToIdx := List (Oid × Int)

/-- The map read `m[oid]`: the stored index, or zero when `oid` is not a key. -/
def OidToIdx.get (m : OidToIdx) (oid : Oid) : Int :=
  match m with
  | [] => 0
  | (k, v) :: rest => if k = oid then v else OidToIdx.get rest oid

/-- The map write `m[oid] = idx`. -/
def OidToIdx.set (m : OidToIdx) (oid : Oid) (idx : Int) : OidToIdx :=
  match m with
  | [] => [(oid, idx)]
  | (k, v) :: rest => if k = oid then (k, idx) :: rest else (k, v) :: OidToIdx.set rest oid idx

/-- The record `state.PostgresRole`; `PasswordValidUntil` is a nullable time, given as
seconds. -/
structure PostgresRole where
  Oid : Collector.Oid
  Name : String
  Inherit : Bool
  Login : Bool
  CreateDb : Bool
  CreateRole : Bool
  SuperUser : Bool
  Replication : Bool
  BypassRLS : Bool
  ConnectionLimit : Int
  PasswordValidUntil : Option Int
  Config : List String
  MemberOf : List Collector.Oid
  deriving DecidableEq, Repr

/-- The record `state.PostgresDatabase`. -/
structure PostgresDatabase where
  Oid : Collector.Oid
  Name : String
  OwnerRoleOid : Collector.Oid
  Encoding : String
  Collate : String
  CType : String
  IsTemplate : Bool
  AllowConnections : Bool
  ConnectionLimit : Int
  FrozenXID : Nat
  MinimumMultixactXID : Nat
  deriving DecidableEq, Repr

/-- The part of `state.State` read by the two functions. -/
structure State where
  Roles : List PostgresRole
  Databases : List PostgresDatabase
  deriving DecidableEq, Repr

/-- The record `snapshot.RoleReference`. -/
structure RoleReference where
  Name : String
  deriving DecidableEq, Repr

/-- The record `snapshot.RoleInformation`; `PasswordValidUntil` is a nullable timestamp. -/
structure RoleInformation where
  RoleIdx : Int
  Inherit : Bool
  Login : Bool
  CreateDb : Bool
  CreateRole : Bool
  SuperUser : Bool
  Replication : Bool
  BypassRls : Bool
  ConnectionLimit : Int
  PasswordValidUntil : Option Int
  Config : List String
  MemberOf : List Int
  deriving DecidableEq, Repr

/-- The record `snapshot.DatabaseReference`. -/
structure DatabaseReference where
  Name : String
  deriving DecidableEq, Repr

/-- The record `snapshot.DatabaseInformation`. -/
structure DatabaseInformation where
  DatabaseIdx : Int
  OwnerRoleIdx : Int
  Encoding : String
  Collate : String
  CType : String
  IsTemplate : Bool
  AllowConnections : Bool
  ConnectionLimit : Int
  FrozenXid : Nat
  MinimumMultixactXid : Nat
  deriving DecidableEq, Repr

/-- The part of `snapshot.FullSnapshot` written by the two functions. -/
structure FullSnapshot where
  RoleReferences : List RoleReference
  RoleInformations : List RoleInformation
  DatabaseReferences : List DatabaseReference
  DatabaseInformations : List DatabaseInformation
  deriving DecidableEq, Repr

/-- The first loop of `transformPostgresRoles` over the remaining roles. -/
def roleReferencesLoop : List PostgresRole → FullSnapshot → OidToIdx → FullSnapshot × OidToIdx
  | [], s, roleOidToIdx => (s, roleOidToIdx)
  | role :: rest, s, roleOidToIdx =>
    let ref : RoleReference := { Name := role.Name }
    let idx := int32 s.RoleReferences.length
    roleReferencesLoop rest { s with RoleReferences := s.RoleReferences ++ [ref] }
      (roleOidToIdx.set role.Oid idx)

/-- The inner loop of `transformPostgresRoles` over the remaining oids of `MemberOf`. -/
def memberOfLoop (roleOidToIdx : OidToIdx) : List Oid → List Int → List Int
  | [], memberOf => memberOf
  | oid :: rest, memberOf => memberOfLoop roleOidToIdx rest (memberOf ++ [roleOidToIdx.get oid])

/-- The `RoleInformation` built for a role in the second loop of `transformPostgresRoles`;
`NullTimeToNullTimestamp` is the function of that name of the package `snapshot`. -/
def roleInformation (NullTimeToNullTimestamp : Option Int → Option Int)
    (roleOidToIdx : OidToIdx) (role : PostgresRole) : RoleInformation :=
  { RoleIdx := roleOidToIdx.get role.Oid
    Inherit := role.Inherit
    Login := role.Login
    CreateDb := role.CreateDb
    CreateRole := role.CreateRole
    SuperUser := role.SuperUser
    Replication := role.Replication
    BypassRls := role.BypassRLS
    ConnectionLimit := role.ConnectionLimit
    PasswordValidUntil := NullTimeToNullTimestamp role.PasswordValidUntil
    Config := role.Config
    MemberOf := memberOfLoop roleOidToIdx role.MemberOf [] }

/-- The second loop of `transformPostgresRoles` over the remaining roles. -/
def roleInformationsLoop (NullTimeToNullTimestamp : Option Int → Option Int)
    (roleOidToIdx : OidToIdx) : List PostgresRole → FullSnapshot → FullSnapshot
  | [], s => s
  | role :: rest, s =>
    roleInformationsLoop NullTimeToNullTimestamp roleOidToIdx rest
      { s with RoleInformations :=
          s.RoleInformations ++ [roleInformation NullTimeToNullTimestamp roleOidToIdx role] }

/-- The function `transformPostgresRoles` of `postgres.go`. -/
def transformPostgresRoles (NullTimeToNullTimestamp : Option Int → Option Int)
    (s : FullSnapshot) (newState : State) : FullSnapshot × OidToIdx :=
  let refs := roleReferencesLoop newState.Roles s []
  (roleInformationsLoop NullTimeToNullTimestamp refs.2 newState.Roles refs.1, refs.2)

/-- The first loop of `transformPostgresDatabases` over the remaining databases. -/
def databaseReferencesLoop :
    List PostgresDatabase → FullSnapshot → OidToIdx → FullSnapshot × OidToIdx
  | [], s, databaseOidToIdx => (s, databaseOidToIdx)
  | database :: rest, s, databaseOidToIdx =>
    let ref : DatabaseReference := { Name := database.Name }
    let idx := int32 s.DatabaseReferences.length
    databaseReferencesLoop rest { s with DatabaseReferences := s.DatabaseReferences ++ [ref] }
      (databaseOidToIdx.set database.Oid idx)

/-- The `DatabaseInformation` built for a database in the second loop of
`transformPostgresDatabases`. -/
def databaseInformation (databaseOidToIdx roleOidToIdx : OidToIdx)
    (database : PostgresDatabase) : DatabaseInformation :=
  { DatabaseIdx := databaseOidToIdx.get database.Oid
    OwnerRoleIdx := roleOidToIdx.get database.OwnerRoleOid
    Encoding := database.Encoding
    Collate := database.Collate
    CType := database.CType
    IsTemplate := database.IsTemplate
    AllowConnections := database.AllowConnections
    ConnectionLimit := database.ConnectionLimit
    FrozenXid := uint32 database.FrozenXID
    MinimumMultixactXid := uint32 database.MinimumMultixactXID }

/-- The second loop of `transformPostgresDatabases` over the remaining databases. -/
def databaseInformationsLoop (databaseOidToIdx roleOidToIdx : OidToIdx) :
    List PostgresDatabase → FullSnapshot → FullSnapshot
  | [], s => s
  | database :: rest, s =>
    databaseInformationsLoop databaseOidToIdx roleOidToIdx rest
      { s with DatabaseInformations :=
          s.DatabaseInformations ++ [databaseInformation databaseOidToIdx roleOidToIdx database] }

/-- The function `transformPostgresDatabases` of `postgres.go`. -/
def transformPostgresDatabases (s : FullSnapshot) (newState : State) (roleOidToIdx : OidToIdx) :
    FullSnapshot × OidToIdx :=
  let refs := databaseReferencesLoop newState.Databases s []
  (databaseInformationsLoop refs.2 roleOidToIdx newState.Databases refs.1, refs.2)

/-! ## Concrete collaborators used to evaluate the code -/

/-- The function `pq.QuoteLiteral` of `lib/pq`: every single quote is doubled; when the
value holds a backslash every backslash is doubled and the literal is written in the
escape form, with a leading blank. -/
def pqQuoteLiteral (literal : String) : String :=
  let quote := Char.ofNat 39
  let backslash := Char.ofNat 92
  let doubled := literal.data.flatMap (fun c => if c = quote then [quote, quote] else [c])
  if backslash ∈ doubled then
    String.mk ([Char.ofNat 32, Char.ofNat 69, quote]
      ++ doubled.flatMap (fun c => if c = backslash then [backslash, backslash] else [c])
      ++ [quote])
  else
    String.mk ([quote] ++ doubled ++ [quote])

/-- The results of `pg_query.Parse` on a handful of query texts; every other text is
treated as a syntax error. -/
def sampleParse (query : String) : Except String ParsetreeList :=
  if query = "SELECT 1" then .ok ⟨[⟨Node.SelectStmt⟩]⟩
  else if query = "SELECT * FROM t WHERE id = $1" then .ok ⟨[⟨Node.SelectStmt⟩]⟩
  else if query = "UPDATE t SET a = 1" then .ok ⟨[⟨Node.UpdateStmt⟩]⟩
  else if query = "SELECT 1; SELECT 2" then .ok ⟨[⟨Node.SelectStmt⟩, ⟨Node.SelectStmt⟩]⟩
  else if query = "VACUUM" then .ok ⟨[⟨Node.Other "VacuumStmt"⟩]⟩
  else if query = "" then .ok ⟨[]⟩
  else .error "syntax error"

/-- The collaborators as they are at run time: the marker of the collector, the quoting
of `lib/pq`, and `sampleParse` for the parser. -/
def sampleDeps : Deps where
  Parse := sampleParse
  QueryMarkerSQL := "/* pganalyze-collector */ "
  QuoteLiteral := pqQuoteLiteral

/-- A connection on which every call succeeds and every scan returns `plan`. -/
def okDriver (plan : String) : Driver where
  Exec := fun _ _ => none
  QueryRow := fun _ _ _ => .ok plan

/-- A connection on which every call fails with the error `err`. -/
def failDriver (err : String) : Driver where
  Exec := fun _ _ => some err
  QueryRow := fun _ _ _ => .error err

/-- A connection on which every `Exec` succeeds and every scan copies `plan` and then
fails with `err` on closing the rows. -/
def closeErrorDriver (plan err : String) : Driver where
  Exec := fun _ _ => none
  QueryRow := fun _ _ _ => .closeError plan err

/-- A world in which `range` visits the entries in the order of their creation and every
connection opens onto `db`, without the helper and without superuser rights. -/
def plainWorld (db : Driver) : World where
  rangeOrder := fun m => m
  EstablishConnection := fun _ _ => .ok ⟨db, false, fun _ => false⟩

/-- A server that monitors the database `appdb` only. -/
def appdbServer : Server := ⟨⟨"appdb", false, [], ""⟩⟩

/-- A sample as it enters the core: the given database, query and parameters, and no
explain data. -/
def mkSample (database query : String) (parameters : List String) : PostgresQuerySample where
  Database := database
  Query := query
  Parameters := parameters
  HasExplain := false
  ExplainSource := ExplainSource.STATEMENT_LOG_EXPLAIN_SOURCE
  ExplainFormat := ExplainFormat.TEXT_EXPLAIN_FORMAT
  ExplainOutput := ""
  ExplainError := ""

/-! ## The classification of a sample -/

/-- A sample whose query fails to parse, parses to a number of top-level statements other
than one, or parses to one statement that is not a SELECT, INSERT, UPDATE or DELETE. -/
def Ineligible (E : Deps) (sample : PostgresQuerySample) : Prop :=
  (∃ err, E.Parse sample.Query = .error err) ∨
  (∃ tree, E.Parse sample.Query = .ok tree ∧ tree.Statements.length ≠ 1) ∨
  (∃ raw, E.Parse sample.Query = .ok ⟨[raw]⟩ ∧ raw.Stmt ≠ Node.SelectStmt ∧
    raw.Stmt ≠ Node.InsertStmt ∧ raw.Stmt ≠ Node.UpdateStmt ∧ raw.Stmt ≠ Node.DeleteStmt)

/-- A sample whose query parses to exactly one statement, a SELECT, INSERT, UPDATE or
DELETE. -/
def Eligible (E : Deps) (sample : PostgresQuerySample) : Prop :=
  ∃ raw, E.Parse sample.Query = .ok ⟨[raw]⟩ ∧ (raw.Stmt = Node.SelectStmt ∨
    raw.Stmt = Node.InsertStmt ∨ raw.Stmt = Node.UpdateStmt ∨ raw.Stmt = Node.DeleteStmt)

/-- The test of `Eligible`, for filtering a list of samples. -/
def isEligible (E : Deps) (sample : PostgresQuerySample) : Bool :=
  match E.Parse sample.Query with
  | .ok ⟨[raw]⟩ => raw.Stmt = Node.SelectStmt || raw.Stmt = Node.InsertStmt ||
      raw.Stmt = Node.UpdateStmt || raw.Stmt = Node.DeleteStmt
  | _ => false

/-- The test that the query of a sample parses to exactly one top-level statement. -/
def parsesToOne (E : Deps) (sample : PostgresQuerySample) : Bool :=
  match E.Parse sample.Query with
  | .ok tree => tree.Statements.length = 1
  | .error _ => false

/-- What identifies a sample in a batch: its database, query text and parameters. -/
def sampleKey (sample : PostgresQuerySample) : String × String × List String :=
  (sample.Database, sample.Query, sample.Parameters)

/-- A database the server monitors: the empty name, the configured name, any name when
the all-databases flag is set, or a member of the extra names. -/
def Monitored (server : Server) (database : String) : Prop :=
  database = "" ∨ database = server.Config.GetDbName ∨ server.Config.DbAllNames = true ∨
    database ∈ server.Config.DbExtraNames

/-- The text `s` starts with `pre`. -/
def StartsWith (s pre : String) : Prop :=
  ∃ rest, s = pre ++ rest

/-- The text `s` contains `substr`. -/
def ContainsText (s substr : String) : Prop :=
  ∃ before after, s = before ++ substr ++ after

/-- The order of `range` visits every entry of the map exactly once. -/
def World.Valid (W : World) : Prop :=
  ∀ m, (W.rangeOrder m).Perm m

/-- The outcome `reply` of a plan-capturing command is recorded in `out`, the sample
emitted for `sample`: on a failure before the column is copied `ExplainError` is the error
text and `ExplainOutput` is as in the input; on success `ExplainOutput` is the returned
text and `ExplainError` is as in the input; on a failure after the column is copied
`ExplainOutput` is the copied text and `ExplainError` is the error text. -/
def Recorded (reply : ScanReply) (sample out : PostgresQuerySample) : Prop :=
  match reply with
  | .error err => out.ExplainError = err ∧ out.ExplainOutput = sample.ExplainOutput
  | .ok plan => out.ExplainOutput = plan ∧ out.ExplainError = sample.ExplainError
  | .closeError plan err => out.ExplainOutput = plan ∧ out.ExplainError = err

/-- The SQL text of a call. -/
def Call.query : Call → String
  | .Exec query => query
  | .QueryRow query _ => query

/-- Where the reader of a string constant stands: inside the body, after a quote that
either closes the constant or starts a doubled quote, or after a backslash. -/
inductive LexState
  | body
  | afterQuote
  | afterBackslash
  deriving DecidableEq, Repr

/-- The reader of the body of a PostgreSQL string constant, after its opening quote: a
doubled quote denotes a quote, a single quote ends the constant, and in the escape form
(`esc`) a backslash followed by a backslash or a quote denotes that character (no other
escape is read).  The result is the denoted value, appended to `acc`, and the input that
follows the constant; `none` when the constant is not terminated. -/
def readBody (esc : Bool) : LexState → List Char → List Char → Option (List Char × List Char)
  | .body, [], _ => none
  | .body, c :: rest, acc =>
    if c = Char.ofNat 39 then readBody esc .afterQuote rest acc
    else if esc && c = Char.ofNat 92 then readBody esc .afterBackslash rest acc
    else readBody esc .body rest (acc ++ [c])
  | .afterQuote, [], acc => some (acc, [])
  | .afterQuote, c :: rest, acc =>
    if c = Char.ofNat 39 then readBody esc .body rest (acc ++ [c])
    else some (acc, c :: rest)
  | .afterBackslash, [], _ => none
  | .afterBackslash, c :: rest, acc =>
    if c = Char.ofNat 92 ∨ c = Char.ofNat 39 then readBody esc .body rest (acc ++ [c])
    else none

/-- The reader of a PostgreSQL string constant at the head of the input, after leading
blanks: the plain form `'...'` or the escape form `E'...'`. -/
def readLiteral : List Char → Option (List Char × List Char)
  | [] => none
  | c :: rest =>
    if c = Char.ofNat 32 then readLiteral rest
    else if c = Char.ofNat 39 then readBody false .body rest []
    else if c = Char.ofNat 69 then
      match rest with
      | [] => none
      | q :: rest2 => if q = Char.ofNat 39 then readBody true .body rest2 [] else none
    else none

/-- The keys of a map, in the order of its entries. -/
def SampleMap.keys (m : SampleMap) : List String :=
  m.map Prod.fst

/-- The samples of a batch that are not skipped and belong to the database `dbName`, in
input order. -/
def groupOf (E : Deps) (server : Server) (inputs : List PostgresQuerySample) (dbName : String) :
    List PostgresQuerySample :=
  inputs.filter (fun sample => !skip E server sample && sample.Database == dbName)

/-- The database an event concerns; the log lines concern none. -/
def Event.dbName : Event → Option String
  | .EstablishConnection dbName => some dbName
  | .PrintVerbose _ => none
  | .PrintInfo _ => none
  | .statsHelperExists dbName => some dbName
  | .connectedAsSuperUser dbName => some dbName
  | .Call dbName _ => some dbName
  | .Close dbName => some dbName

/-- The events of a trace that concern the database `dbName`, in order. -/
def eventsOf (dbName : String) (events : List Event) : List Event :=
  events.filter (fun e => e.dbName = some dbName)

/-- The samples of a batch that belong to the database `dbName`, in order. -/
def samplesOf (dbName : String) (samples : List PostgresQuerySample) :
    List PostgresQuerySample :=
  samples.filter (fun sample => sample.Database = dbName)

/-- What the second loop does on an entry whose connection fails with `err`: the events,
and no sample. -/
def failedVisit (dbName err : String) : List Event × List PostgresQuerySample :=
  ([Event.EstablishConnection dbName,
    Event.PrintVerbose ("Could not connect to " ++ dbName ++ " to run explain: " ++ err ++
      "; skipping")], [])

/-- What the second loop does on an entry whose connection opens as `conn`: the events
(the attempt, the probe, the calls of one `runDbExplain` over the whole group with the
probed flag, the close) and the samples that `runDbExplain` returns. -/
def openedVisit (E : Deps) (server : Server) (dbName : String) (conn : Conn)
    (dbSamples : List PostgresQuerySample) : List Event × List PostgresQuerySample :=
  ([Event.EstablishConnection dbName] ++ probeEvents server dbName conn ++
      (runDbExplain E conn.db dbSamples conn.statsHelperExists []).1.map (Event.Call dbName) ++
      [Event.Close dbName],
    (runDbExplain E conn.db dbSamples conn.statsHelperExists []).2)

/-- The body of the second loop of `RunExplain` on one entry, after the events so far. -/
def rangeBody (E : Deps) (W : World) (server : Server) (events : List Event)
    (entry : String × List PostgresQuerySample) : List Event × List PostgresQuerySample :=
  match W.EstablishConnection events entry.1 with
  | .error err => failedVisit entry.1 err
  | .ok conn => openedVisit E server entry.1 conn entry.2

/-- A world in which `range` visits the entries in the order of their creation, the
connection to the database `down` is refused, and every other connection opens onto `db`,
without the helper and without superuser rights. -/
def refusingWorld (db : Driver) (down : String) : World where
  rangeOrder := fun m => m
  EstablishConnection := fun _ dbName =>
    if dbName = down then .error "connection refused" else .ok ⟨db, false, fun _ => false⟩

/-- A role with the given oid, name and memberships, and no other attribute set. -/
def mkRole (oid : Oid) (name : String) (memberOf : List Oid) : PostgresRole where
  Oid := oid
  Name := name
  Inherit := false
  Login := false
  CreateDb := false
  CreateRole := false
  SuperUser := false
  Replication := false
  BypassRLS := false
  ConnectionLimit := -1
  PasswordValidUntil := none
  Config := []
  MemberOf := memberOf

/-- A database with the given oid, name and owner. -/
def mkDatabase (oid : Oid) (name : String) (owner : Oid) : PostgresDatabase where
  Oid := oid
  Name := name
  OwnerRoleOid := owner
  Encoding := "UTF8"
  Collate := "C"
  CType := "C"
  IsTemplate := false
  AllowConnections := true
  ConnectionLimit := -1
  FrozenXID := 0
  MinimumMultixactXID := 0

/-- The snapshot without any reference or information. -/
def emptySnapshot : FullSnapshot := ⟨[], [], [], []⟩

/-- The keys of an index map. -/
def OidToIdx.keys (m : OidToIdx) : List Oid :=
  m.map Prod.fst

/-! ## General facts about the loop -/

theorem isExplainable_iff (n : Node) :
    n.isExplainable = true ↔ (n = Node.SelectStmt ∨ n = Node.InsertStmt ∨
      n = Node.UpdateStmt ∨ n = Node.DeleteStmt) := by
  cases n <;> simp [Node.isExplainable]

theorem isEligible_iff (E : Deps) (sample : PostgresQuerySample) :
    isEligible E sample = true ↔ Eligible E sample := by
  unfold isEligible Eligible
  split
  · next raw h => simp [h, or_assoc]
  · next h =>
    constructor
    · intro hf; cases hf
    · rintro ⟨raw, hp, _⟩; exact absurd hp (h raw)

theorem not_eligible_iff (E : Deps) (sample : PostgresQuerySample) :
    ¬ Eligible E sample ↔ Ineligible E sample := by
  unfold Eligible Ineligible
  constructor
  · intro h
    cases hp : E.Parse sample.Query with
    | error err => exact Or.inl ⟨err, rfl⟩
    | ok tree =>
      obtain ⟨stmts⟩ := tree
      match stmts with
      | [] => exact Or.inr (Or.inl ⟨⟨[]⟩, rfl, by simp⟩)
      | [raw] =>
        refine Or.inr (Or.inr ⟨raw, rfl, ?_⟩)
        have h2 : ¬ (raw.Stmt = Node.SelectStmt ∨ raw.Stmt = Node.InsertStmt ∨
            raw.Stmt = Node.UpdateStmt ∨ raw.Stmt = Node.DeleteStmt) := fun hh => h ⟨raw, hp, hh⟩
        simp only [not_or] at h2
        exact h2
      | a :: b :: rest => exact Or.inr (Or.inl ⟨⟨a :: b :: rest⟩, rfl, by simp⟩)
  · rintro (⟨err, he⟩ | ⟨tree, ht, hl⟩ | ⟨raw, hr, h1, h2, h3, h4⟩) ⟨raw2, hp, hk⟩
    · rw [he] at hp; cases hp
    · rw [ht] at hp; cases hp; simp at hl
    · rw [hr] at hp; cases hp
      rcases hk with hk | hk | hk | hk
      · exact h1 hk
      · exact h2 hk
      · exact h3 hk
      · exact h4 hk

/-- On an eligible sample the iteration is the `case` of the type switch. -/
theorem loopBody_eligible (E : Deps) (db : Driver) (useHelper : Bool) (log : List Call)
    (sample : PostgresQuerySample) (h : Eligible E sample) :
    loopBody E db useHelper log sample = explainCase E db useHelper log (markExplain sample) := by
  obtain ⟨raw, hp, hk⟩ := h
  have hx := (isExplainable_iff raw.Stmt).mpr hk
  simp [loopBody, hp, hx]

/-- On an ineligible sample the iteration issues no call, and appends the sample as it is
or nothing, whatever the log. -/
theorem loopBody_ineligible (E : Deps) (db : Driver) (useHelper : Bool)
    (sample : PostgresQuerySample) (h : Ineligible E sample) :
    (∀ log, loopBody E db useHelper log sample = (log, none)) ∨
      (∀ log, loopBody E db useHelper log sample = (log, some sample)) := by
  rcases h with ⟨err, he⟩ | ⟨tree, ht, hl⟩ | ⟨raw, hr, h1, h2, h3, h4⟩
  · left; intro log; simp [loopBody, he]
  · left
    intro log
    obtain ⟨stmts⟩ := tree
    match stmts, hl with
    | [], _ => simp [loopBody, ht]
    | [_], hl => simp at hl
    | _ :: _ :: _, _ => simp [loopBody, ht]
  · right
    intro log
    have hx : raw.Stmt.isExplainable = false := by
      cases hs : raw.Stmt <;> simp_all [Node.isExplainable]
    simp [loopBody, hr, hx]

/-- The outputs collected before the loop are a prefix of its result and do not
influence the rest. -/
theorem runDbExplainLoop_acc (E : Deps) (db : Driver) (useHelper : Bool)
    (inputs : List PostgresQuerySample) (log : List Call) (outputs : List PostgresQuerySample) :
    runDbExplainLoop E db useHelper inputs log outputs =
      ((runDbExplainLoop E db useHelper inputs log []).1,
        outputs ++ (runDbExplainLoop E db useHelper inputs log []).2) := by
  induction inputs generalizing log outputs with
  | nil => simp [runDbExplainLoop]
  | cons sample rest ih =>
    rcases hb : loopBody E db useHelper log sample with ⟨log1, _ | sample1⟩
    · simp only [runDbExplainLoop, hb]
      exact ih log1 outputs
    · simp only [runDbExplainLoop, hb]
      rw [ih log1 (outputs ++ [sample1]), ih log1 ([] ++ [sample1])]
      simp

theorem runDbExplain_nil (E : Deps) (db : Driver) (useHelper : Bool) (log : List Call) :
    runDbExplain E db [] useHelper log = (log, []) := rfl

/-- The function `runDbExplain` on a non-empty list: one iteration, then the rest of the
list on the log the iteration leaves. -/
theorem runDbExplain_cons (E : Deps) (db : Driver) (useHelper : Bool) (log : List Call)
    (sample : PostgresQuerySample) (rest : List PostgresQuerySample) :
    runDbExplain E db (sample :: rest) useHelper log =
      ((runDbExplain E db rest useHelper (loopBody E db useHelper log sample).1).1,
        (loopBody E db useHelper log sample).2.toList ++
          (runDbExplain E db rest useHelper (loopBody E db useHelper log sample).1).2) := by
  unfold runDbExplain
  rcases hb : loopBody E db useHelper log sample with ⟨log1, _ | sample1⟩
  · simp [runDbExplainLoop, hb]
  · simp only [runDbExplainLoop, hb]
    rw [runDbExplainLoop_acc]
    simp

/-- The function `runDbExplain` on a concatenation: the first list, then the second on
the log the first leaves. -/
theorem runDbExplain_append (E : Deps) (db : Driver) (useHelper : Bool)
    (xs ys : List PostgresQuerySample) (log : List Call) :
    runDbExplain E db (xs ++ ys) useHelper log =
      ((runDbExplain E db ys useHelper (runDbExplain E db xs useHelper log).1).1,
        (runDbExplain E db xs useHelper log).2 ++
          (runDbExplain E db ys useHelper (runDbExplain E db xs useHelper log).1).2) := by
  induction xs generalizing log with
  | nil => simp [runDbExplain_nil]
  | cons x xs ih =>
    rw [List.cons_append, runDbExplain_cons, ih, runDbExplain_cons]
    simp

/-- Every output of `runDbExplain` is appended by the iteration on one of the inputs. -/
theorem runDbExplain_mem (E : Deps) (db : Driver) (useHelper : Bool)
    (inputs : List PostgresQuerySample) (log : List Call) (out : PostgresQuerySample)
    (h : out ∈ (runDbExplain E db inputs useHelper log).2) :
    ∃ sample ∈ inputs, ∃ log1, (loopBody E db useHelper log1 sample).2 = some out := by
  induction inputs generalizing log with
  | nil => simp [runDbExplain_nil] at h
  | cons x xs ih =>
    rw [runDbExplain_cons] at h
    simp only [List.mem_append, Option.mem_toList, Option.mem_def] at h
    rcases h with h | h
    · exact ⟨x, List.mem_cons_self _ _, log, h⟩
    · obtain ⟨sample, hm, log1, hb⟩ := ih _ h
      exact ⟨sample, List.mem_cons_of_mem _ hm, log1, hb⟩

/-- The scan writes `ExplainOutput` or `ExplainError` and nothing else. -/
theorem recordScan_fields (sample : PostgresQuerySample) (r : ScanReply) :
    (recordScan sample r).Database = sample.Database ∧
    (recordScan sample r).Query = sample.Query ∧
    (recordScan sample r).Parameters = sample.Parameters ∧
    (recordScan sample r).HasExplain = sample.HasExplain ∧
    (recordScan sample r).ExplainSource = sample.ExplainSource ∧
    (recordScan sample r).ExplainFormat = sample.ExplainFormat := by
  cases r <;> simp [recordScan]

/-- The sample appended by the `case` of the type switch is the result of one scan. -/
theorem explainCase_some (E : Deps) (db : Driver) (useHelper : Bool) (log : List Call)
    (sample out : PostgresQuerySample) (h : (explainCase E db useHelper log sample).2 = some out) :
    ∃ r, out = recordScan sample r := by
  unfold explainCase at h
  split at h
  · exact ⟨_, (Option.some.inj h).symm⟩
  · split at h
    · split at h
      · cases h
      · exact ⟨_, (Option.some.inj h).symm⟩
    · exact ⟨_, (Option.some.inj h).symm⟩

/-- An iteration appends at most a sample with the database, query and parameters of the
one it was given. -/
theorem loopBody_key (E : Deps) (db : Driver) (useHelper : Bool) (log : List Call)
    (sample out : PostgresQuerySample) (h : (loopBody E db useHelper log sample).2 = some out) :
    sampleKey out = sampleKey sample := by
  by_cases he : Eligible E sample
  · rw [loopBody_eligible E db useHelper log sample he] at h
    obtain ⟨r, rfl⟩ := explainCase_some E db useHelper log _ out h
    obtain ⟨h1, h2, h3, -⟩ := recordScan_fields (markExplain sample) r
    unfold sampleKey
    rw [h1, h2, h3]
    rfl
  · rcases loopBody_ineligible E db useHelper sample ((not_eligible_iff E sample).mp he)
      with hb | hb
    · rw [hb] at h; cases h
    · rw [hb] at h; cases h; rfl

/-- A sample whose query does not parse to exactly one statement is skipped without a
call. -/
theorem loopBody_not_parsesToOne (E : Deps) (db : Driver) (useHelper : Bool) (log : List Call)
    (sample : PostgresQuerySample) (h : parsesToOne E sample = false) :
    loopBody E db useHelper log sample = (log, none) := by
  unfold parsesToOne at h
  unfold loopBody
  cases hp : E.Parse sample.Query with
  | error err => rfl
  | ok tree =>
    rw [hp] at h
    obtain ⟨stmts⟩ := tree
    match stmts, h with
    | [], _ => rfl
    | [_], h => simp at h
    | _ :: _ :: _, _ => rfl

/-- A sample whose query parses to exactly one statement is appended, unless its `PREPARE`
fails. -/
theorem loopBody_emits (E : Deps) (db : Driver) (useHelper : Bool) (log : List Call)
    (sample : PostgresQuerySample) (h : parsesToOne E sample = true)
    (hp : useHelper = true ∨ db.Exec log (prepareSQL E sample) = none) :
    ∃ out, (loopBody E db useHelper log sample).2 = some out := by
  by_cases he : Eligible E sample
  · rw [loopBody_eligible E db useHelper log sample he]
    unfold explainCase
    rcases hp with hp | hp
    · simp [hp]
    · have hq : prepareSQL E (markExplain sample) = prepareSQL E sample := rfl
      by_cases hu : useHelper = true
      · simp [hu]
      · by_cases hl : (markExplain sample).Parameters.length > 0
        · simp [hu, hl, hq, hp]
        · simp [hu, hl]
  · rcases loopBody_ineligible E db useHelper sample ((not_eligible_iff E sample).mp he)
      with hb | hb
    · exfalso
      unfold parsesToOne at h
      unfold loopBody at hb
      have hb2 := hb log
      cases hq : E.Parse sample.Query with
      | error err => rw [hq] at h; simp at h
      | ok tree =>
        rw [hq] at h
        obtain ⟨stmts⟩ := tree
        match stmts, h with
        | [raw], _ =>
          rw [hq] at hb2
          by_cases hx : raw.Stmt.isExplainable = true
          · exact he ⟨raw, hq, (isExplainable_iff _).mp hx⟩
          · simp [hx] at hb2
        | [], h => simp at h
        | _ :: _ :: _, h => simp at h
    · exact ⟨sample, by rw [hb]⟩

/-! ## C1: ineligible samples -/

/-- C1: for every helper flag, parameter list and connection behaviour, the iteration of
`runDbExplain` on a sample whose query fails to parse, parses to a number of statements
other than one, or parses to one statement that is not a SELECT, INSERT, UPDATE or DELETE
issues no call (the log is unchanged) and appends either nothing or the sample exactly as
it was; in a run over a list holding the sample, the calls issued are those of the run
without it, and the outputs are those of the samples before it, the sample unmodified (or
nothing), and those of the samples after it. -/
theorem runDbExplain_ineligible_no_command (E : Deps) (db : Driver) (useHelper : Bool)
    (log : List Call) (sample : PostgresQuerySample) (before after : List PostgresQuerySample)
    (h : Ineligible E sample) :
    (loopBody E db useHelper log sample).1 = log ∧
    ((loopBody E db useHelper log sample).2 = none ∨
      (loopBody E db useHelper log sample).2 = some sample) ∧
    (runDbExplain E db (before ++ sample :: after) useHelper log).1 =
      (runDbExplain E db (before ++ after) useHelper log).1 ∧
    (runDbExplain E db (before ++ sample :: after) useHelper log).2 =
      (runDbExplain E db before useHelper log).2 ++
        (loopBody E db useHelper log sample).2.toList ++
        (runDbExplain E db after useHelper (runDbExplain E db before useHelper log).1).2 := by
  rcases loopBody_ineligible E db useHelper sample h with hb | hb
  · refine ⟨by rw [hb], Or.inl (by rw [hb]), ?_, ?_⟩
    · rw [runDbExplain_append, runDbExplain_append, runDbExplain_cons, hb]
    · rw [runDbExplain_append, runDbExplain_cons, hb, hb]
      simp
  · refine ⟨by rw [hb], Or.inr (by rw [hb]), ?_, ?_⟩
    · rw [runDbExplain_append, runDbExplain_append, runDbExplain_cons, hb]
    · rw [runDbExplain_append, runDbExplain_cons, hb, hb]
      simp

/-- C1, at a concrete input: a `VACUUM` between two eligible samples. -/
theorem runDbExplain_ineligible_no_command_witness :
    Ineligible sampleDeps (mkSample "appdb" "VACUUM" ["1"]) ∧
    (loopBody sampleDeps (failDriver "boom") false [] (mkSample "appdb" "VACUUM" ["1"])).1 = [] ∧
    (runDbExplain sampleDeps (failDriver "boom")
        ([mkSample "" "SELECT 1" []] ++ mkSample "appdb" "VACUUM" ["1"] ::
          [mkSample "" "UPDATE t SET a = 1" []]) false []).1 =
      (runDbExplain sampleDeps (failDriver "boom")
        ([mkSample "" "SELECT 1" []] ++ [mkSample "" "UPDATE t SET a = 1" []]) false []).1 :=
  have h : Ineligible sampleDeps (mkSample "appdb" "VACUUM" ["1"]) :=
    Or.inr (Or.inr ⟨⟨Node.Other "VacuumStmt"⟩, rfl, by decide, by decide, by decide,
      by decide⟩)
  have t := runDbExplain_ineligible_no_command sampleDeps (failDriver "boom") false []
    (mkSample "appdb" "VACUUM" ["1"]) [mkSample "" "SELECT 1" []]
    [mkSample "" "UPDATE t SET a = 1" []] h
  ⟨h, t.1, t.2.2.1⟩

/-! ## C2: which samples reach the output -/

/-- The output of `runDbExplain` is never longer than its input. -/
theorem runDbExplain_length_le (E : Deps) (db : Driver) (useHelper : Bool)
    (inputs : List PostgresQuerySample) (log : List Call) :
    (runDbExplain E db inputs useHelper log).2.length ≤ inputs.length := by
  induction inputs generalizing log with
  | nil => simp [runDbExplain_nil]
  | cons x xs ih =>
    rw [runDbExplain_cons]
    have h1 := ih (loopBody E db useHelper log x).1
    cases hb : (loopBody E db useHelper log x).2 <;> simp <;> omega

/-- Samples whose query does not parse to exactly one statement can be removed from the
input without changing the run. -/
theorem runDbExplain_filter_parsesToOne (E : Deps) (db : Driver) (useHelper : Bool)
    (inputs : List PostgresQuerySample) (log : List Call) :
    runDbExplain E db inputs useHelper log =
      runDbExplain E db (inputs.filter (parsesToOne E)) useHelper log := by
  induction inputs generalizing log with
  | nil => rfl
  | cons x xs ih =>
    cases hx : parsesToOne E x
    · rw [List.filter_cons_of_neg (by simp [hx]), runDbExplain_cons,
        loopBody_not_parsesToOne E db useHelper log x hx]
      simp [ih]
    · rw [List.filter_cons_of_pos hx, runDbExplain_cons, runDbExplain_cons, ih]

/-- When every query parses to exactly one statement and no `PREPARE` fails (or the helper
is used), the outputs are the inputs, one for one and in order. -/
theorem runDbExplain_keys (E : Deps) (db : Driver) (useHelper : Bool)
    (inputs : List PostgresQuerySample) (log : List Call)
    (hone : ∀ sample ∈ inputs, parsesToOne E sample = true)
    (hprep : useHelper = true ∨
      ∀ sample ∈ inputs, ∀ l, db.Exec l (prepareSQL E sample) = none) :
    (runDbExplain E db inputs useHelper log).2.map sampleKey = inputs.map sampleKey := by
  induction inputs generalizing log with
  | nil => rfl
  | cons x xs ih =>
    rw [runDbExplain_cons]
    have hx : useHelper = true ∨ db.Exec log (prepareSQL E x) = none :=
      hprep.imp id (fun h => h x (List.mem_cons_self _ _) log)
    obtain ⟨out, ho⟩ := loopBody_emits E db useHelper log x
      (hone x (List.mem_cons_self _ _)) hx
    have hk := loopBody_key E db useHelper log x out ho
    have hrest := ih (loopBody E db useHelper log x).1
      (fun s hs => hone s (List.mem_cons_of_mem _ hs))
      (hprep.imp id (fun h s hs => h s (List.mem_cons_of_mem _ hs)))
    simp [ho, hk, hrest]

/-- C2 fails as stated: a sample whose query does not parse and a sample whose text holds
two statements are handed to `runDbExplain`, and neither is in its output, which is
empty. -/
theorem runDbExplain_drops_unparsed :
    ¬ ((runDbExplain sampleDeps (okDriver "[]")
        [mkSample "appdb" "SELEC 1" [], mkSample "appdb" "SELECT 1; SELECT 2" []]
        false []).2.length =
      [mkSample "appdb" "SELEC 1" [], mkSample "appdb" "SELECT 1; SELECT 2" []].length) := by
  decide

/-- C2, amended: for every input list, helper flag and connection behaviour, the output
of `runDbExplain` is never longer than the input; the samples whose query fails to parse
or parses to a number of statements other than one are omitted from it (the run is the
run on the input without them); and when every query parses to exactly one statement and
the helper is used or no `PREPARE` fails, every sample appears exactly once, in input
order, so the output has the length of the input. -/
theorem runDbExplain_outputs_once (E : Deps) (db : Driver) (useHelper : Bool)
    (inputs : List PostgresQuerySample) (log : List Call) :
    (runDbExplain E db inputs useHelper log).2.length ≤ inputs.length ∧
    runDbExplain E db inputs useHelper log =
      runDbExplain E db (inputs.filter (parsesToOne E)) useHelper log ∧
    ((∀ sample ∈ inputs, parsesToOne E sample = true) →
      (useHelper = true ∨ ∀ sample ∈ inputs, ∀ l, db.Exec l (prepareSQL E sample) = none) →
      (runDbExplain E db inputs useHelper log).2.map sampleKey = inputs.map sampleKey ∧
      (runDbExplain E db inputs useHelper log).2.length = inputs.length) := by
  refine ⟨runDbExplain_length_le E db useHelper inputs log,
    runDbExplain_filter_parsesToOne E db useHelper inputs log, ?_⟩
  intro hone hprep
  have hk := runDbExplain_keys E db useHelper inputs log hone hprep
  refine ⟨hk, ?_⟩
  have := congrArg List.length hk
  simpa using this

/-- C2, amended, at a concrete input: a parameterized SELECT, a `VACUUM` and an UPDATE on
a connection where every call succeeds. -/
theorem runDbExplain_outputs_once_witness :
    (runDbExplain sampleDeps (okDriver "[]")
      [mkSample "appdb" "SELECT * FROM t WHERE id = $1" ["5"], mkSample "appdb" "VACUUM" [],
        mkSample "" "UPDATE t SET a = 1" []] false []).2.map sampleKey =
      [mkSample "appdb" "SELECT * FROM t WHERE id = $1" ["5"], mkSample "appdb" "VACUUM" [],
        mkSample "" "UPDATE t SET a = 1" []].map sampleKey :=
  ((runDbExplain_outputs_once sampleDeps (okDriver "[]") false
    [mkSample "appdb" "SELECT * FROM t WHERE id = $1" ["5"], mkSample "appdb" "VACUUM" [],
      mkSample "" "UPDATE t SET a = 1" []] []).2.2
    (by decide) (Or.inr (fun _ _ _ => rfl))).1

/-! ## C4: the skip predicate -/

theorem contains_iff (strs : List String) (val : String) :
    contains strs val = true ↔ val ∈ strs := by
  induction strs with
  | nil => simp [contains]
  | cons str rest ih =>
    unfold contains
    by_cases h : str = val
    · simp [h]
    · have h2 : ¬ val = str := fun e => h e.symm
      simp [h, h2, ih]

theorem stringsHasPrefix_iff (s pre : String) :
    stringsHasPrefix s pre = true ↔ StartsWith s pre := by
  unfold stringsHasPrefix StartsWith
  rw [List.isPrefixOf_iff_prefix]
  constructor
  · rintro ⟨t, ht⟩
    exact ⟨String.mk t, String.ext_iff.mpr (by simp [ht])⟩
  · rintro ⟨rest, rfl⟩
    exact ⟨rest.data, by simp⟩

theorem stringsContains_iff (s substr : String) :
    stringsContains s substr = true ↔ ContainsText s substr := by
  unfold stringsContains ContainsText
  simp only [List.any_eq_true, List.isPrefixOf_iff_prefix, List.mem_tails]
  constructor
  · rintro ⟨t, ⟨a, ha⟩, ⟨b, hb⟩⟩
    refine ⟨String.mk a, String.mk b, String.ext_iff.mpr ?_⟩
    simp [← ha, ← hb]
  · rintro ⟨before, after, rfl⟩
    exact ⟨substr.data ++ after.data, ⟨before.data, by simp⟩, ⟨after.data, rfl⟩⟩

/-- C4: the skip predicate of the Router is true for a sample exactly when its database
is not monitored, or `HasExplain` is true, or its query starts with the internal marker,
or its query contains `pg_start_backup` or `pg_stop_backup`, where a database is
monitored exactly when it is empty, equals the configured name, the all-databases flag is
set, or it is among the extra names.  Hence a query containing `pg_start_backup` is
skipped for every database and configuration, and a sample with the empty database is
skipped only on one of the other three grounds. -/
theorem skip_iff (E : Deps) (server : Server) (sample : PostgresQuerySample) :
    (skip E server sample = true ↔
      (¬ Monitored server sample.Database ∨ sample.HasExplain = true ∨
        StartsWith sample.Query E.QueryMarkerSQL ∨
        ContainsText sample.Query "pg_start_backup" ∨
        ContainsText sample.Query "pg_stop_backup")) ∧
    (ContainsText sample.Query "pg_start_backup" → skip E server sample = true) ∧
    (sample.Database = "" → Monitored server sample.Database ∧
      (skip E server sample = true ↔
        (sample.HasExplain = true ∨ StartsWith sample.Query E.QueryMarkerSQL ∨
          ContainsText sample.Query "pg_start_backup" ∨
          ContainsText sample.Query "pg_stop_backup"))) := by
  have main : skip E server sample = true ↔
      (¬ Monitored server sample.Database ∨ sample.HasExplain = true ∨
        StartsWith sample.Query E.QueryMarkerSQL ∨
        ContainsText sample.Query "pg_start_backup" ∨
        ContainsText sample.Query "pg_stop_backup") := by
    unfold skip Monitored
    simp only [Bool.or_eq_true, Bool.not_eq_true', beq_iff_eq, contains_iff,
      stringsHasPrefix_iff, stringsContains_iff, or_assoc]
    constructor
    · rintro (h | h)
      · left
        simp only [Bool.or_eq_false_iff, beq_eq_false_iff_ne, ne_eq] at h
        obtain ⟨⟨⟨h1, h2⟩, h3⟩, h4⟩ := h
        rintro (g | g | g | g)
        · exact h1 g
        · exact h2 g
        · simp [g] at h3
        · rw [← contains_iff] at g
          simp [g] at h4
      · exact Or.inr h
    · rintro (h | h)
      · left
        simp only [not_or] at h
        obtain ⟨h1, h2, h3, h4⟩ := h
        rw [← contains_iff] at h4
        simp [h1, h2, h3, h4]
      · exact Or.inr h
  refine ⟨main, fun h => main.mpr (Or.inr (Or.inr (Or.inr (Or.inl h)))), ?_⟩
  intro hd
  have hm : Monitored server sample.Database := Or.inl hd
  refine ⟨hm, main.trans ⟨?_, Or.inr⟩⟩
  rintro (h | h)
  · exact absurd hm h
  · exact h

/-- C4, at a concrete input: the query `pg_start_backup('x')` on the empty database. -/
theorem skip_iff_witness :
    skip sampleDeps appdbServer (mkSample "" "SELECT pg_start_backup('x')" []) = true ∧
    Monitored appdbServer (mkSample "" "SELECT pg_start_backup('x')" []).Database :=
  have t := skip_iff sampleDeps appdbServer
    (mkSample "" "SELECT pg_start_backup('x')" [])
  ⟨t.2.1 ⟨"SELECT ", "('x')", by decide⟩, (t.2.2 rfl).1⟩

/-! ## C3: skipped samples -/

/-- The first loop does not see the skipped samples. -/
theorem groupSamples_filter (E : Deps) (server : Server) (inputs : List PostgresQuerySample)
    (m : SampleMap) :
    groupSamples E server inputs m =
      groupSamples E server (inputs.filter (fun sample => !skip E server sample)) m := by
  induction inputs generalizing m with
  | nil => rfl
  | cons x xs ih =>
    cases hx : skip E server x
    · rw [List.filter_cons_of_pos (by simp [hx])]
      simp only [groupSamples, hx]
      exact ih _
    · rw [List.filter_cons_of_neg (by simp [hx])]
      simp only [groupSamples, hx]
      exact ih _

/-- When every sample is skipped the first loop leaves the map as it was. -/
theorem groupSamples_all_skipped (E : Deps) (server : Server)
    (inputs : List PostgresQuerySample) (m : SampleMap)
    (h : ∀ sample ∈ inputs, skip E server sample = true) :
    groupSamples E server inputs m = m := by
  induction inputs generalizing m with
  | nil => rfl
  | cons x xs ih =>
    simp only [groupSamples, h x (List.mem_cons_self _ _)]
    exact ih m (fun s hs => h s (List.mem_cons_of_mem _ hs))

theorem SampleMap.mem_get (m : SampleMap) (key : String) (sample : PostgresQuerySample)
    (h : sample ∈ m.get key) : ∃ entry ∈ m, sample ∈ entry.2 := by
  induction m with
  | nil => simp [SampleMap.get] at h
  | cons e rest ih =>
    obtain ⟨k, v⟩ := e
    unfold SampleMap.get at h
    by_cases hk : k = key
    · rw [if_pos hk] at h
      exact ⟨(k, v), List.mem_cons_self _ _, h⟩
    · rw [if_neg hk] at h
      obtain ⟨entry, he, hs⟩ := ih h
      exact ⟨entry, List.mem_cons_of_mem _ he, hs⟩

theorem SampleMap.mem_set (m : SampleMap) (key : String) (value : List PostgresQuerySample)
    (entry : String × List PostgresQuerySample) (h : entry ∈ m.set key value) :
    entry.2 = value ∨ entry ∈ m := by
  induction m with
  | nil =>
    simp only [SampleMap.set, List.mem_singleton] at h
    exact Or.inl (by rw [h])
  | cons e rest ih =>
    obtain ⟨k, v⟩ := e
    unfold SampleMap.set at h
    by_cases hk : k = key
    · rw [if_pos hk] at h
      rcases List.mem_cons.mp h with h | h
      · exact Or.inl (by rw [h])
      · exact Or.inr (List.mem_cons_of_mem _ h)
    · rw [if_neg hk] at h
      rcases List.mem_cons.mp h with h | h
      · exact Or.inr (by rw [h]; exact List.mem_cons_self _ _)
      · exact (ih h).imp id (List.mem_cons_of_mem _)

/-- Every sample stored by the first loop is an input that is not skipped, or was in the
map before. -/
theorem groupSamples_mem (E : Deps) (server : Server) (inputs : List PostgresQuerySample)
    (m : SampleMap) (entry : String × List PostgresQuerySample)
    (sample : PostgresQuerySample) (he : entry ∈ groupSamples E server inputs m)
    (hs : sample ∈ entry.2) :
    (sample ∈ inputs ∧ skip E server sample = false) ∨ ∃ old ∈ m, sample ∈ old.2 := by
  induction inputs generalizing m with
  | nil => exact Or.inr ⟨entry, he, hs⟩
  | cons x xs ih =>
    unfold groupSamples at he
    cases hx : skip E server x
    · rw [hx] at he
      simp only [Bool.false_eq_true, if_false] at he
      rcases ih _ he with ⟨h1, h2⟩ | ⟨old, ho, hso⟩
      · exact Or.inl ⟨List.mem_cons_of_mem _ h1, h2⟩
      · rcases SampleMap.mem_set _ _ _ _ ho with h | h
        · rw [h] at hso
          rcases List.mem_append.mp hso with h3 | h3
          · exact Or.inr (SampleMap.mem_get _ _ _ h3)
          · rw [List.mem_singleton] at h3
            exact Or.inl ⟨by rw [h3]; exact List.mem_cons_self _ _, by rw [h3]; exact hx⟩
        · exact Or.inr ⟨old, h, hso⟩
    · rw [hx] at he
      simp only [if_true] at he
      rcases ih _ he with ⟨h1, h2⟩ | h
      · exact Or.inl ⟨List.mem_cons_of_mem _ h1, h2⟩
      · exact Or.inr h

/-- Every output of the second loop was there before or is an output of `runDbExplain` on
the samples of a visited entry. -/
theorem rangeSamplesByDb_mem (E : Deps) (W : World) (server : Server) (entries : SampleMap)
    (events : List Event) (outputs : List PostgresQuerySample) (out : PostgresQuerySample)
    (h : out ∈ (rangeSamplesByDb E W server entries events outputs).2) :
    out ∈ outputs ∨ ∃ entry ∈ entries, ∃ db useHelper,
      out ∈ (runDbExplain E db entry.2 useHelper []).2 := by
  induction entries generalizing events outputs with
  | nil => exact Or.inl h
  | cons e rest ih =>
    obtain ⟨dbName, dbSamples⟩ := e
    unfold rangeSamplesByDb at h
    cases hc : W.EstablishConnection events dbName with
    | error err =>
      rw [hc] at h
      rcases ih _ _ h with h1 | ⟨entry, he, r⟩
      · exact Or.inl h1
      · exact Or.inr ⟨entry, List.mem_cons_of_mem _ he, r⟩
    | ok conn =>
      rw [hc] at h
      rcases ih _ _ h with h1 | ⟨entry, he, r⟩
      · rcases List.mem_append.mp h1 with h2 | h2
        · exact Or.inl h2
        · exact Or.inr ⟨(dbName, dbSamples), List.mem_cons_self _ _, conn.db,
            conn.statsHelperExists, h2⟩
      · exact Or.inr ⟨entry, List.mem_cons_of_mem _ he, r⟩

/-- C3 fails as stated: four samples, one excluded on each ground (a plan already
collected, a database that is not monitored, a marker-prefixed query, a backup-control
query), are all skipped, and none of them is in the output of `RunExplain`, which is
empty. -/
theorem RunExplain_drops_skipped :
    ¬ (∀ sample ∈
        [{ mkSample "appdb" "SELECT 1" [] with HasExplain := true },
          mkSample "other" "SELECT 1" [],
          mkSample "appdb" "/* pganalyze-collector */ SELECT 1" [],
          mkSample "appdb" "SELECT pg_stop_backup()" []],
        skip sampleDeps appdbServer sample = true →
        sample ∈ (RunExplain sampleDeps (plainWorld (okDriver "[plan]")) appdbServer
          [{ mkSample "appdb" "SELECT 1" [] with HasExplain := true },
            mkSample "other" "SELECT 1" [],
            mkSample "appdb" "/* pganalyze-collector */ SELECT 1" [],
            mkSample "appdb" "SELECT pg_stop_backup()" []]).2) := by
  decide

/-- C3, amended: for every input batch and server configuration, the samples the Router
excludes are left out of `RunExplain`: its events and outputs are those of the run on the
batch without the excluded samples; when `range` visits the entries of the map it is
given, a batch in which every sample is excluded yields no event and the empty output,
and every output sample has the database, query and parameters of an input sample that
is not excluded. -/
theorem RunExplain_skipped_omitted (E : Deps) (W : World) (server : Server)
    (inputs : List PostgresQuerySample) :
    RunExplain E W server inputs =
      RunExplain E W server (inputs.filter (fun sample => !skip E server sample)) ∧
    (W.Valid → (∀ sample ∈ inputs, skip E server sample = true) →
      RunExplain E W server inputs = ([], [])) ∧
    (W.Valid → ∀ out ∈ (RunExplain E W server inputs).2,
      ∃ sample ∈ inputs, skip E server sample = false ∧ sampleKey out = sampleKey sample) := by
  refine ⟨?_, ?_, ?_⟩
  · unfold RunExplain
    rw [groupSamples_filter]
  · intro hv hall
    unfold RunExplain
    rw [groupSamples_all_skipped E server inputs [] hall]
    have hnil : W.rangeOrder [] = [] := List.Perm.eq_nil (hv [])
    rw [hnil]
    rfl
  · intro hv out hout
    unfold RunExplain at hout
    rcases rangeSamplesByDb_mem E W server _ [] [] out hout with h | ⟨entry, he, db, u, hr⟩
    · cases h
    · have he2 : entry ∈ groupSamples E server inputs [] := (hv _).subset he
      obtain ⟨sample, hs, log1, hb⟩ := runDbExplain_mem E db u entry.2 [] out hr
      have hk := loopBody_key E db u log1 sample out hb
      rcases groupSamples_mem E server inputs [] entry sample he2 hs with ⟨h1, h2⟩ | ⟨old, ho, _⟩
      · exact ⟨sample, h1, h2, hk⟩
      · cases ho

/-- C3, amended, at a concrete input: a batch of two excluded samples. -/
theorem RunExplain_skipped_omitted_witness :
    RunExplain sampleDeps (plainWorld (okDriver "[plan]")) appdbServer
      [{ mkSample "appdb" "SELECT 1" [] with HasExplain := true },
        mkSample "other" "SELECT 1" []] = ([], []) :=
  (RunExplain_skipped_omitted sampleDeps (plainWorld (okDriver "[plan]")) appdbServer
    [{ mkSample "appdb" "SELECT 1" [] with HasExplain := true },
      mkSample "other" "SELECT 1" []]).2.1 (fun _ => List.Perm.refl _) (by decide)

/-! ## C5 to C8: the three strategies -/

/-- The `case` of the type switch on the path without helper and with parameters. -/
theorem explainCase_prepared (E : Deps) (db : Driver) (log : List Call)
    (sample : PostgresQuerySample) (hp : sample.Parameters ≠ []) :
    explainCase E db false log sample =
      match db.Exec log (prepareSQL E sample) with
      | some _ => (log ++ [Call.Exec (prepareSQL E sample)], none)
      | none =>
        (log ++ [Call.Exec (prepareSQL E sample), Call.QueryRow (explainExecuteSQL E sample) [],
            Call.Exec (deallocateSQL E)],
          some (recordScan sample
            (db.QueryRow (log ++ [Call.Exec (prepareSQL E sample)])
              (explainExecuteSQL E sample) []))) := by
  have hl : sample.Parameters.length > 0 := List.length_pos.mpr hp
  unfold explainCase
  simp only [Bool.false_eq_true, if_false, hl, if_true]
  cases db.Exec log (prepareSQL E sample) <;> simp

/-- The `case` of the type switch on the path without helper and without parameters. -/
theorem explainCase_direct (E : Deps) (db : Driver) (log : List Call)
    (sample : PostgresQuerySample) (hp : sample.Parameters = []) :
    explainCase E db false log sample =
      (log ++ [Call.QueryRow (explainSQL E sample) []],
        some (recordScan sample (db.QueryRow log (explainSQL E sample) []))) := by
  unfold explainCase
  simp [hp]

/-- The `case` of the type switch on the helper path. -/
theorem explainCase_helper (E : Deps) (db : Driver) (log : List Call)
    (sample : PostgresQuerySample) :
    explainCase E db true log sample =
      (log ++ [Call.QueryRow (helperSQL E) [Arg.text sample.Query, Arg.array sample.Parameters]],
        some (recordScan sample (db.QueryRow log (helperSQL E)
          [Arg.text sample.Query, Arg.array sample.Parameters]))) := by
  unfold explainCase
  simp

/-- C5: for an eligible sample with at least one parameter and no helper, the calls
issued are, in order and with nothing in between, the marker-prefixed
`PREPARE pganalyze_explain AS <Query>`, and then, only when the `PREPARE` succeeded,
`EXPLAIN (VERBOSE, FORMAT JSON) EXECUTE pganalyze_explain(<quoted parameters>)` followed
by `DEALLOCATE pganalyze_explain`: the `DEALLOCATE` is issued whatever the outcome of the
`EXPLAIN EXECUTE`, its own outcome changes nothing (a connection that answers the
`PREPARE` and the `EXPLAIN EXECUTE` alike yields the same calls and the same sample), and
when the `PREPARE` fails it is the only call. -/
theorem runDbExplain_prepared_sequence (E : Deps) (db : Driver) (log : List Call)
    (sample : PostgresQuerySample) (h : Eligible E sample) (hp : sample.Parameters ≠ []) :
    (∀ err, db.Exec log (E.QueryMarkerSQL ++ "PREPARE pganalyze_explain AS " ++ sample.Query)
        = some err →
      (loopBody E db false log sample).1 =
        log ++ [Call.Exec (E.QueryMarkerSQL ++ "PREPARE pganalyze_explain AS " ++ sample.Query)]) ∧
    (db.Exec log (E.QueryMarkerSQL ++ "PREPARE pganalyze_explain AS " ++ sample.Query) = none →
      (loopBody E db false log sample).1 =
        log ++ [Call.Exec (E.QueryMarkerSQL ++ "PREPARE pganalyze_explain AS " ++ sample.Query),
          Call.QueryRow (E.QueryMarkerSQL ++
            "EXPLAIN (VERBOSE, FORMAT JSON) EXECUTE pganalyze_explain(" ++
            getQuotedParamsStr E sample.Parameters ++ ")") [],
          Call.Exec (E.QueryMarkerSQL ++ "DEALLOCATE pganalyze_explain")]) ∧
    (∀ db2 : Driver,
      db2.Exec log (prepareSQL E sample) = db.Exec log (prepareSQL E sample) →
      db2.QueryRow (log ++ [Call.Exec (prepareSQL E sample)]) (explainExecuteSQL E sample) [] =
        db.QueryRow (log ++ [Call.Exec (prepareSQL E sample)]) (explainExecuteSQL E sample) [] →
      loopBody E db2 false log sample = loopBody E db false log sample) := by
  have hq : prepareSQL E (markExplain sample) = prepareSQL E sample := rfl
  have hx : explainExecuteSQL E (markExplain sample) = explainExecuteSQL E sample := rfl
  have hpm : (markExplain sample).Parameters ≠ [] := hp
  have body : ∀ d : Driver, loopBody E d false log sample =
      match d.Exec log (prepareSQL E sample) with
      | some _ => (log ++ [Call.Exec (prepareSQL E sample)], none)
      | none =>
        (log ++ [Call.Exec (prepareSQL E sample), Call.QueryRow (explainExecuteSQL E sample) [],
            Call.Exec (deallocateSQL E)],
          some (recordScan (markExplain sample)
            (d.QueryRow (log ++ [Call.Exec (prepareSQL E sample)])
              (explainExecuteSQL E sample) []))) := by
    intro d
    rw [loopBody_eligible E d false log sample h, explainCase_prepared E d log _ hpm, hq, hx]
  refine ⟨?_, ?_, ?_⟩
  · intro err he
    have he2 : db.Exec log (prepareSQL E sample) = some err := he
    rw [body db, he2]
    rfl
  · intro he
    have he2 : db.Exec log (prepareSQL E sample) = none := he
    rw [body db, he2]
    rfl
  · intro db2 h1 h2
    rw [body db2, body db, h1, h2]

/-- C5, at a concrete input: the query `SELECT * FROM t WHERE id = $1` with the parameter
`5` on a connection where every call succeeds. -/
theorem runDbExplain_prepared_sequence_witness :
    (loopBody sampleDeps (okDriver "[plan]") false []
      (mkSample "appdb" "SELECT * FROM t WHERE id = $1" ["5"])).1 =
      [Call.Exec "/* pganalyze-collector */ PREPARE pganalyze_explain AS SELECT * FROM t WHERE id = $1",
        Call.QueryRow
          "/* pganalyze-collector */ EXPLAIN (VERBOSE, FORMAT JSON) EXECUTE pganalyze_explain('5')" [],
        Call.Exec "/* pganalyze-collector */ DEALLOCATE pganalyze_explain"] :=
  ((runDbExplain_prepared_sequence sampleDeps (okDriver "[plan]") []
    (mkSample "appdb" "SELECT * FROM t WHERE id = $1" ["5"])
    ⟨⟨Node.SelectStmt⟩, rfl, Or.inl rfl⟩ (by decide)).2.1 rfl).trans (by decide)

/-! ## C6: a failing `PREPARE` -/

/-- C6, the code at the failing input: for the eligible sample
`SELECT * FROM t WHERE id = $1` with the parameter `5`, without helper, on a connection
whose `PREPARE` fails with `boom`, `runDbExplain` issues the `PREPARE` and returns no
sample at all: the error text it stored in `ExplainError` is lost with the sample. -/
theorem runDbExplain_prepare_failure_drops :
    runDbExplain sampleDeps (failDriver "boom")
      [mkSample "appdb" "SELECT * FROM t WHERE id = $1" ["5"]] false [] =
      ([Call.Exec "/* pganalyze-collector */ PREPARE pganalyze_explain AS SELECT * FROM t WHERE id = $1"],
        []) := by
  decide

/-! ## C7: the direct `EXPLAIN` -/

/-- C7: for an eligible sample with no parameter and no helper, the iteration issues
exactly one call, a query of the text made of the internal marker,
`EXPLAIN (VERBOSE, FORMAT JSON) ` and the query of the sample, with no bind argument; when
it succeeds the sample is appended with the returned text as `ExplainOutput`. -/
theorem runDbExplain_direct_explain (E : Deps) (db : Driver) (log : List Call)
    (sample : PostgresQuerySample) (h : Eligible E sample) (hp : sample.Parameters = []) :
    (loopBody E db false log sample).1 =
      log ++ [Call.QueryRow
        (E.QueryMarkerSQL ++ "EXPLAIN (VERBOSE, FORMAT JSON) " ++ sample.Query) []] ∧
    (∀ plan,
      db.QueryRow log (E.QueryMarkerSQL ++ "EXPLAIN (VERBOSE, FORMAT JSON) " ++ sample.Query) []
        = .ok plan →
      ∃ out, (loopBody E db false log sample).2 = some out ∧ out.ExplainOutput = plan) := by
  have hq : explainSQL E (markExplain sample) =
      E.QueryMarkerSQL ++ "EXPLAIN (VERBOSE, FORMAT JSON) " ++ sample.Query := rfl
  have hpm : (markExplain sample).Parameters = [] := hp
  rw [loopBody_eligible E db false log sample h, explainCase_direct E db log _ hpm, hq]
  refine ⟨rfl, ?_⟩
  intro plan hplan
  refine ⟨_, rfl, ?_⟩
  rw [hplan]
  rfl

/-- C7, at a concrete input: the query `SELECT 1` on the empty database. -/
theorem runDbExplain_direct_explain_witness :
    (loopBody sampleDeps (okDriver "[plan]") false [] (mkSample "" "SELECT 1" [])).1 =
      [Call.QueryRow "/* pganalyze-collector */ EXPLAIN (VERBOSE, FORMAT JSON) SELECT 1" []] ∧
    ∃ out, (loopBody sampleDeps (okDriver "[plan]") false [] (mkSample "" "SELECT 1" [])).2 =
      some out ∧ out.ExplainOutput = "[plan]" :=
  have t := runDbExplain_direct_explain sampleDeps (okDriver "[plan]") []
    (mkSample "" "SELECT 1" []) ⟨⟨Node.SelectStmt⟩, rfl, Or.inl rfl⟩ rfl
  ⟨t.1.trans (by decide), t.2 "[plan]" rfl⟩

/-! ## C8: the helper -/

/-- C8: for an eligible sample, when the helper is available and whatever the number of
parameters, the iteration issues exactly one call: the query of the fixed text made of
the marker and `SELECT pganalyze.explain($1, $2)`, with two bind arguments, the query of
the sample as it is and its parameter list as it is.  The text holds neither the query
nor a parameter, and no `PREPARE`, `EXPLAIN` or `DEALLOCATE` is issued. -/
theorem runDbExplain_helper_call (E : Deps) (db : Driver) (log : List Call)
    (sample : PostgresQuerySample) (h : Eligible E sample) :
    (loopBody E db true log sample).1 =
      log ++ [Call.QueryRow (E.QueryMarkerSQL ++ "SELECT pganalyze.explain($1, $2)")
        [Arg.text sample.Query, Arg.array sample.Parameters]] := by
  rw [loopBody_eligible E db true log sample h, explainCase_helper]
  rfl

/-- C8, at a concrete input: a parameter holding a quote and a backslash is passed as it
is. -/
theorem runDbExplain_helper_call_witness :
    (loopBody sampleDeps (okDriver "[plan]") true []
      (mkSample "appdb" "SELECT * FROM t WHERE id = $1" ["a'b\\c"])).1 =
      [Call.QueryRow "/* pganalyze-collector */ SELECT pganalyze.explain($1, $2)"
        [Arg.text "SELECT * FROM t WHERE id = $1", Arg.array ["a'b\\c"]]] :=
  (runDbExplain_helper_call sampleDeps (okDriver "[plan]") []
    (mkSample "appdb" "SELECT * FROM t WHERE id = $1" ["a'b\\c"])
    ⟨⟨Node.SelectStmt⟩, rfl, Or.inl rfl⟩).trans (by decide)

/-! ## C9: the outcome of the plan-capturing command -/

theorem recordScan_recorded (sample : PostgresQuerySample) (reply : ScanReply) :
    Recorded reply sample (recordScan (markExplain sample) reply) := by
  cases reply <;> exact ⟨rfl, rfl⟩

/-- A sample appended by an iteration is the input sample, or the marked sample after
one scan. -/
theorem loopBody_some_cases (E : Deps) (db : Driver) (useHelper : Bool) (log : List Call)
    (sample out : PostgresQuerySample) (h : (loopBody E db useHelper log sample).2 = some out) :
    (¬ Eligible E sample ∧ out = sample) ∨
      (Eligible E sample ∧ ∃ r, out = recordScan (markExplain sample) r) := by
  by_cases he : Eligible E sample
  · rw [loopBody_eligible E db useHelper log sample he] at h
    exact Or.inr ⟨he, explainCase_some E db useHelper log _ out h⟩
  · rcases loopBody_ineligible E db useHelper sample ((not_eligible_iff E sample).mp he)
      with hb | hb
    · rw [hb] at h; cases h
    · rw [hb] at h; cases h; exact Or.inl ⟨he, rfl⟩

/-- The log after an iteration extends the log before it. -/
theorem loopBody_extends_log (E : Deps) (db : Driver) (useHelper : Bool) (log : List Call)
    (sample : PostgresQuerySample) : log <+: (loopBody E db useHelper log sample).1 := by
  by_cases he : Eligible E sample
  · rw [loopBody_eligible E db useHelper log sample he]
    cases useHelper
    · by_cases hp : (markExplain sample).Parameters = []
      · rw [explainCase_direct E db log _ hp]
        exact List.prefix_append _ _
      · rw [explainCase_prepared E db log _ hp]
        cases db.Exec log (prepareSQL E (markExplain sample)) <;> exact List.prefix_append _ _
    · rw [explainCase_helper]
      exact List.prefix_append _ _
  · rcases loopBody_ineligible E db useHelper sample ((not_eligible_iff E sample).mp he)
      with hb | hb <;> rw [hb]

/-- An iteration depends on the connection only through the reply to an `Exec` after
`log`, to a `QueryRow` after `log`, and to a `QueryRow` after `log` and the `PREPARE`. -/
theorem loopBody_congr (E : Deps) (db db2 : Driver) (useHelper : Bool) (log : List Call)
    (sample : PostgresQuerySample) (h1 : db2.Exec log = db.Exec log)
    (h2 : db2.QueryRow log = db.QueryRow log)
    (h3 : db2.QueryRow (log ++ [Call.Exec (prepareSQL E sample)]) =
      db.QueryRow (log ++ [Call.Exec (prepareSQL E sample)])) :
    loopBody E db2 useHelper log sample = loopBody E db useHelper log sample := by
  have hq : prepareSQL E (markExplain sample) = prepareSQL E sample := rfl
  unfold loopBody explainCase
  simp only [hq, h1, h2, h3]

/-- Two connections that answer alike from `log` on yield the same run from `log`. -/
theorem runDbExplain_congr (E : Deps) (db db2 : Driver) (useHelper : Bool)
    (inputs : List PostgresQuerySample) (log : List Call)
    (h : ∀ l, log <+: l → db2.Exec l = db.Exec l ∧ db2.QueryRow l = db.QueryRow l) :
    runDbExplain E db2 inputs useHelper log = runDbExplain E db inputs useHelper log := by
  induction inputs generalizing log with
  | nil => rfl
  | cons x xs ih =>
    have hb : loopBody E db2 useHelper log x = loopBody E db useHelper log x :=
      loopBody_congr E db db2 useHelper log x (h log (List.prefix_refl _)).1
        (h log (List.prefix_refl _)).2 (h _ (List.prefix_append _ _)).2
    rw [runDbExplain_cons, runDbExplain_cons, hb]
    have hrest := ih (loopBody E db useHelper log x).1
      (fun l hl => h l ((loopBody_extends_log E db useHelper log x).trans hl))
    rw [hrest]

/-- The sample appended by the `case` of the type switch records a reply of the
connection to a query. -/
theorem explainCase_some_reply (E : Deps) (db : Driver) (useHelper : Bool) (log : List Call)
    (sample out : PostgresQuerySample) (h : (explainCase E db useHelper log sample).2 = some out) :
    ∃ l query args, out = recordScan sample (db.QueryRow l query args) := by
  unfold explainCase at h
  split at h
  · exact ⟨_, _, _, (Option.some.inj h).symm⟩
  · split at h
    · split at h
      · cases h
      · exact ⟨_, _, _, (Option.some.inj h).symm⟩
    · exact ⟨_, _, _, (Option.some.inj h).symm⟩

/-- C9 fails as stated: the direct `EXPLAIN` of `SELECT 1` copies the plan and then fails
on closing the rows; the sample enters with `ExplainOutput` and `ExplainError` empty and is
emitted with both populated, its `ExplainOutput` not that of the input. -/
theorem runDbExplain_output_and_error :
    ¬ (∀ out ∈ (runDbExplain sampleDeps (closeErrorDriver "[plan]" "close-boom")
        [mkSample "" "SELECT 1" []] false []).2,
        out.ExplainOutput = (mkSample "" "SELECT 1" []).ExplainOutput ∨ out.ExplainError = "") := by
  decide

/-- C9, amended: for an eligible sample and each of the three strategies (the helper call,
the direct `EXPLAIN` when there is no parameter, the `EXPLAIN EXECUTE` when there are
parameters and the `PREPARE` succeeded), a sample is emitted, and when the plan-capturing
command fails its `ExplainError` is the error text and its `ExplainOutput` is that of the
input, unless the scan had copied the column before it failed, in which case
`ExplainOutput` is the copied text; when it succeeds its `ExplainOutput` is the returned
text and its `ExplainError` is that of the input.  A sample entering with both fields
empty is emitted with both populated only when the scan of its plan-capturing command
copied the column and then failed.  The samples after it are processed in the same way
whatever the outcome of its plan-capturing command: on a connection that differs only in
the reply to that command, the run issues the same calls and the rest of the list yields
the same outputs. -/
theorem runDbExplain_records_outcome (E : Deps) (db : Driver) (log : List Call)
    (sample : PostgresQuerySample) (rest : List PostgresQuerySample) (h : Eligible E sample) :
    (∃ out, (loopBody E db true log sample).2 = some out ∧
      Recorded (db.QueryRow log (helperSQL E)
        [Arg.text sample.Query, Arg.array sample.Parameters]) sample out) ∧
    (sample.Parameters = [] →
      ∃ out, (loopBody E db false log sample).2 = some out ∧
        Recorded (db.QueryRow log (explainSQL E sample) []) sample out) ∧
    (sample.Parameters ≠ [] → db.Exec log (prepareSQL E sample) = none →
      ∃ out, (loopBody E db false log sample).2 = some out ∧
        Recorded (db.QueryRow (log ++ [Call.Exec (prepareSQL E sample)])
          (explainExecuteSQL E sample) []) sample out) ∧
    (∀ useHelper out, sample.ExplainOutput = "" → sample.ExplainError = "" →
      (loopBody E db useHelper log sample).2 = some out →
      (out.ExplainOutput = "" ∨ out.ExplainError = "") ∨
        ∃ l query args, db.QueryRow l query args =
          .closeError out.ExplainOutput out.ExplainError) ∧
    (∀ (useHelper : Bool) (db2 : Driver),
      (useHelper = true ∨ sample.Parameters = [] ∨ db.Exec log (prepareSQL E sample) = none) →
      db2.Exec = db.Exec →
      (∀ l, l ≠ log → l ≠ log ++ [Call.Exec (prepareSQL E sample)] →
        db2.QueryRow l = db.QueryRow l) →
      (runDbExplain E db2 (sample :: rest) useHelper log).1 =
        (runDbExplain E db (sample :: rest) useHelper log).1 ∧
      runDbExplain E db2 rest useHelper (loopBody E db2 useHelper log sample).1 =
        runDbExplain E db rest useHelper (loopBody E db useHelper log sample).1) := by
  have hq : prepareSQL E (markExplain sample) = prepareSQL E sample := rfl
  have hx : explainExecuteSQL E (markExplain sample) = explainExecuteSQL E sample := rfl
  have hd : explainSQL E (markExplain sample) = explainSQL E sample := rfl
  refine ⟨?_, ?_, ?_, ?_, ?_⟩
  · rw [loopBody_eligible E db true log sample h, explainCase_helper]
    exact ⟨_, rfl, recordScan_recorded sample _⟩
  · intro hp
    have hpm : (markExplain sample).Parameters = [] := hp
    rw [loopBody_eligible E db false log sample h, explainCase_direct E db log _ hpm, hd]
    exact ⟨_, rfl, recordScan_recorded sample _⟩
  · intro hp hprep
    have hpm : (markExplain sample).Parameters ≠ [] := hp
    rw [loopBody_eligible E db false log sample h, explainCase_prepared E db log _ hpm, hq, hx,
      hprep]
    exact ⟨_, rfl, recordScan_recorded sample _⟩
  · intro useHelper out ho he hb
    rw [loopBody_eligible E db useHelper log sample h] at hb
    obtain ⟨l, query, args, hout⟩ := explainCase_some_reply E db useHelper log _ out hb
    cases hr : db.QueryRow l query args with
    | error err =>
      rw [hr] at hout
      exact Or.inl (Or.inl (by rw [hout]; exact ho))
    | ok plan =>
      rw [hr] at hout
      exact Or.inl (Or.inr (by rw [hout]; exact he))
    | closeError plan err =>
      rw [hr] at hout
      exact Or.inr ⟨l, query, args, by rw [hr, hout]; rfl⟩
  · intro useHelper db2 hatt hexec hquery
    -- the log after the iteration is the same on both connections, and no later history
    -- is one of the two at which the connections may differ
    have hlog : (loopBody E db2 useHelper log sample).1 = (loopBody E db useHelper log sample).1 ∧
        ∀ l, (loopBody E db useHelper log sample).1 <+: l →
          l ≠ log ∧ l ≠ log ++ [Call.Exec (prepareSQL E sample)] := by
      rw [loopBody_eligible E db2 useHelper log sample h,
        loopBody_eligible E db useHelper log sample h]
      have single : ∀ (q : String) (a : List Arg) (l : List Call),
          log ++ [Call.QueryRow q a] <+: l →
          l ≠ log ∧ l ≠ log ++ [Call.Exec (prepareSQL E sample)] := by
        rintro q a l ⟨t, rfl⟩
        constructor
        · intro e
          have := congrArg List.length e
          simp at this
        · intro e
          rw [List.append_assoc, List.append_right_inj] at e
          cases e
      have triple : ∀ (a b c : Call) (l : List Call), log ++ [a, b, c] <+: l →
          l ≠ log ∧ l ≠ log ++ [Call.Exec (prepareSQL E sample)] := by
        rintro a b c l ⟨t, rfl⟩
        constructor <;>
        · intro e
          have := congrArg List.length e
          simp at this
      cases useHelper
      · by_cases hp : sample.Parameters = []
        · have hpm : (markExplain sample).Parameters = [] := hp
          rw [explainCase_direct E db2 log _ hpm, explainCase_direct E db log _ hpm]
          exact ⟨rfl, single _ _⟩
        · have hpm : (markExplain sample).Parameters ≠ [] := hp
          have hprep : db.Exec log (prepareSQL E sample) = none := by
            rcases hatt with h1 | h1 | h1
            · cases h1
            · exact absurd h1 hp
            · exact h1
          rw [explainCase_prepared E db2 log _ hpm, explainCase_prepared E db log _ hpm, hq, hx,
            hexec, hprep]
          exact ⟨rfl, triple _ _ _⟩
      · rw [explainCase_helper, explainCase_helper]
        exact ⟨rfl, single _ _⟩
    have hrest : runDbExplain E db2 rest useHelper (loopBody E db useHelper log sample).1 =
        runDbExplain E db rest useHelper (loopBody E db useHelper log sample).1 :=
      runDbExplain_congr E db db2 useHelper rest _
        (fun l hl => ⟨by rw [hexec], hquery l (hlog.2 l hl).1 (hlog.2 l hl).2⟩)
    constructor
    · rw [runDbExplain_cons, runDbExplain_cons, hlog.1, hrest]
    · rw [hlog.1, hrest]

/-- C9, amended, at a concrete input: a direct `EXPLAIN` that fails with `boom`. -/
theorem runDbExplain_records_outcome_witness :
    ∃ out, (loopBody sampleDeps (failDriver "boom") false [] (mkSample "" "SELECT 1" [])).2 =
        some out ∧
      Recorded (.error "boom") (mkSample "" "SELECT 1" []) out :=
  (runDbExplain_records_outcome sampleDeps (failDriver "boom") [] (mkSample "" "SELECT 1" []) []
    ⟨⟨Node.SelectStmt⟩, rfl, Or.inl rfl⟩).2.1 rfl

/-! ## C10: the source and the format of the plan -/

theorem eligible_of_query_eq (E : Deps) (a b : PostgresQuerySample) (h : a.Query = b.Query) :
    Eligible E a ↔ Eligible E b := by
  unfold Eligible
  rw [h]

/-- C10: every sample emitted by `runDbExplain` whose query is a single SELECT, INSERT,
UPDATE or DELETE has `ExplainSource = STATEMENT_LOG_EXPLAIN_SOURCE` and
`ExplainFormat = JSON_EXPLAIN_FORMAT`, for every helper flag and connection behaviour;
every other emitted sample is an input sample as it was, so its `ExplainSource` and
`ExplainFormat` are unchanged. -/
theorem runDbExplain_source_format (E : Deps) (db : Driver) (useHelper : Bool)
    (inputs : List PostgresQuerySample) (log : List Call) (out : PostgresQuerySample)
    (hout : out ∈ (runDbExplain E db inputs useHelper log).2) :
    (Eligible E out →
      out.ExplainSource = ExplainSource.STATEMENT_LOG_EXPLAIN_SOURCE ∧
        out.ExplainFormat = ExplainFormat.JSON_EXPLAIN_FORMAT) ∧
    (¬ Eligible E out → out ∈ inputs ∧
      ∃ sample ∈ inputs, sampleKey sample = sampleKey out ∧
        out.ExplainSource = sample.ExplainSource ∧ out.ExplainFormat = sample.ExplainFormat) := by
  obtain ⟨sample, hs, log1, hb⟩ := runDbExplain_mem E db useHelper inputs log out hout
  rcases loopBody_some_cases E db useHelper log1 sample out hb with ⟨hne, rfl⟩ | ⟨he, r, rfl⟩
  · exact ⟨fun he => absurd he hne, fun _ => ⟨hs, out, hs, rfl, rfl, rfl⟩⟩
  · obtain ⟨-, h2, -, -, h5, h6⟩ := recordScan_fields (markExplain sample) r
    have hel : Eligible E (recordScan (markExplain sample) r) :=
      (eligible_of_query_eq E _ sample h2).mpr he
    exact ⟨fun _ => ⟨h5, h6⟩, fun hne => absurd hel hne⟩

/-- C10, at a concrete input: a SELECT whose `EXPLAIN` fails and a `VACUUM`. -/
theorem runDbExplain_source_format_witness :
    ({ mkSample "" "SELECT 1" [] with
        HasExplain := true
        ExplainFormat := ExplainFormat.JSON_EXPLAIN_FORMAT
        ExplainError := "boom" } ∈
      (runDbExplain sampleDeps (failDriver "boom")
        [mkSample "" "SELECT 1" [], mkSample "" "VACUUM" []] false []).2) ∧
    ({ mkSample "" "SELECT 1" [] with
        HasExplain := true
        ExplainFormat := ExplainFormat.JSON_EXPLAIN_FORMAT
        ExplainError := "boom" } : PostgresQuerySample).ExplainFormat =
      ExplainFormat.JSON_EXPLAIN_FORMAT :=
  have hm : ({ mkSample "" "SELECT 1" [] with
        HasExplain := true
        ExplainFormat := ExplainFormat.JSON_EXPLAIN_FORMAT
        ExplainError := "boom" } : PostgresQuerySample) ∈
      (runDbExplain sampleDeps (failDriver "boom")
        [mkSample "" "SELECT 1" [], mkSample "" "VACUUM" []] false []).2 := by decide
  ⟨hm, ((runDbExplain_source_format sampleDeps (failDriver "boom") false
    [mkSample "" "SELECT 1" [], mkSample "" "VACUUM" []] [] _ hm).1
    ⟨⟨Node.SelectStmt⟩, rfl, Or.inl rfl⟩).2⟩

/-! ## C12: the marker on every text sent -/

theorem startsWith_append (pre rest : String) : StartsWith (pre ++ rest) pre :=
  ⟨rest, rfl⟩

theorem startsWith_append_append (pre a b : String) : StartsWith (pre ++ a ++ b) pre :=
  ⟨a ++ b, String.append_assoc pre a b⟩

/-- A sample whose query starts with the marker is skipped. -/
theorem skip_of_startsWith (E : Deps) (server : Server) (sample : PostgresQuerySample)
    (h : StartsWith sample.Query E.QueryMarkerSQL) : skip E server sample = true := by
  have hp := (stringsHasPrefix_iff sample.Query E.QueryMarkerSQL).mpr h
  unfold skip
  simp [hp]

/-- Every call an iteration adds to the log has a text that starts with the marker. -/
theorem loopBody_calls_marked (E : Deps) (db : Driver) (useHelper : Bool) (log : List Call)
    (sample : PostgresQuerySample) (call : Call)
    (h : call ∈ (loopBody E db useHelper log sample).1) :
    call ∈ log ∨ StartsWith call.query E.QueryMarkerSQL := by
  by_cases he : Eligible E sample
  · rw [loopBody_eligible E db useHelper log sample he] at h
    cases useHelper
    · by_cases hp : (markExplain sample).Parameters = []
      · rw [explainCase_direct E db log _ hp] at h
        simp only [List.mem_append, List.mem_singleton] at h
        rcases h with h | rfl
        · exact Or.inl h
        · exact Or.inr (startsWith_append_append _ _ _)
      · rw [explainCase_prepared E db log _ hp] at h
        cases hx : db.Exec log (prepareSQL E (markExplain sample)) with
        | some err =>
          rw [hx] at h
          simp only [List.mem_append, List.mem_singleton] at h
          rcases h with h | rfl
          · exact Or.inl h
          · exact Or.inr (startsWith_append_append _ _ _)
        | none =>
          rw [hx] at h
          simp only [List.mem_append, List.mem_cons, List.mem_singleton, List.not_mem_nil,
            or_false] at h
          rcases h with h | rfl | rfl | rfl
          · exact Or.inl h
          · exact Or.inr (startsWith_append_append _ _ _)
          · exact Or.inr ⟨_, (String.append_assoc _ _ _).trans (String.append_assoc _ _ _)⟩
          · exact Or.inr (startsWith_append _ _)
    · rw [explainCase_helper] at h
      simp only [List.mem_append, List.mem_singleton] at h
      rcases h with h | rfl
      · exact Or.inl h
      · exact Or.inr (startsWith_append _ _)
  · rcases loopBody_ineligible E db useHelper sample ((not_eligible_iff E sample).mp he)
      with hb | hb <;> rw [hb] at h <;> exact Or.inl h

/-- Every call `runDbExplain` adds to the log has a text that starts with the marker. -/
theorem runDbExplain_calls_marked (E : Deps) (db : Driver) (useHelper : Bool)
    (inputs : List PostgresQuerySample) (log : List Call) (call : Call)
    (h : call ∈ (runDbExplain E db inputs useHelper log).1) :
    call ∈ log ∨ StartsWith call.query E.QueryMarkerSQL := by
  induction inputs generalizing log with
  | nil => exact Or.inl h
  | cons x xs ih =>
    rw [runDbExplain_cons] at h
    rcases ih _ h with h1 | h1
    · exact loopBody_calls_marked E db useHelper log x call h1
    · exact Or.inr h1

/-- Every call event of the second loop was there before or is a call of `runDbExplain`
on an empty log. -/
theorem rangeSamplesByDb_call_mem (E : Deps) (W : World) (server : Server) (entries : SampleMap)
    (events : List Event) (outputs : List PostgresQuerySample) (dbName : String) (call : Call)
    (h : Event.Call dbName call ∈ (rangeSamplesByDb E W server entries events outputs).1) :
    Event.Call dbName call ∈ events ∨ ∃ entry ∈ entries, ∃ db useHelper,
      call ∈ (runDbExplain E db entry.2 useHelper []).1 := by
  induction entries generalizing events outputs with
  | nil => exact Or.inl h
  | cons e rest ih =>
    obtain ⟨name, dbSamples⟩ := e
    unfold rangeSamplesByDb at h
    cases hc : W.EstablishConnection events name with
    | error err =>
      rw [hc] at h
      rcases ih _ _ h with h1 | ⟨entry, he, r⟩
      · simp only [List.mem_append, List.mem_cons, List.mem_singleton, List.not_mem_nil,
          or_false, reduceCtorEq] at h1
        exact Or.inl h1
      · exact Or.inr ⟨entry, List.mem_cons_of_mem _ he, r⟩
    | ok conn =>
      rw [hc] at h
      rcases ih _ _ h with h1 | ⟨entry, he, r⟩
      · simp only [List.mem_append, List.mem_singleton, List.mem_map, reduceCtorEq,
          or_false] at h1
        rcases h1 with (h1 | h1) | ⟨c, hc1, hc2⟩
        · exact Or.inl h1
        · exfalso
          unfold probeEvents at h1
          split at h1
          · simp at h1
          · split at h1 <;> simp at h1
        · have hcc : c = call := by injection hc2
          exact Or.inr ⟨(name, dbSamples), List.mem_cons_self _ _, conn.db,
            conn.statsHelperExists, hcc ▸ hc1⟩
      · exact Or.inr ⟨entry, List.mem_cons_of_mem _ he, r⟩

/-- C12: every SQL text the core sends to a connection (the helper call, the `PREPARE`,
the `EXPLAIN EXECUTE`, the `DEALLOCATE` and the direct `EXPLAIN`) begins with the internal
marker: this holds for the five texts, for every call `runDbExplain` issues and for every
call event of `RunExplain`; so for every server configuration the skip predicate excludes
any sample whose query is one of these texts. -/
theorem sent_texts_marked (E : Deps) (W : World) (server : Server) (db : Driver)
    (useHelper : Bool) (inputs : List PostgresQuerySample) (sample : PostgresQuerySample) :
    (StartsWith (helperSQL E) E.QueryMarkerSQL ∧
      StartsWith (prepareSQL E sample) E.QueryMarkerSQL ∧
      StartsWith (explainExecuteSQL E sample) E.QueryMarkerSQL ∧
      StartsWith (deallocateSQL E) E.QueryMarkerSQL ∧
      StartsWith (explainSQL E sample) E.QueryMarkerSQL) ∧
    (∀ call ∈ (runDbExplain E db inputs useHelper []).1,
      StartsWith call.query E.QueryMarkerSQL ∧
      ∀ (server2 : Server) (later : PostgresQuerySample), later.Query = call.query →
        skip E server2 later = true) ∧
    (∀ dbName call, Event.Call dbName call ∈ (RunExplain E W server inputs).1 →
      StartsWith call.query E.QueryMarkerSQL ∧
      ∀ (server2 : Server) (later : PostgresQuerySample), later.Query = call.query →
        skip E server2 later = true) := by
  have key : ∀ call : Call, StartsWith call.query E.QueryMarkerSQL →
      StartsWith call.query E.QueryMarkerSQL ∧
      ∀ (server2 : Server) (later : PostgresQuerySample), later.Query = call.query →
        skip E server2 later = true :=
    fun call hs => ⟨hs, fun server2 later hq => skip_of_startsWith E server2 later (hq ▸ hs)⟩
  refine ⟨⟨startsWith_append _ _, startsWith_append_append _ _ _,
    ⟨_, (String.append_assoc _ _ _).trans (String.append_assoc _ _ _)⟩,
    startsWith_append _ _, startsWith_append_append _ _ _⟩, ?_, ?_⟩
  · intro call hc
    rcases runDbExplain_calls_marked E db useHelper inputs [] call hc with h | h
    · cases h
    · exact key call h
  · intro dbName call hc
    unfold RunExplain at hc
    rcases rangeSamplesByDb_call_mem E W server _ [] [] dbName call hc with h | ⟨_, _, d, u, h⟩
    · cases h
    · rcases runDbExplain_calls_marked E d u _ [] call h with h2 | h2
      · cases h2
      · exact key call h2

/-- C12, at a concrete input: the direct `EXPLAIN` issued for `SELECT 1`, seen again as the
query of a sample, is skipped. -/
theorem sent_texts_marked_witness :
    skip sampleDeps appdbServer
      (mkSample "appdb" "/* pganalyze-collector */ EXPLAIN (VERBOSE, FORMAT JSON) SELECT 1" [])
      = true :=
  ((sent_texts_marked sampleDeps (plainWorld (okDriver "[plan]")) appdbServer
    (okDriver "[plan]") false [mkSample "" "SELECT 1" []] (mkSample "" "SELECT 1" [])).2.1
    (Call.QueryRow "/* pganalyze-collector */ EXPLAIN (VERBOSE, FORMAT JSON) SELECT 1" [])
    (by decide)).2 appdbServer _ rfl

/-! ## C19: the flag `HasExplain` -/

/-- A sample that is not skipped has no plan yet. -/
theorem hasExplain_of_not_skip (E : Deps) (server : Server) (sample : PostgresQuerySample)
    (h : skip E server sample = false) : sample.HasExplain = false := by
  unfold skip at h
  simp only [Bool.or_eq_false_iff] at h
  exact h.1.1.1.2

/-- C19: every sample emitted by `runDbExplain` whose query is a single SELECT, INSERT,
UPDATE or DELETE has `HasExplain` true, for every helper flag and connection behaviour,
hence also when the attempt failed and only `ExplainError` was recorded; every other
emitted sample is an input sample as it was, so its `HasExplain` is unchanged, and in the
output of `RunExplain` it is false. -/
theorem runDbExplain_hasExplain (E : Deps) (W : World) (server : Server) (db : Driver)
    (useHelper : Bool) (inputs : List PostgresQuerySample) (log : List Call) :
    (∀ out ∈ (runDbExplain E db inputs useHelper log).2,
      (Eligible E out → out.HasExplain = true) ∧ (¬ Eligible E out → out ∈ inputs)) ∧
    (W.Valid → ∀ out ∈ (RunExplain E W server inputs).2,
      (Eligible E out → out.HasExplain = true) ∧ (¬ Eligible E out → out.HasExplain = false)) := by
  have one : ∀ (d : Driver) (u : Bool) (xs : List PostgresQuerySample) (l : List Call),
      ∀ out ∈ (runDbExplain E d xs u l).2,
      (Eligible E out → out.HasExplain = true) ∧ (¬ Eligible E out → out ∈ xs) := by
    intro d u xs l out hout
    obtain ⟨sample, hs, log1, hb⟩ := runDbExplain_mem E d u xs l out hout
    rcases loopBody_some_cases E d u log1 sample out hb with ⟨hne, rfl⟩ | ⟨he, r, rfl⟩
    · exact ⟨fun he => absurd he hne, fun _ => hs⟩
    · obtain ⟨-, h2, -, h4, -, -⟩ := recordScan_fields (markExplain sample) r
      have hel : Eligible E (recordScan (markExplain sample) r) :=
        (eligible_of_query_eq E _ sample h2).mpr he
      exact ⟨fun _ => h4, fun hne => absurd hel hne⟩
  refine ⟨one db useHelper inputs log, ?_⟩
  intro hv out hout
  unfold RunExplain at hout
  rcases rangeSamplesByDb_mem E W server _ [] [] out hout with h | ⟨entry, he, d, u, hr⟩
  · cases h
  · have h1 := one d u entry.2 [] out hr
    refine ⟨h1.1, fun hne => ?_⟩
    have hmem := h1.2 hne
    have he2 : entry ∈ groupSamples E server inputs [] := (hv _).subset he
    rcases groupSamples_mem E server inputs [] entry out he2 hmem with ⟨_, h3⟩ | ⟨old, ho, _⟩
    · exact hasExplain_of_not_skip E server out h3
    · cases ho

/-- C19, at a concrete input: a SELECT whose `EXPLAIN` fails is emitted with `HasExplain`
true. -/
theorem runDbExplain_hasExplain_witness :
    ({ mkSample "" "SELECT 1" [] with
        HasExplain := true
        ExplainFormat := ExplainFormat.JSON_EXPLAIN_FORMAT
        ExplainError := "boom" } ∈
      (runDbExplain sampleDeps (failDriver "boom")
        [mkSample "" "SELECT 1" [], mkSample "" "VACUUM" []] false []).2) ∧
    ({ mkSample "" "SELECT 1" [] with
        HasExplain := true
        ExplainFormat := ExplainFormat.JSON_EXPLAIN_FORMAT
        ExplainError := "boom" } : PostgresQuerySample).HasExplain = true :=
  have hm : ({ mkSample "" "SELECT 1" [] with
        HasExplain := true
        ExplainFormat := ExplainFormat.JSON_EXPLAIN_FORMAT
        ExplainError := "boom" } : PostgresQuerySample) ∈
      (runDbExplain sampleDeps (failDriver "boom")
        [mkSample "" "SELECT 1" [], mkSample "" "VACUUM" []] false []).2 := by decide
  ⟨hm, ((runDbExplain_hasExplain sampleDeps (plainWorld (failDriver "boom")) appdbServer
    (failDriver "boom") false [mkSample "" "SELECT 1" [], mkSample "" "VACUUM" []] []).1 _ hm).1
    ⟨⟨Node.SelectStmt⟩, rfl, Or.inl rfl⟩⟩

/-! ## C16: the quoted parameter list -/

theorem quoteLoop_eq (quote : String → String) (parameters params : List String) :
    quoteLoop quote parameters params = params ++ parameters.map quote := by
  induction parameters generalizing params with
  | nil => simp [quoteLoop]
  | cons p rest ih => simp [quoteLoop, ih]

theorem intercalate_go_append (x acc sep : String) (strs : List String) :
    String.intercalate.go (x ++ acc) sep strs = x ++ String.intercalate.go acc sep strs := by
  induction strs generalizing acc with
  | nil => rfl
  | cons a rest ih =>
    simp only [String.intercalate.go]
    rw [← ih, String.append_assoc, String.append_assoc, String.append_assoc]

/-- The model of `strings.Join` agrees with `String.intercalate`. -/
theorem stringsJoin_eq (strs : List String) (sep : String) :
    stringsJoin strs sep = sep.intercalate strs := by
  cases strs with
  | nil => rfl
  | cons a rest =>
    induction rest generalizing a with
    | nil => rfl
    | cons b rest ih =>
      simp only [stringsJoin, String.intercalate, String.intercalate.go]
      rw [ih b]
      simp only [String.intercalate]
      rw [String.append_assoc, intercalate_go_append]
      simp [String.append_assoc]

theorem readBody_body_quote (esc : Bool) (rest acc : List Char) :
    readBody esc .body (Char.ofNat 39 :: rest) acc = readBody esc .afterQuote rest acc := by
  simp [readBody]

theorem readBody_afterQuote_quote (esc : Bool) (rest acc : List Char) :
    readBody esc .afterQuote (Char.ofNat 39 :: rest) acc =
      readBody esc .body rest (acc ++ [Char.ofNat 39]) := by
  simp [readBody]

theorem readBody_afterQuote_end (esc : Bool) (rest acc : List Char)
    (hrest : rest.head? ≠ some (Char.ofNat 39)) :
    readBody esc .afterQuote rest acc = some (acc, rest) := by
  cases rest with
  | nil => simp [readBody]
  | cons c r =>
    have hc : c ≠ Char.ofNat 39 := fun e => hrest (by simp [e])
    simp [readBody, hc]

theorem readBody_body_plain_char (c : Char) (rest acc : List Char) (hc : c ≠ Char.ofNat 39) :
    readBody false .body (c :: rest) acc = readBody false .body rest (acc ++ [c]) := by
  simp [readBody, hc]

theorem readBody_body_escape_char (c : Char) (rest acc : List Char) (hc : c ≠ Char.ofNat 39)
    (hb : c ≠ Char.ofNat 92) :
    readBody true .body (c :: rest) acc = readBody true .body rest (acc ++ [c]) := by
  simp [readBody, hc, hb]

theorem readBody_body_backslash (rest acc : List Char) :
    readBody true .body (Char.ofNat 92 :: Char.ofNat 92 :: rest) acc =
      readBody true .body rest (acc ++ [Char.ofNat 92]) := by
  have h : Char.ofNat 92 ≠ Char.ofNat 39 := by decide
  simp [readBody, h]

/-- The plain form is read back: the body with doubled quotes, closed by a quote and
followed by input that does not start with a quote, denotes the value. -/
theorem readBody_plain (w acc rest : List Char) (hrest : rest.head? ≠ some (Char.ofNat 39)) :
    readBody false .body
      (w.flatMap (fun c => if c = Char.ofNat 39 then [Char.ofNat 39, Char.ofNat 39] else [c])
        ++ [Char.ofNat 39] ++ rest) acc = some (acc ++ w, rest) := by
  induction w generalizing acc with
  | nil =>
    rw [List.flatMap_nil, List.nil_append, List.singleton_append, readBody_body_quote,
      readBody_afterQuote_end false rest acc hrest, List.append_nil]
  | cons c w ih =>
    simp only [List.append_assoc, List.singleton_append] at ih
    rw [List.flatMap_cons]
    by_cases hc : c = Char.ofNat 39
    · rw [if_pos hc]
      simp only [List.append_assoc, List.cons_append, List.nil_append, List.singleton_append]
      rw [readBody_body_quote, readBody_afterQuote_quote, ih, hc]
      simp
    · rw [if_neg hc]
      simp only [List.append_assoc, List.cons_append, List.nil_append, List.singleton_append]
      rw [readBody_body_plain_char c _ _ hc, ih]
      simp

/-- The escape form is read back: the body with doubled quotes and then doubled
backslashes, closed by a quote, denotes the value. -/
theorem readBody_escape (w acc rest : List Char) (hrest : rest.head? ≠ some (Char.ofNat 39)) :
    readBody true .body
      ((w.flatMap (fun c => if c = Char.ofNat 39 then [Char.ofNat 39, Char.ofNat 39] else [c])).flatMap
          (fun c => if c = Char.ofNat 92 then [Char.ofNat 92, Char.ofNat 92] else [c])
        ++ [Char.ofNat 39] ++ rest) acc = some (acc ++ w, rest) := by
  have h1 : Char.ofNat 39 ≠ Char.ofNat 92 := by decide
  induction w generalizing acc with
  | nil =>
    rw [List.flatMap_nil, List.flatMap_nil, List.nil_append, List.singleton_append,
      readBody_body_quote, readBody_afterQuote_end true rest acc hrest, List.append_nil]
  | cons c w ih =>
    simp only [List.append_assoc, List.singleton_append] at ih
    rw [List.flatMap_cons, List.flatMap_append]
    by_cases hc : c = Char.ofNat 39
    · rw [if_pos hc, List.flatMap_cons, List.flatMap_cons, List.flatMap_nil, if_neg h1]
      simp only [List.append_assoc, List.cons_append, List.nil_append, List.singleton_append,
        List.append_nil]
      rw [readBody_body_quote, readBody_afterQuote_quote, ih, hc]
      simp
    · rw [if_neg hc, List.flatMap_cons, List.flatMap_nil, List.append_nil]
      by_cases hb : c = Char.ofNat 92
      · rw [if_pos hb]
        simp only [List.append_assoc, List.cons_append, List.nil_append, List.singleton_append]
        rw [readBody_body_backslash, ih, hb]
        simp
      · rw [if_neg hb]
        simp only [List.append_assoc, List.cons_append, List.nil_append, List.singleton_append]
        rw [readBody_body_escape_char c _ _ hc hb, ih]
        simp

/-- C16: for every parameter list, `getQuotedParamsStr` returns the literals
`QuoteLiteral(p)` of the parameters, one per parameter and in positional order, joined by
a comma and a blank (the empty string for the empty list); with the quoting of `lib/pq`
the list `["5"]` renders as `'5'`, and every rendered literal, read as a PostgreSQL string
constant in front of any input that does not start with a quote, ends exactly where the
rendering ends and denotes the original value. -/
theorem getQuotedParamsStr_spec (E : Deps) (parameters : List String) (value : String)
    (rest : List Char) :
    getQuotedParamsStr E parameters = ", ".intercalate (parameters.map E.QuoteLiteral) ∧
    getQuotedParamsStr E [] = "" ∧
    getQuotedParamsStr sampleDeps ["5"] = "'5'" ∧
    (rest.head? ≠ some (Char.ofNat 39) →
      readLiteral ((pqQuoteLiteral value).data ++ rest) = some (value.data, rest)) := by
  refine ⟨?_, rfl, by decide, ?_⟩
  · unfold getQuotedParamsStr
    rw [quoteLoop_eq, stringsJoin_eq]
    simp
  · intro hrest
    unfold pqQuoteLiteral
    simp only
    split
    · have h := readBody_escape value.data [] rest hrest
      simp only [List.append_assoc, List.cons_append, List.nil_append] at h ⊢
      simp only [readLiteral]
      simpa using h
    · have h := readBody_plain value.data [] rest hrest
      simp only [List.append_assoc, List.cons_append, List.nil_append] at h ⊢
      simp only [readLiteral]
      simpa using h

/-- C16, at a concrete input: a value with a quote and a backslash, rendered in front of
the closing bracket of the `EXECUTE`, is read back. -/
theorem getQuotedParamsStr_spec_witness :
    readLiteral ((pqQuoteLiteral "a'b\\c").data ++ ")".data) = some ("a'b\\c".data, ")".data) :=
  (getQuotedParamsStr_spec sampleDeps [] "a'b\\c" ")".data).2.2.2 (by decide)

/-! ## The map of samples by database -/

theorem SampleMap.keys_set (m : SampleMap) (key : String) (value : List PostgresQuerySample) :
    (m.set key value).keys = if key ∈ m.keys then m.keys else m.keys ++ [key] := by
  induction m with
  | nil => simp [SampleMap.set, SampleMap.keys]
  | cons e rest ih =>
    obtain ⟨k, v⟩ := e
    unfold SampleMap.set
    by_cases hk : k = key
    · subst hk
      simp [SampleMap.keys]
    · have hk2 : ¬ key = k := fun e => hk e.symm
      rw [if_neg hk]
      simp only [SampleMap.keys, List.map_cons, List.mem_cons, hk2, false_or] at ih ⊢
      rw [ih]
      split <;> simp

theorem SampleMap.get_set (m : SampleMap) (key other : String)
    (value : List PostgresQuerySample) :
    (m.set key value).get other = if key = other then value else m.get other := by
  induction m with
  | nil => simp [SampleMap.set, SampleMap.get]
  | cons e rest ih =>
    obtain ⟨k, v⟩ := e
    unfold SampleMap.set
    by_cases hk : k = key
    · subst hk
      rw [if_pos rfl]
      by_cases ho : k = other <;> simp [SampleMap.get, ho]
    · rw [if_neg hk]
      by_cases ho : k = other
      · subst ho
        have hk2 : ¬ key = k := fun e => hk e.symm
        simp [SampleMap.get, hk2]
      · simp only [SampleMap.get, ho, if_false]
        exact ih

theorem SampleMap.get_of_not_mem (m : SampleMap) (key : String) (h : key ∉ m.keys) :
    m.get key = [] := by
  induction m with
  | nil => rfl
  | cons e rest ih =>
    obtain ⟨k, v⟩ := e
    simp only [SampleMap.keys, List.map_cons, List.mem_cons, not_or] at h
    have hk : ¬ k = key := fun e => h.1 e.symm
    simp only [SampleMap.get, hk, if_false]
    exact ih h.2

theorem SampleMap.get_of_mem (m : SampleMap) (key : String) (value : List PostgresQuerySample)
    (hn : m.keys.Nodup) (h : (key, value) ∈ m) : m.get key = value := by
  induction m with
  | nil => cases h
  | cons e rest ih =>
    obtain ⟨k, v⟩ := e
    simp only [SampleMap.keys, List.map_cons, List.nodup_cons] at hn
    rcases List.mem_cons.mp h with h | h
    · cases h
      simp [SampleMap.get]
    · have hk : ¬ k = key := by
        intro e
        subst e
        exact hn.1 (List.mem_map.mpr ⟨(k, value), h, rfl⟩)
      simp only [SampleMap.get, hk, if_false]
      exact ih hn.2 h

theorem SampleMap.exists_of_mem_keys (m : SampleMap) (key : String) (h : key ∈ m.keys) :
    ∃ value, (key, value) ∈ m := by
  obtain ⟨⟨k, v⟩, he, hk⟩ := List.mem_map.mp h
  exact ⟨v, by cases hk; exact he⟩

/-- A permutation of a map with distinct keys reads alike. -/
theorem SampleMap.get_perm (p m : SampleMap) (key : String) (hp : p.Perm m)
    (hn : m.keys.Nodup) : p.get key = m.get key := by
  have hpn : p.keys.Nodup := (hp.map Prod.fst).nodup_iff.mpr hn
  by_cases hk : key ∈ m.keys
  · obtain ⟨value, hv⟩ := SampleMap.exists_of_mem_keys m key hk
    rw [SampleMap.get_of_mem m key value hn hv,
      SampleMap.get_of_mem p key value hpn (hp.mem_iff.mpr hv)]
  · have hk2 : key ∉ p.keys := fun h => hk ((hp.map Prod.fst).mem_iff.mp h)
    rw [SampleMap.get_of_not_mem m key hk, SampleMap.get_of_not_mem p key hk2]

theorem groupOf_cons (E : Deps) (server : Server) (x : PostgresQuerySample)
    (xs : List PostgresQuerySample) (dbName : String) :
    groupOf E server (x :: xs) dbName =
      (if skip E server x = false ∧ x.Database = dbName then [x] else []) ++
        groupOf E server xs dbName := by
  unfold groupOf
  by_cases h : skip E server x = false ∧ x.Database = dbName
  · rw [if_pos h, List.filter_cons_of_pos (by simp [h.1, h.2])]
    rfl
  · rw [if_neg h, List.filter_cons_of_neg]
    · rfl
    · simp only [Bool.and_eq_true, Bool.not_eq_true', beq_iff_eq]
      exact h

/-- The first loop keeps the keys distinct. -/
theorem groupSamples_keys_nodup (E : Deps) (server : Server)
    (inputs : List PostgresQuerySample) (m : SampleMap) (h : m.keys.Nodup) :
    (groupSamples E server inputs m).keys.Nodup := by
  induction inputs generalizing m with
  | nil => exact h
  | cons x xs ih =>
    unfold groupSamples
    cases hx : skip E server x
    · simp only [Bool.false_eq_true, if_false]
      apply ih
      rw [SampleMap.keys_set]
      split
      · exact h
      · next hk =>
        exact List.Nodup.append h (List.nodup_singleton _) (by simpa using hk)
    · simp only [if_true]
      exact ih m h

/-- The first loop appends to each entry the samples of its database that are not
skipped, in input order. -/
theorem groupSamples_get (E : Deps) (server : Server) (inputs : List PostgresQuerySample)
    (m : SampleMap) (dbName : String) :
    (groupSamples E server inputs m).get dbName =
      m.get dbName ++ groupOf E server inputs dbName := by
  induction inputs generalizing m with
  | nil => simp [groupSamples, groupOf]
  | cons x xs ih =>
    unfold groupSamples
    rw [groupOf_cons]
    cases hx : skip E server x
    · simp only [Bool.false_eq_true, if_false, true_and]
      rw [ih, SampleMap.get_set]
      by_cases hd : x.Database = dbName
      · subst hd
        simp
      · simp [hd]
    · simp only [if_true, Bool.true_eq_false, false_and, if_false, List.nil_append]
      exact ih m

/-- The keys after the first loop are the keys before it and the databases with a sample
that is not skipped. -/
theorem groupSamples_mem_keys (E : Deps) (server : Server) (inputs : List PostgresQuerySample)
    (m : SampleMap) (dbName : String) :
    dbName ∈ (groupSamples E server inputs m).keys ↔
      dbName ∈ m.keys ∨ groupOf E server inputs dbName ≠ [] := by
  induction inputs generalizing m with
  | nil => simp [groupSamples, groupOf]
  | cons x xs ih =>
    unfold groupSamples
    rw [groupOf_cons]
    cases hx : skip E server x
    · simp only [Bool.false_eq_true, if_false, true_and]
      rw [ih, SampleMap.keys_set]
      by_cases hd : x.Database = dbName
      · subst hd
        by_cases hk : x.Database ∈ m.keys <;> simp [hk]
      · have hd2 : ¬ dbName = x.Database := fun e => hd e.symm
        by_cases hk : x.Database ∈ m.keys <;> simp [hk, hd, hd2]
    · simp only [if_true, Bool.true_eq_false, false_and, if_false, List.nil_append]
      exact ih m

/-! ## The second loop, database by database -/

/-- The second loop on a non-empty list of entries: the body on the first entry, then the
loop on the others. -/
theorem rangeSamplesByDb_cons (E : Deps) (W : World) (server : Server)
    (entry : String × List PostgresQuerySample) (rest : SampleMap) (events : List Event)
    (outputs : List PostgresQuerySample) :
    rangeSamplesByDb E W server (entry :: rest) events outputs =
      rangeSamplesByDb E W server rest (events ++ (rangeBody E W server events entry).1)
        (outputs ++ (rangeBody E W server events entry).2) := by
  obtain ⟨dbName, dbSamples⟩ := entry
  unfold rangeBody
  rw [rangeSamplesByDb]
  cases hc : W.EstablishConnection events dbName with
  | error err => simp [failedVisit]
  | ok conn => simp [openedVisit]

theorem eventsOf_append (dbName : String) (a b : List Event) :
    eventsOf dbName (a ++ b) = eventsOf dbName a ++ eventsOf dbName b := by
  simp [eventsOf]

theorem samplesOf_append (dbName : String) (a b : List PostgresQuerySample) :
    samplesOf dbName (a ++ b) = samplesOf dbName a ++ samplesOf dbName b := by
  simp [samplesOf]

/-- The outputs of `runDbExplain` belong to the databases of its inputs. -/
theorem runDbExplain_database (E : Deps) (db : Driver) (useHelper : Bool)
    (inputs : List PostgresQuerySample) (log : List Call) (dbName : String)
    (h : ∀ sample ∈ inputs, sample.Database = dbName) :
    ∀ out ∈ (runDbExplain E db inputs useHelper log).2, out.Database = dbName := by
  intro out hout
  obtain ⟨sample, hs, log1, hb⟩ := runDbExplain_mem E db useHelper inputs log out hout
  have hk := loopBody_key E db useHelper log1 sample out hb
  have hd : out.Database = sample.Database := congrArg Prod.fst hk
  rw [hd]
  exact h sample hs

theorem probeEvents_dbName (server : Server) (dbName : String) (conn : Conn) :
    ∀ e ∈ probeEvents server dbName conn, e.dbName = some dbName ∨ e.dbName = none := by
  intro e he
  unfold probeEvents at he
  split at he
  · simp only [List.mem_cons, List.mem_singleton, List.not_mem_nil, or_false] at he
    rcases he with rfl | rfl
    · exact Or.inl rfl
    · exact Or.inr rfl
  · split at he
    · simp only [List.mem_cons, List.mem_singleton, List.not_mem_nil, or_false] at he
      rcases he with rfl | rfl | rfl
      · exact Or.inl rfl
      · exact Or.inl rfl
      · exact Or.inr rfl
    · simp only [List.mem_cons, List.mem_singleton, List.not_mem_nil, or_false] at he
      rcases he with rfl | rfl
      · exact Or.inl rfl
      · exact Or.inl rfl

/-- The events of the body on an entry concern the database of the entry, or none. -/
theorem rangeBody_dbName (E : Deps) (W : World) (server : Server) (events : List Event)
    (entry : String × List PostgresQuerySample) :
    ∀ e ∈ (rangeBody E W server events entry).1, e.dbName = some entry.1 ∨ e.dbName = none := by
  intro e he
  unfold rangeBody at he
  cases hc : W.EstablishConnection events entry.1 with
  | error err =>
    rw [hc] at he
    simp only [failedVisit, List.mem_cons, List.mem_singleton, List.not_mem_nil, or_false] at he
    rcases he with rfl | rfl
    · exact Or.inl rfl
    · exact Or.inr rfl
  | ok conn =>
    rw [hc] at he
    simp only [openedVisit, List.mem_append, List.mem_singleton, List.mem_map] at he
    rcases he with ((rfl | he) | ⟨c, _, rfl⟩) | rfl
    · exact Or.inl rfl
    · exact probeEvents_dbName server entry.1 conn e he
    · exact Or.inl rfl
    · exact Or.inl rfl

theorem eventsOf_eq_nil (dbName : String) (events : List Event)
    (h : ∀ e ∈ events, e.dbName ≠ some dbName) : eventsOf dbName events = [] := by
  unfold eventsOf
  rw [List.filter_eq_nil_iff]
  intro e he
  simpa using h e he

theorem samplesOf_eq_nil (dbName : String) (samples : List PostgresQuerySample)
    (h : ∀ sample ∈ samples, sample.Database ≠ dbName) : samplesOf dbName samples = [] := by
  unfold samplesOf
  rw [List.filter_eq_nil_iff]
  intro s hs
  simpa using h s hs

theorem samplesOf_eq_self (dbName : String) (samples : List PostgresQuerySample)
    (h : ∀ sample ∈ samples, sample.Database = dbName) : samplesOf dbName samples = samples := by
  unfold samplesOf
  rw [List.filter_eq_self]
  intro s hs
  simpa using h s hs

/-- The second loop seen from one database.  When the keys of the entries are distinct
and every sample is stored under its database, the events that concern `dbName` and the
outputs that belong to it are those present before the loop, followed by nothing when
`dbName` is not a key, and otherwise by those of one visit of its entry: a failed
connection attempt, or an opened connection on which `runDbExplain` runs once. -/
theorem rangeSamplesByDb_project (E : Deps) (W : World) (server : Server) (dbName : String)
    (entries : SampleMap) (events : List Event) (outputs : List PostgresQuerySample)
    (hn : entries.keys.Nodup)
    (hw : ∀ entry ∈ entries, ∀ sample ∈ entry.2, sample.Database = entry.1) :
    ∃ visit : List Event × List PostgresQuerySample,
      eventsOf dbName (rangeSamplesByDb E W server entries events outputs).1 =
        eventsOf dbName events ++ eventsOf dbName visit.1 ∧
      samplesOf dbName (rangeSamplesByDb E W server entries events outputs).2 =
        samplesOf dbName outputs ++ visit.2 ∧
      ((dbName ∉ entries.keys ∧ visit = ([], [])) ∨
        (dbName ∈ entries.keys ∧
          ((∃ before err, W.EstablishConnection before dbName = .error err ∧
              visit = failedVisit dbName err) ∨
            (∃ before conn, W.EstablishConnection before dbName = .ok conn ∧
              visit = openedVisit E server dbName conn (entries.get dbName))))) := by
  induction entries generalizing events outputs with
  | nil =>
    refine ⟨([], []), ?_, ?_, Or.inl ⟨by simp [SampleMap.keys], rfl⟩⟩
    · simp [rangeSamplesByDb, eventsOf]
    · simp [rangeSamplesByDb]
  | cons entry rest ih =>
    obtain ⟨k, v⟩ := entry
    simp only [SampleMap.keys, List.map_cons, List.nodup_cons] at hn
    have hv : ∀ sample ∈ v, sample.Database = k := hw (k, v) (List.mem_cons_self _ _)
    obtain ⟨visit, h1, h2, h3⟩ := ih (events ++ (rangeBody E W server events (k, v)).1)
      (outputs ++ (rangeBody E W server events (k, v)).2) hn.2
      (fun e he => hw e (List.mem_cons_of_mem _ he))
    rw [rangeSamplesByDb_cons, h1, h2, eventsOf_append, samplesOf_append]
    by_cases hk : k = dbName
    · subst hk
      -- the entry of the database: the rest of the loop adds nothing for it
      have hvisit : visit = ([], []) := by
        rcases h3 with ⟨_, h⟩ | ⟨h, _⟩
        · exact h
        · exact absurd h hn.1
      subst hvisit
      refine ⟨rangeBody E W server events (k, v), by simp [eventsOf], ?_, Or.inr ⟨?_, ?_⟩⟩
      · have hall : ∀ out ∈ (rangeBody E W server events (k, v)).2, out.Database = k := by
          unfold rangeBody
          cases hc : W.EstablishConnection events k with
          | error err => simp [failedVisit]
          | ok conn => exact runDbExplain_database E conn.db conn.statsHelperExists v [] k hv
        rw [samplesOf_eq_self k _ hall]
        simp
      · simp [SampleMap.keys]
      · unfold rangeBody
        cases hc : W.EstablishConnection events k with
        | error err => exact Or.inl ⟨events, err, hc, rfl⟩
        | ok conn =>
          refine Or.inr ⟨events, conn, hc, ?_⟩
          simp [SampleMap.get]
    · -- another entry: its body adds nothing for the database
      have hev : eventsOf dbName (rangeBody E W server events (k, v)).1 = [] := by
        apply eventsOf_eq_nil
        intro e he
        rcases rangeBody_dbName E W server events (k, v) e he with h | h
        · rw [h]
          intro hh
          exact hk (Option.some.inj hh)
        · rw [h]
          simp
      have hout : samplesOf dbName (rangeBody E W server events (k, v)).2 = [] := by
        apply samplesOf_eq_nil
        intro out ho hd
        have hall : ∀ out ∈ (rangeBody E W server events (k, v)).2, out.Database = k := by
          unfold rangeBody
          cases hc : W.EstablishConnection events k with
          | error err => simp [failedVisit]
          | ok conn => exact runDbExplain_database E conn.db conn.statsHelperExists v [] k hv
        exact hk ((hall out ho).symm.trans hd)
      rw [hev, hout]
      have hk2 : ¬ dbName = k := fun e => hk e.symm
      refine ⟨visit, by simp, by simp, ?_⟩
      simp only [SampleMap.keys, List.map_cons, List.mem_cons, hk2, false_or, SampleMap.get, hk,
        if_false]
      exact h3

theorem groupOf_database (E : Deps) (server : Server) (inputs : List PostgresQuerySample)
    (dbName : String) : ∀ sample ∈ groupOf E server inputs dbName, sample.Database = dbName := by
  intro sample hs
  unfold groupOf at hs
  have := (List.mem_filter.mp hs).2
  simp only [Bool.and_eq_true, beq_iff_eq] at this
  exact this.2

/-- The entries that `range` visits, when it visits every entry of the map once: their
keys are distinct, each holds the group of its database, and the keys are the databases
with a non-empty group. -/
theorem rangeOrder_groupSamples (E : Deps) (W : World) (server : Server)
    (inputs : List PostgresQuerySample) (hv : W.Valid) :
    (W.rangeOrder (groupSamples E server inputs [])).keys.Nodup ∧
    (∀ entry ∈ W.rangeOrder (groupSamples E server inputs []),
      entry.2 = groupOf E server inputs entry.1) ∧
    (∀ dbName, (W.rangeOrder (groupSamples E server inputs [])).get dbName =
      groupOf E server inputs dbName) ∧
    (∀ dbName, dbName ∈ (W.rangeOrder (groupSamples E server inputs [])).keys ↔
      groupOf E server inputs dbName ≠ []) := by
  have hp := hv (groupSamples E server inputs [])
  have hn : (groupSamples E server inputs []).keys.Nodup :=
    groupSamples_keys_nodup E server inputs [] List.nodup_nil
  have hget : ∀ dbName, (groupSamples E server inputs []).get dbName =
      groupOf E server inputs dbName := by
    intro dbName
    rw [groupSamples_get]
    rfl
  refine ⟨(hp.map Prod.fst).nodup_iff.mpr hn, ?_, ?_, ?_⟩
  · rintro ⟨k, v⟩ he
    have hm : (k, v) ∈ groupSamples E server inputs [] := hp.mem_iff.mp he
    rw [← hget k, SampleMap.get_of_mem _ k v hn hm]
  · intro dbName
    rw [SampleMap.get_perm _ _ dbName hp hn, hget]
  · intro dbName
    have h1 : dbName ∈ (W.rangeOrder (groupSamples E server inputs [])).keys ↔
        dbName ∈ (groupSamples E server inputs []).keys := (hp.map Prod.fst).mem_iff
    rw [h1, groupSamples_mem_keys]
    simp [SampleMap.keys]

/-- The function `RunExplain` seen from one database, when `range` visits every entry once:
the events that concern `dbName` and the outputs that belong to it are none when its group
is empty, and otherwise those of one visit on its group: a failed connection attempt, or
an opened connection on which `runDbExplain` runs once over the whole group. -/
theorem RunExplain_project (E : Deps) (W : World) (server : Server)
    (inputs : List PostgresQuerySample) (dbName : String) (hv : W.Valid) :
    ∃ visit : List Event × List PostgresQuerySample,
      eventsOf dbName (RunExplain E W server inputs).1 = eventsOf dbName visit.1 ∧
      samplesOf dbName (RunExplain E W server inputs).2 = visit.2 ∧
      ((groupOf E server inputs dbName = [] ∧ visit = ([], [])) ∨
        (groupOf E server inputs dbName ≠ [] ∧
          ((∃ before err, W.EstablishConnection before dbName = .error err ∧
              visit = failedVisit dbName err) ∨
            (∃ before conn, W.EstablishConnection before dbName = .ok conn ∧
              visit = openedVisit E server dbName conn (groupOf E server inputs dbName))))) := by
  obtain ⟨hn, hent, hget, hkeys⟩ := rangeOrder_groupSamples E W server inputs hv
  have hw : ∀ entry ∈ W.rangeOrder (groupSamples E server inputs []),
      ∀ sample ∈ entry.2, sample.Database = entry.1 := by
    intro entry he sample hs
    rw [hent entry he] at hs
    exact groupOf_database E server inputs entry.1 sample hs
  obtain ⟨visit, h1, h2, h3⟩ := rangeSamplesByDb_project E W server dbName
    (W.rangeOrder (groupSamples E server inputs [])) [] [] hn hw
  refine ⟨visit, ?_, ?_, ?_⟩
  · unfold RunExplain
    rw [h1]
    simp [eventsOf]
  · unfold RunExplain
    rw [h2]
    simp [samplesOf]
  · rw [hget dbName] at h3
    rcases h3 with ⟨hk, hvis⟩ | ⟨hk, hvis⟩
    · refine Or.inl ⟨?_, hvis⟩
      by_contra hne
      exact hk ((hkeys dbName).mpr hne)
    · exact Or.inr ⟨(hkeys dbName).mp hk, hvis⟩

theorem eventsOf_failedVisit (dbName err : String) :
    eventsOf dbName (failedVisit dbName err).1 = [Event.EstablishConnection dbName] := by
  simp [eventsOf, failedVisit, Event.dbName]

theorem eventsOf_probeEvents (server : Server) (dbName : String) (conn : Conn) :
    eventsOf dbName (probeEvents server dbName conn) = [Event.statsHelperExists dbName] ∨
    eventsOf dbName (probeEvents server dbName conn) =
      [Event.statsHelperExists dbName, Event.connectedAsSuperUser dbName] := by
  unfold probeEvents
  split
  · left; simp [eventsOf, Event.dbName]
  · split <;> right <;> simp [eventsOf, Event.dbName]

theorem eventsOf_calls (dbName : String) (calls : List Call) :
    eventsOf dbName (calls.map (Event.Call dbName)) = calls.map (Event.Call dbName) := by
  unfold eventsOf
  rw [List.filter_eq_self]
  intro e he
  obtain ⟨c, _, rfl⟩ := List.mem_map.mp he
  simp [Event.dbName]

theorem eventsOf_openedVisit (E : Deps) (server : Server) (dbName : String) (conn : Conn)
    (dbSamples : List PostgresQuerySample) :
    eventsOf dbName (openedVisit E server dbName conn dbSamples).1 =
      [Event.EstablishConnection dbName] ++ eventsOf dbName (probeEvents server dbName conn) ++
        (runDbExplain E conn.db dbSamples conn.statsHelperExists []).1.map (Event.Call dbName) ++
        [Event.Close dbName] := by
  unfold openedVisit
  simp only [eventsOf_append, eventsOf_calls]
  simp [eventsOf, Event.dbName]

/-- An event that concerns a database occurs in a trace as often as among the events of
that database. -/
theorem count_eventsOf (dbName : String) (e : Event) (events : List Event)
    (h : e.dbName = some dbName) : (eventsOf dbName events).count e = events.count e := by
  unfold eventsOf
  rw [List.count_filter]
  simpa using h

theorem mem_eventsOf (dbName : String) (e : Event) (events : List Event) :
    e ∈ eventsOf dbName events ↔ e ∈ events ∧ e.dbName = some dbName := by
  simp [eventsOf]

/-! ## C13: the order of the samples of a database -/

/-- The function `runDbExplain` emits its samples in the order it received them. -/
theorem runDbExplain_sublist (E : Deps) (db : Driver) (useHelper : Bool)
    (inputs : List PostgresQuerySample) (log : List Call) :
    ((runDbExplain E db inputs useHelper log).2.map sampleKey).Sublist
      (inputs.map sampleKey) := by
  induction inputs generalizing log with
  | nil => simp [runDbExplain_nil]
  | cons x xs ih =>
    rw [runDbExplain_cons]
    have hrest := ih (loopBody E db useHelper log x).1
    cases hb : (loopBody E db useHelper log x).2 with
    | none =>
      simp only [Option.toList, List.nil_append, List.map_cons]
      exact List.Sublist.cons _ hrest
    | some out =>
      have hk := loopBody_key E db useHelper log x out hb
      simp only [Option.toList, List.singleton_append, List.map_cons, hk]
      exact List.Sublist.cons₂ _ hrest

/-- C13: for every input batch and each database, when `range` visits every entry of the
map once: the group of the database is the input filtered by "not skipped and `Database`
equals that name", in input order; `runDbExplain` emits its samples in the order it
received them; so the samples of that database in the output of `RunExplain` occur in the
relative order of the input; and when all connections succeed they are the output of
`runDbExplain` on that group. -/
theorem RunExplain_order (E : Deps) (W : World) (server : Server)
    (inputs : List PostgresQuerySample) (dbName : String) (hv : W.Valid) :
    (groupSamples E server inputs []).get dbName =
      inputs.filter (fun sample => !skip E server sample && sample.Database == dbName) ∧
    (∀ (db : Driver) (useHelper : Bool) (xs : List PostgresQuerySample) (log : List Call),
      ((runDbExplain E db xs useHelper log).2.map sampleKey).Sublist (xs.map sampleKey)) ∧
    ((samplesOf dbName (RunExplain E W server inputs).2).map sampleKey).Sublist
      ((inputs.filter
        (fun sample => !skip E server sample && sample.Database == dbName)).map sampleKey) ∧
    ((∀ before name, ∃ conn, W.EstablishConnection before name = .ok conn) →
      ∃ conn : Conn, samplesOf dbName (RunExplain E W server inputs).2 =
        (runDbExplain E conn.db
          (inputs.filter (fun sample => !skip E server sample && sample.Database == dbName))
          conn.statsHelperExists []).2) := by
  have hg : inputs.filter (fun sample => !skip E server sample && sample.Database == dbName) =
      groupOf E server inputs dbName := rfl
  rw [hg]
  obtain ⟨visit, -, h2, h3⟩ := RunExplain_project E W server inputs dbName hv
  refine ⟨?_, runDbExplain_sublist E, ?_, ?_⟩
  · rw [groupSamples_get]
    rfl
  · rw [h2]
    rcases h3 with ⟨_, rfl⟩ | ⟨_, ⟨_, err, _, rfl⟩ | ⟨_, conn, _, rfl⟩⟩
    · simp
    · simp [failedVisit]
    · exact runDbExplain_sublist E conn.db conn.statsHelperExists _ []
  · intro hall
    rw [h2]
    rcases h3 with ⟨hnil, rfl⟩ | ⟨_, ⟨before, err, hc, rfl⟩ | ⟨_, conn, _, rfl⟩⟩
    · obtain ⟨conn, _⟩ := hall [] dbName
      exact ⟨conn, by rw [hnil]; rfl⟩
    · obtain ⟨conn, hc2⟩ := hall before dbName
      rw [hc] at hc2
      cases hc2
    · exact ⟨conn, rfl⟩

/-- C13, at a concrete input: two samples of `appdb` around a sample of the default
database keep their order. -/
theorem RunExplain_order_witness :
    ((samplesOf "appdb" (RunExplain sampleDeps (plainWorld (okDriver "[plan]")) appdbServer
        [mkSample "appdb" "SELECT 1" [], mkSample "" "VACUUM" [],
          mkSample "appdb" "UPDATE t SET a = 1" []]).2).map sampleKey).Sublist
      (([mkSample "appdb" "SELECT 1" [], mkSample "" "VACUUM" [],
          mkSample "appdb" "UPDATE t SET a = 1" []].filter
        (fun sample => !skip sampleDeps appdbServer sample && sample.Database == "appdb")).map
        sampleKey) :=
  (RunExplain_order sampleDeps (plainWorld (okDriver "[plan]")) appdbServer
    [mkSample "appdb" "SELECT 1" [], mkSample "" "VACUUM" [],
      mkSample "appdb" "UPDATE t SET a = 1" []] "appdb" (fun _ => List.Perm.refl _)).2.2.1

/-! ## C14: one connection and one probe for each database -/

theorem count_calls (dbName : String) (calls : List Call) (e : Event)
    (h : ∀ call, e ≠ Event.Call dbName call) : (calls.map (Event.Call dbName)).count e = 0 := by
  rw [List.count_eq_zero]
  intro hm
  obtain ⟨c, _, hc⟩ := List.mem_map.mp hm
  exact h c hc.symm

/-- In the events of an opened visit the attempt, the helper probe and the close occur
once each. -/
theorem count_openedVisit (E : Deps) (server : Server) (dbName : String) (conn : Conn)
    (dbSamples : List PostgresQuerySample) :
    (eventsOf dbName (openedVisit E server dbName conn dbSamples).1).count
        (Event.EstablishConnection dbName) = 1 ∧
    (eventsOf dbName (openedVisit E server dbName conn dbSamples).1).count
        (Event.statsHelperExists dbName) = 1 ∧
    (eventsOf dbName (openedVisit E server dbName conn dbSamples).1).count
        (Event.Close dbName) = 1 := by
  rw [eventsOf_openedVisit]
  have c1 := count_calls dbName (runDbExplain E conn.db dbSamples conn.statsHelperExists []).1
    (Event.EstablishConnection dbName) (fun _ h => by cases h)
  have c2 := count_calls dbName (runDbExplain E conn.db dbSamples conn.statsHelperExists []).1
    (Event.statsHelperExists dbName) (fun _ h => by cases h)
  have c3 := count_calls dbName (runDbExplain E conn.db dbSamples conn.statsHelperExists []).1
    (Event.Close dbName) (fun _ h => by cases h)
  rcases eventsOf_probeEvents server dbName conn with hp | hp <;>
    simp [hp, List.count_append, List.count_cons, c1, c2, c3]

/-! ### The connection attempt of a database in the trace -/

/-- The second loop only adds events to those present before it. -/
theorem rangeSamplesByDb_extends (E : Deps) (W : World) (server : Server) (entries : SampleMap)
    (events : List Event) (outputs : List PostgresQuerySample) :
    ∃ added, (rangeSamplesByDb E W server entries events outputs).1 = events ++ added := by
  induction entries generalizing events outputs with
  | nil => exact ⟨[], by simp [rangeSamplesByDb]⟩
  | cons entry rest ih =>
    obtain ⟨added, ha⟩ := ih (events ++ (rangeBody E W server events entry).1)
      (outputs ++ (rangeBody E W server events entry).2)
    exact ⟨(rangeBody E W server events entry).1 ++ added, by
      rw [rangeSamplesByDb_cons, ha, List.append_assoc]⟩

theorem rangeBody_eventsOf_other (E : Deps) (W : World) (server : Server)
    (events : List Event) (entry : String × List PostgresQuerySample) (dbName : String)
    (hk : entry.1 ≠ dbName) : eventsOf dbName (rangeBody E W server events entry).1 = [] := by
  apply eventsOf_eq_nil
  intro e he
  rcases rangeBody_dbName E W server events entry e he with h | h
  · rw [h]
    intro hh
    exact hk (Option.some.inj hh)
  · rw [h]
    simp

theorem rangeBody_samplesOf_other (E : Deps) (W : World) (server : Server)
    (events : List Event) (entry : String × List PostgresQuerySample) (dbName : String)
    (hw : ∀ sample ∈ entry.2, sample.Database = entry.1) (hk : entry.1 ≠ dbName) :
    samplesOf dbName (rangeBody E W server events entry).2 = [] := by
  apply samplesOf_eq_nil
  intro out ho hd
  have hall : ∀ out ∈ (rangeBody E W server events entry).2, out.Database = entry.1 := by
    unfold rangeBody
    cases hc : W.EstablishConnection events entry.1 with
    | error err => simp [failedVisit]
    | ok conn =>
      exact runDbExplain_database E conn.db conn.statsHelperExists entry.2 [] entry.1 hw
  exact hk ((hall out ho).symm.trans hd)

/-- The second loop seen from a database that is a key, with the place of its connection
attempt: the trace splits at the attempt, the outcome of the attempt is that of
`EstablishConnection` after the events before it, and the events and outputs of the
database are those of a failed attempt or of an opened visit accordingly. -/
theorem rangeSamplesByDb_attempt (E : Deps) (W : World) (server : Server) (dbName : String)
    (entries : SampleMap) (events : List Event) (outputs : List PostgresQuerySample)
    (hn : entries.keys.Nodup)
    (hw : ∀ entry ∈ entries, ∀ sample ∈ entry.2, sample.Database = entry.1)
    (hk : dbName ∈ entries.keys) :
    ∃ before after,
      (rangeSamplesByDb E W server entries events outputs).1 =
        before ++ Event.EstablishConnection dbName :: after ∧
      ((∃ err, W.EstablishConnection before dbName = .error err ∧
          eventsOf dbName (rangeSamplesByDb E W server entries events outputs).1 =
            eventsOf dbName events ++ [Event.EstablishConnection dbName] ∧
          samplesOf dbName (rangeSamplesByDb E W server entries events outputs).2 =
            samplesOf dbName outputs) ∨
        (∃ conn, W.EstablishConnection before dbName = .ok conn ∧
          eventsOf dbName (rangeSamplesByDb E W server entries events outputs).1 =
            eventsOf dbName events ++
              eventsOf dbName (openedVisit E server dbName conn (entries.get dbName)).1 ∧
          samplesOf dbName (rangeSamplesByDb E W server entries events outputs).2 =
            samplesOf dbName outputs ++
              (openedVisit E server dbName conn (entries.get dbName)).2)) := by
  induction entries generalizing events outputs with
  | nil => simp [SampleMap.keys] at hk
  | cons entry rest ih =>
    obtain ⟨k, v⟩ := entry
    have hn2 := hn
    simp only [SampleMap.keys, List.map_cons, List.nodup_cons] at hn2
    have hv : ∀ sample ∈ (k, v).2, sample.Database = (k, v).1 :=
      hw (k, v) (List.mem_cons_self _ _)
    have hwrest : ∀ entry ∈ rest, ∀ sample ∈ entry.2, sample.Database = entry.1 :=
      fun e he => hw e (List.mem_cons_of_mem _ he)
    rw [rangeSamplesByDb_cons]
    by_cases hkk : k = dbName
    · subst hkk
      obtain ⟨visit, h1, h2, h3⟩ := rangeSamplesByDb_project E W server k rest
        (events ++ (rangeBody E W server events (k, v)).1)
        (outputs ++ (rangeBody E W server events (k, v)).2) hn2.2 hwrest
      have hvisit : visit = ([], []) := by
        rcases h3 with ⟨_, h⟩ | ⟨h, _⟩
        · exact h
        · exact absurd h hn2.1
      subst hvisit
      obtain ⟨added, ha⟩ := rangeSamplesByDb_extends E W server rest
        (events ++ (rangeBody E W server events (k, v)).1)
        (outputs ++ (rangeBody E W server events (k, v)).2)
      have hget : SampleMap.get ((k, v) :: rest) k = v := by simp [SampleMap.get]
      rw [h1, h2, ha, hget, eventsOf_append, samplesOf_append]
      cases hc : W.EstablishConnection events k with
      | error err =>
        have hb : rangeBody E W server events (k, v) = failedVisit k err := by
          unfold rangeBody
          rw [hc]
        refine ⟨events, (failedVisit k err).1.tail ++ added, ?_, Or.inl ⟨err, hc, ?_, ?_⟩⟩
        · rw [hb]
          simp [failedVisit]
        · rw [hb, eventsOf_failedVisit]
          simp [eventsOf]
        · rw [hb]
          simp [failedVisit, samplesOf]
      | ok conn =>
        have hb : rangeBody E W server events (k, v) = openedVisit E server k conn v := by
          unfold rangeBody
          rw [hc]
        refine ⟨events, (openedVisit E server k conn v).1.tail ++ added, ?_,
          Or.inr ⟨conn, hc, ?_, ?_⟩⟩
        · rw [hb]
          simp [openedVisit]
        · rw [hb]
          simp [eventsOf]
        · rw [hb, samplesOf_eq_self k (openedVisit E server k conn v).2
            (runDbExplain_database E conn.db conn.statsHelperExists v [] k hv)]
          simp
    · have hk2 : dbName ∈ SampleMap.keys rest := by
        simp only [SampleMap.keys, List.map_cons, List.mem_cons] at hk
        rcases hk with h | h
        · exact absurd h.symm hkk
        · exact h
      obtain ⟨before, after, hsplit, hcase⟩ := ih
        (events ++ (rangeBody E W server events (k, v)).1)
        (outputs ++ (rangeBody E W server events (k, v)).2) hn2.2 hwrest hk2
      have hev := rangeBody_eventsOf_other E W server events (k, v) dbName hkk
      have hout := rangeBody_samplesOf_other E W server events (k, v) dbName hv hkk
      have hget : SampleMap.get ((k, v) :: rest) dbName = SampleMap.get rest dbName := by
        simp [SampleMap.get, hkk]
      rw [eventsOf_append, samplesOf_append, hev, hout, List.append_nil, List.append_nil]
        at hcase
      rw [hget]
      exact ⟨before, after, hsplit, hcase⟩

/-- An event that occurs once in a list splits the list in one way only. -/
theorem split_unique (e : Event) (a b c d : List Event) (h : a ++ e :: b = c ++ e :: d)
    (ha : e ∉ a) (hc : e ∉ c) : a = c := by
  induction a generalizing c with
  | nil =>
    cases c with
    | nil => rfl
    | cons x c =>
      simp only [List.nil_append, List.cons_append, List.cons.injEq] at h
      exact absurd (h.1 ▸ List.mem_cons_self _ _) hc
  | cons y a ih =>
    cases c with
    | nil =>
      simp only [List.nil_append, List.cons_append, List.cons.injEq] at h
      exact absurd (h.1 ▸ List.mem_cons_self _ _) ha
    | cons x c =>
      simp only [List.cons_append, List.cons.injEq] at h
      rw [h.1, ih c h.2 (fun hm => ha (List.mem_cons_of_mem _ hm))
        (fun hm => hc (List.mem_cons_of_mem _ hm))]

theorem not_mem_of_count_one (e : Event) (a b : List Event)
    (h : (a ++ e :: b).count e = 1) : e ∉ a := by
  intro hm
  have hpos := List.count_pos_iff.mpr hm
  simp only [List.count_append, List.count_cons_self] at h
  omega

/-- The function `RunExplain` at the connection attempt of a database, when `range` visits
every entry once: wherever the trace holds the attempt, the events and outputs of the
database are decided by what `EstablishConnection` returned after the events before the
attempt: an opened visit over the whole group when it returned a connection, the attempt
alone and no output when it returned an error. -/
theorem RunExplain_attempt (E : Deps) (W : World) (server : Server)
    (inputs : List PostgresQuerySample) (dbName : String) (hv : W.Valid)
    (before after : List Event)
    (hsplit : (RunExplain E W server inputs).1 =
      before ++ Event.EstablishConnection dbName :: after) :
    (∀ conn, W.EstablishConnection before dbName = .ok conn →
      eventsOf dbName (RunExplain E W server inputs).1 =
        eventsOf dbName (openedVisit E server dbName conn (groupOf E server inputs dbName)).1 ∧
      samplesOf dbName (RunExplain E W server inputs).2 =
        (openedVisit E server dbName conn (groupOf E server inputs dbName)).2) ∧
    (∀ err, W.EstablishConnection before dbName = .error err →
      eventsOf dbName (RunExplain E W server inputs).1 = [Event.EstablishConnection dbName] ∧
      samplesOf dbName (RunExplain E W server inputs).2 = []) := by
  obtain ⟨hn, hent, hget, hkeys⟩ := rangeOrder_groupSamples E W server inputs hv
  have hw : ∀ entry ∈ W.rangeOrder (groupSamples E server inputs []),
      ∀ sample ∈ entry.2, sample.Database = entry.1 := by
    intro entry he sample hs
    rw [hent entry he] at hs
    exact groupOf_database E server inputs entry.1 sample hs
  -- the database is a key, since its attempt is in the trace
  have hk : dbName ∈ (W.rangeOrder (groupSamples E server inputs [])).keys := by
    by_contra hnot
    obtain ⟨visit, h1, -, h3⟩ := rangeSamplesByDb_project E W server dbName
      (W.rangeOrder (groupSamples E server inputs [])) [] [] hn hw
    have hvis : visit = ([], []) := by
      rcases h3 with ⟨_, h⟩ | ⟨h, _⟩
      · exact h
      · exact absurd h hnot
    have hm : Event.EstablishConnection dbName ∈
        eventsOf dbName (RunExplain E W server inputs).1 := by
      rw [mem_eventsOf, hsplit]
      exact ⟨by simp, rfl⟩
    unfold RunExplain at hm
    rw [h1, hvis] at hm
    simp [eventsOf] at hm
  obtain ⟨before0, after0, hsplit0, hcase⟩ := rangeSamplesByDb_attempt E W server dbName
    (W.rangeOrder (groupSamples E server inputs [])) [] [] hn hw hk
  rw [hget dbName] at hcase
  have hrun : (RunExplain E W server inputs).1 =
      (rangeSamplesByDb E W server (W.rangeOrder (groupSamples E server inputs [])) [] []).1 := rfl
  have hrun2 : (RunExplain E W server inputs).2 =
      (rangeSamplesByDb E W server (W.rangeOrder (groupSamples E server inputs [])) [] []).2 := rfl
  rw [← hrun, ← hrun2] at hcase
  rw [← hrun] at hsplit0
  -- the attempt occurs once
  have hcount : (RunExplain E W server inputs).1.count (Event.EstablishConnection dbName) = 1 := by
    rw [← count_eventsOf dbName (Event.EstablishConnection dbName) _ rfl]
    rcases hcase with ⟨err, _, he, _⟩ | ⟨conn, _, he, _⟩
    · rw [he]
      simp [eventsOf]
    · rw [he]
      simpa [eventsOf] using (count_openedVisit E server dbName conn _).1
  have hbefore : before = before0 := by
    apply split_unique (Event.EstablishConnection dbName) before after before0 after0
    · rw [← hsplit, ← hsplit0]
    · exact not_mem_of_count_one _ before after (hsplit ▸ hcount)
    · exact not_mem_of_count_one _ before0 after0 (hsplit0 ▸ hcount)
  subst hbefore
  constructor
  · intro conn hc
    rcases hcase with ⟨err, he, _, _⟩ | ⟨conn0, hc0, he, hs⟩
    · rw [hc] at he
      cases he
    · rw [hc] at hc0
      cases hc0
      exact ⟨by simpa [eventsOf] using he, by simpa [samplesOf] using hs⟩
  · intro err hc
    rcases hcase with ⟨err0, _, he, hs⟩ | ⟨conn0, hc0, _, _⟩
    · exact ⟨by simpa [eventsOf] using he, by simpa [samplesOf] using hs⟩
    · rw [hc] at hc0
      cases hc0

/-- The trace of `RunExplain` holds the connection attempt of every database that has a
sample that is not skipped. -/
theorem RunExplain_attempt_exists (E : Deps) (W : World) (server : Server)
    (inputs : List PostgresQuerySample) (dbName : String) (hv : W.Valid)
    (hne : groupOf E server inputs dbName ≠ []) :
    ∃ before after, (RunExplain E W server inputs).1 =
      before ++ Event.EstablishConnection dbName :: after := by
  obtain ⟨visit, h1, -, h3⟩ := RunExplain_project E W server inputs dbName hv
  have hm : Event.EstablishConnection dbName ∈
      eventsOf dbName (RunExplain E W server inputs).1 := by
    rw [h1]
    rcases h3 with ⟨hnil, _⟩ | ⟨_, ⟨_, err, _, rfl⟩ | ⟨_, conn, _, rfl⟩⟩
    · exact absurd hnil hne
    · rw [eventsOf_failedVisit]
      simp
    · rw [eventsOf_openedVisit]
      simp
  exact List.append_of_mem ((mem_eventsOf dbName _ _).mp hm).1

/-- The counts of the helper probe and of the close in a trace whose events on the
database are those of an opened visit, or the attempt alone. -/
theorem count_of_visit (E : Deps) (server : Server) (dbName : String) (events : List Event) :
    (∀ conn dbSamples,
      eventsOf dbName events = eventsOf dbName (openedVisit E server dbName conn dbSamples).1 →
      events.count (Event.statsHelperExists dbName) = 1 ∧
        events.count (Event.Close dbName) = 1) ∧
    (eventsOf dbName events = [Event.EstablishConnection dbName] →
      events.count (Event.statsHelperExists dbName) = 0 ∧
        events.count (Event.Close dbName) = 0) := by
  constructor
  · intro conn dbSamples h
    obtain ⟨-, c2, c3⟩ := count_openedVisit E server dbName conn dbSamples
    rw [← count_eventsOf dbName (Event.statsHelperExists dbName) events rfl,
      ← count_eventsOf dbName (Event.Close dbName) events rfl, h]
    exact ⟨c2, c3⟩
  · intro h
    rw [← count_eventsOf dbName (Event.statsHelperExists dbName) events rfl,
      ← count_eventsOf dbName (Event.Close dbName) events rfl, h]
    simp

/-- C14: for every input batch, when `range` visits every entry of the map once,
`RunExplain` attempts exactly one connection for each database that has a sample that is
not skipped and none for any other database.  Wherever the trace holds the attempt for a
database: when `EstablishConnection` returned a connection there, the helper probe runs
exactly once on it and the connection is closed once, however many samples the database
has, and the calls and outputs of the database are those of one `runDbExplain` over its
whole group with the probed flag; when it returned an error, no probe runs.  So on a
database with a sample that is not skipped whose connection opens, the probe count is
one.  When every sample is skipped nothing at all is done. -/
theorem RunExplain_connections (E : Deps) (W : World) (server : Server)
    (inputs : List PostgresQuerySample) (dbName : String) (hv : W.Valid) :
    (RunExplain E W server inputs).1.count (Event.EstablishConnection dbName) =
      (if groupOf E server inputs dbName = [] then 0 else 1) ∧
    (groupOf E server inputs dbName ≠ [] →
      ∃ before after, (RunExplain E W server inputs).1 =
        before ++ Event.EstablishConnection dbName :: after) ∧
    (∀ before after,
      (RunExplain E W server inputs).1 = before ++ Event.EstablishConnection dbName :: after →
      (∀ conn, W.EstablishConnection before dbName = .ok conn →
        (RunExplain E W server inputs).1.count (Event.statsHelperExists dbName) = 1 ∧
        (RunExplain E W server inputs).1.count (Event.Close dbName) = 1 ∧
        eventsOf dbName (RunExplain E W server inputs).1 =
          [Event.EstablishConnection dbName] ++ eventsOf dbName (probeEvents server dbName conn) ++
            (runDbExplain E conn.db (groupOf E server inputs dbName)
              conn.statsHelperExists []).1.map (Event.Call dbName) ++
            [Event.Close dbName] ∧
        samplesOf dbName (RunExplain E W server inputs).2 =
          (runDbExplain E conn.db (groupOf E server inputs dbName)
            conn.statsHelperExists []).2) ∧
      (∀ err, W.EstablishConnection before dbName = .error err →
        (RunExplain E W server inputs).1.count (Event.statsHelperExists dbName) = 0 ∧
        eventsOf dbName (RunExplain E W server inputs).1 =
          [Event.EstablishConnection dbName])) ∧
    ((∀ before, ∃ conn, W.EstablishConnection before dbName = .ok conn) →
      groupOf E server inputs dbName ≠ [] →
      (RunExplain E W server inputs).1.count (Event.statsHelperExists dbName) = 1 ∧
        (RunExplain E W server inputs).1.count (Event.Close dbName) = 1) ∧
    (RunExplain E W server inputs).1.count (Event.statsHelperExists dbName) =
      (RunExplain E W server inputs).1.count (Event.Close dbName) ∧
    (RunExplain E W server inputs).1.count (Event.statsHelperExists dbName) ≤ 1 ∧
    ((RunExplain E W server inputs).1.count (Event.statsHelperExists dbName) = 1 →
      ∃ before conn, W.EstablishConnection before dbName = .ok conn ∧
        eventsOf dbName (RunExplain E W server inputs).1 =
          [Event.EstablishConnection dbName] ++ eventsOf dbName (probeEvents server dbName conn) ++
            (runDbExplain E conn.db (groupOf E server inputs dbName)
              conn.statsHelperExists []).1.map (Event.Call dbName) ++
            [Event.Close dbName] ∧
        samplesOf dbName (RunExplain E W server inputs).2 =
          (runDbExplain E conn.db (groupOf E server inputs dbName)
            conn.statsHelperExists []).2) ∧
    ((∀ before, ∃ err, W.EstablishConnection before dbName = .error err) →
      (RunExplain E W server inputs).1.count (Event.statsHelperExists dbName) = 0) ∧
    ((∀ sample ∈ inputs, skip E server sample = true) →
      (RunExplain E W server inputs).1 = []) := by
  have htied : ∀ before after,
      (RunExplain E W server inputs).1 = before ++ Event.EstablishConnection dbName :: after →
      (∀ conn, W.EstablishConnection before dbName = .ok conn →
        (RunExplain E W server inputs).1.count (Event.statsHelperExists dbName) = 1 ∧
        (RunExplain E W server inputs).1.count (Event.Close dbName) = 1 ∧
        eventsOf dbName (RunExplain E W server inputs).1 =
          [Event.EstablishConnection dbName] ++ eventsOf dbName (probeEvents server dbName conn) ++
            (runDbExplain E conn.db (groupOf E server inputs dbName)
              conn.statsHelperExists []).1.map (Event.Call dbName) ++
            [Event.Close dbName] ∧
        samplesOf dbName (RunExplain E W server inputs).2 =
          (runDbExplain E conn.db (groupOf E server inputs dbName)
            conn.statsHelperExists []).2) ∧
      (∀ err, W.EstablishConnection before dbName = .error err →
        (RunExplain E W server inputs).1.count (Event.statsHelperExists dbName) = 0 ∧
        eventsOf dbName (RunExplain E W server inputs).1 =
          [Event.EstablishConnection dbName]) := by
    intro before after hsplit
    obtain ⟨hok, herr⟩ := RunExplain_attempt E W server inputs dbName hv before after hsplit
    constructor
    · intro conn hc
      obtain ⟨he, hs⟩ := hok conn hc
      obtain ⟨c2, c3⟩ := (count_of_visit E server dbName _).1 conn _ he
      exact ⟨c2, c3, he.trans (eventsOf_openedVisit E server dbName conn _), hs⟩
    · intro err hc
      obtain ⟨he, -⟩ := herr err hc
      exact ⟨((count_of_visit E server dbName _).2 he).1, he⟩
  have hopen : (∀ before, ∃ conn, W.EstablishConnection before dbName = .ok conn) →
      groupOf E server inputs dbName ≠ [] →
      (RunExplain E W server inputs).1.count (Event.statsHelperExists dbName) = 1 ∧
        (RunExplain E W server inputs).1.count (Event.Close dbName) = 1 := by
    intro hall hne
    obtain ⟨before, after, hsplit⟩ := RunExplain_attempt_exists E W server inputs dbName hv hne
    obtain ⟨conn, hc⟩ := hall before
    obtain ⟨c2, c3, -, -⟩ := (htied before after hsplit).1 conn hc
    exact ⟨c2, c3⟩
  refine ⟨?_, RunExplain_attempt_exists E W server inputs dbName hv, htied, hopen, ?_⟩
  · obtain ⟨visit, h1, -, h3⟩ := RunExplain_project E W server inputs dbName hv
    rw [← count_eventsOf dbName (Event.EstablishConnection dbName) _ rfl, h1]
    rcases h3 with ⟨hnil, rfl⟩ | ⟨hne, ⟨_, err, _, rfl⟩ | ⟨_, conn, _, rfl⟩⟩
    · simp [hnil, eventsOf]
    · rw [eventsOf_failedVisit]
      simp [hne]
    · rw [(count_openedVisit E server dbName conn _).1]
      simp [hne]
  · obtain ⟨visit, h1, h2, h3⟩ := RunExplain_project E W server inputs dbName hv
    rw [← count_eventsOf dbName (Event.statsHelperExists dbName) _ rfl,
      ← count_eventsOf dbName (Event.Close dbName) _ rfl, h1, h2]
    have hlast : (∀ sample ∈ inputs, skip E server sample = true) →
        (RunExplain E W server inputs).1 = [] := by
      intro hall
      unfold RunExplain
      rw [groupSamples_all_skipped E server inputs [] hall, List.Perm.eq_nil (hv [])]
      rfl
    rcases h3 with ⟨hnil, rfl⟩ | ⟨hne, ⟨before, err, hc, rfl⟩ | ⟨before, conn, hc, rfl⟩⟩
    · refine ⟨by simp [eventsOf], by simp [eventsOf],
        fun h => by simp [eventsOf] at h, fun _ => by simp [eventsOf], hlast⟩
    · rw [eventsOf_failedVisit]
      refine ⟨by simp, by simp, fun h => by simp at h, fun _ => by simp, hlast⟩
    · obtain ⟨c1, c2, c3⟩ := count_openedVisit E server dbName conn (groupOf E server inputs dbName)
      rw [c2, c3]
      refine ⟨rfl, le_refl _, fun _ => ⟨before, conn, hc, ?_, rfl⟩, ?_, hlast⟩
      · exact eventsOf_openedVisit E server dbName conn _
      · intro hfail
        obtain ⟨err, he⟩ := hfail before
        rw [hc] at he
        cases he

/-- C14, at a concrete input: two samples of `appdb` on a connection that opens lead to
one connection attempt, and the helper probe runs once. -/
theorem RunExplain_connections_witness :
    (RunExplain sampleDeps (plainWorld (okDriver "[plan]")) appdbServer
      [mkSample "appdb" "SELECT 1" [], mkSample "appdb" "UPDATE t SET a = 1" []]).1.count
        (Event.statsHelperExists "appdb") = 1 :=
  ((RunExplain_connections sampleDeps (plainWorld (okDriver "[plan]")) appdbServer
    [mkSample "appdb" "SELECT 1" [], mkSample "appdb" "UPDATE t SET a = 1" []] "appdb"
    (fun _ => List.Perm.refl _)).2.2.2.1 (fun _ => ⟨_, rfl⟩) (by decide)).1

/-! ## C15: the close of a connection -/

/-- An event that occurs only at the end of a list occurs at no earlier place: what
follows an occurrence is empty. -/
theorem append_cons_eq_append_singleton (e : Event) (pre post body : List Event)
    (h : pre ++ e :: post = body ++ [e]) (hb : e ∉ body) : post = [] := by
  induction pre generalizing body with
  | nil =>
    cases body with
    | nil => simpa using h
    | cons b body =>
      simp only [List.nil_append, List.cons_append, List.cons.injEq] at h
      exact absurd (h.1 ▸ List.mem_cons_self _ _) hb
  | cons p pre ih =>
    cases body with
    | nil =>
      simp only [List.cons_append, List.nil_append, List.cons.injEq, List.append_eq_nil,
        reduceCtorEq, and_false] at h
    | cons b body =>
      simp only [List.cons_append, List.cons.injEq] at h
      exact ih body h.2 (fun hm => hb (List.mem_cons_of_mem _ hm))

/-- The order of the events on a database in the trace of `RunExplain`, when `range`
visits every entry of the map once: the events are none, or a connection attempt alone,
or the attempt, the probe, the calls of `runDbExplain` and the close; the close occurs as
often as the helper probe and at most once, every call is followed by it, and nothing on
that database follows it. -/
theorem RunExplain_close_order (E : Deps) (W : World) (server : Server)
    (inputs : List PostgresQuerySample) (dbName : String) (hv : W.Valid) :
    (eventsOf dbName (RunExplain E W server inputs).1 = [] ∨
      eventsOf dbName (RunExplain E W server inputs).1 = [Event.EstablishConnection dbName] ∨
      ∃ before conn, W.EstablishConnection before dbName = .ok conn ∧
        eventsOf dbName (RunExplain E W server inputs).1 =
          [Event.EstablishConnection dbName] ++ eventsOf dbName (probeEvents server dbName conn) ++
            (runDbExplain E conn.db (groupOf E server inputs dbName)
              conn.statsHelperExists []).1.map (Event.Call dbName) ++
            [Event.Close dbName]) ∧
    (RunExplain E W server inputs).1.count (Event.Close dbName) =
      (RunExplain E W server inputs).1.count (Event.statsHelperExists dbName) ∧
    (RunExplain E W server inputs).1.count (Event.Close dbName) ≤ 1 ∧
    (∀ call, Event.Call dbName call ∈ (RunExplain E W server inputs).1 →
      Event.Close dbName ∈ (RunExplain E W server inputs).1) ∧
    (∀ pre post, (RunExplain E W server inputs).1 = pre ++ Event.Close dbName :: post →
      ∀ e ∈ post, e.dbName ≠ some dbName) := by
  obtain ⟨visit, h1, -, h3⟩ := RunExplain_project E W server inputs dbName hv
  have hsplit : ∀ pre post, (RunExplain E W server inputs).1 = pre ++ Event.Close dbName :: post →
      eventsOf dbName visit.1 =
        eventsOf dbName pre ++ Event.Close dbName :: eventsOf dbName post := by
    intro pre post hpp
    rw [← h1, hpp]
    simp [eventsOf, Event.dbName]
  have hnone : ∀ post : List Event, eventsOf dbName post = [] →
      ∀ e ∈ post, e.dbName ≠ some dbName := by
    intro post hp e he hd
    have : e ∈ eventsOf dbName post := (mem_eventsOf dbName e post).mpr ⟨he, hd⟩
    rw [hp] at this
    cases this
  have hcall : ∀ call, Event.Call dbName call ∈ (RunExplain E W server inputs).1 ↔
      Event.Call dbName call ∈ eventsOf dbName visit.1 := by
    intro call
    rw [← h1, mem_eventsOf]
    simp [Event.dbName]
  have hclose : Event.Close dbName ∈ (RunExplain E W server inputs).1 ↔
      Event.Close dbName ∈ eventsOf dbName visit.1 := by
    rw [← h1, mem_eventsOf]
    simp [Event.dbName]
  rw [← count_eventsOf dbName (Event.statsHelperExists dbName) _ rfl,
    ← count_eventsOf dbName (Event.Close dbName) _ rfl, h1]
  rcases h3 with ⟨_, rfl⟩ | ⟨_, ⟨before, err, hc, rfl⟩ | ⟨before, conn, hc, rfl⟩⟩
  · refine ⟨Or.inl (by simp [eventsOf]), by simp [eventsOf], by simp [eventsOf], ?_, ?_⟩
    · intro call hm
      rw [hcall] at hm
      simp [eventsOf] at hm
    · intro pre post hpp
      have := hsplit pre post hpp
      simp [eventsOf] at this
  · rw [eventsOf_failedVisit] at hsplit hcall ⊢
    refine ⟨Or.inr (Or.inl rfl), by simp, by simp, ?_, ?_⟩
    · intro call hm
      rw [hcall] at hm
      simp at hm
    · intro pre post hpp
      have h := hsplit pre post hpp
      have hm : Event.Close dbName ∈ [Event.EstablishConnection dbName] := by
        rw [h]
        simp
      simp at hm
  · obtain ⟨-, c2, c3⟩ := count_openedVisit E server dbName conn (groupOf E server inputs dbName)
    rw [c2, c3]
    refine ⟨Or.inr (Or.inr ⟨before, conn, hc, eventsOf_openedVisit E server dbName conn _⟩),
      rfl, le_refl _, ?_, ?_⟩
    · intro call _
      rw [hclose, eventsOf_openedVisit]
      simp
    · intro pre post hpp
      have h := hsplit pre post hpp
      rw [eventsOf_openedVisit] at h
      apply hnone
      apply append_cons_eq_append_singleton (Event.Close dbName) (eventsOf dbName pre) _ _ h.symm
      have hcnt := count_calls dbName
        (runDbExplain E conn.db (groupOf E server inputs dbName) conn.statsHelperExists []).1
        (Event.Close dbName) (fun _ hh => by cases hh)
      rw [List.count_eq_zero] at hcnt
      simp only [List.mem_append, List.mem_singleton, reduceCtorEq, false_or, not_or]
      refine ⟨?_, hcnt⟩
      rcases eventsOf_probeEvents server dbName conn with hp | hp <;> simp [hp]

/-- C15: in the trace of `RunExplain`, when `range` visits every entry of the map once,
the events on a database are none (it has no sample that is not skipped), or a connection
attempt alone where `EstablishConnection` returned an error, or, where it returned a
connection, the attempt, the probe, the calls of `runDbExplain` and the close.  So every
connection that opens is closed exactly once, the close comes after the last call on it,
a failed attempt is followed by no close, a close occurs at most once, and after the
close nothing more is done on that database. -/
theorem RunExplain_close_last (E : Deps) (W : World) (server : Server)
    (inputs : List PostgresQuerySample) (dbName : String) (hv : W.Valid) :
    ((groupOf E server inputs dbName = [] ∧
        eventsOf dbName (RunExplain E W server inputs).1 = []) ∨
      (∃ before after err,
        (RunExplain E W server inputs).1 =
          before ++ Event.EstablishConnection dbName :: after ∧
        W.EstablishConnection before dbName = .error err ∧
        eventsOf dbName (RunExplain E W server inputs).1 =
          [Event.EstablishConnection dbName]) ∨
      (∃ before after conn,
        (RunExplain E W server inputs).1 =
          before ++ Event.EstablishConnection dbName :: after ∧
        W.EstablishConnection before dbName = .ok conn ∧
        eventsOf dbName (RunExplain E W server inputs).1 =
          [Event.EstablishConnection dbName] ++ eventsOf dbName (probeEvents server dbName conn) ++
            (runDbExplain E conn.db (groupOf E server inputs dbName)
              conn.statsHelperExists []).1.map (Event.Call dbName) ++
            [Event.Close dbName])) ∧
    (∀ before after,
      (RunExplain E W server inputs).1 = before ++ Event.EstablishConnection dbName :: after →
      (∀ conn, W.EstablishConnection before dbName = .ok conn →
        (RunExplain E W server inputs).1.count (Event.Close dbName) = 1 ∧
        eventsOf dbName (RunExplain E W server inputs).1 =
          [Event.EstablishConnection dbName] ++ eventsOf dbName (probeEvents server dbName conn) ++
            (runDbExplain E conn.db (groupOf E server inputs dbName)
              conn.statsHelperExists []).1.map (Event.Call dbName) ++
            [Event.Close dbName]) ∧
      (∀ err, W.EstablishConnection before dbName = .error err →
        (RunExplain E W server inputs).1.count (Event.Close dbName) = 0 ∧
        eventsOf dbName (RunExplain E W server inputs).1 =
          [Event.EstablishConnection dbName])) ∧
    ((∀ before, ∃ conn, W.EstablishConnection before dbName = .ok conn) →
      groupOf E server inputs dbName ≠ [] →
      (RunExplain E W server inputs).1.count (Event.Close dbName) = 1) ∧
    (RunExplain E W server inputs).1.count (Event.Close dbName) =
      (RunExplain E W server inputs).1.count (Event.statsHelperExists dbName) ∧
    (RunExplain E W server inputs).1.count (Event.Close dbName) ≤ 1 ∧
    (∀ call, Event.Call dbName call ∈ (RunExplain E W server inputs).1 →
      Event.Close dbName ∈ (RunExplain E W server inputs).1) ∧
    (∀ pre post, (RunExplain E W server inputs).1 = pre ++ Event.Close dbName :: post →
      ∀ e ∈ post, e.dbName ≠ some dbName) := by
  have htied : ∀ before after,
      (RunExplain E W server inputs).1 = before ++ Event.EstablishConnection dbName :: after →
      (∀ conn, W.EstablishConnection before dbName = .ok conn →
        (RunExplain E W server inputs).1.count (Event.Close dbName) = 1 ∧
        eventsOf dbName (RunExplain E W server inputs).1 =
          [Event.EstablishConnection dbName] ++ eventsOf dbName (probeEvents server dbName conn) ++
            (runDbExplain E conn.db (groupOf E server inputs dbName)
              conn.statsHelperExists []).1.map (Event.Call dbName) ++
            [Event.Close dbName]) ∧
      (∀ err, W.EstablishConnection before dbName = .error err →
        (RunExplain E W server inputs).1.count (Event.Close dbName) = 0 ∧
        eventsOf dbName (RunExplain E W server inputs).1 =
          [Event.EstablishConnection dbName]) := by
    intro before after hsplit
    obtain ⟨hok, herr⟩ := RunExplain_attempt E W server inputs dbName hv before after hsplit
    constructor
    · intro conn hc
      obtain ⟨he, -⟩ := hok conn hc
      exact ⟨((count_of_visit E server dbName _).1 conn _ he).2,
        he.trans (eventsOf_openedVisit E server dbName conn _)⟩
    · intro err hc
      obtain ⟨he, -⟩ := herr err hc
      exact ⟨((count_of_visit E server dbName _).2 he).2, he⟩
  obtain ⟨-, h2, h3, h4, h5⟩ := RunExplain_close_order E W server inputs dbName hv
  refine ⟨?_, htied, ?_, h2, h3, h4, h5⟩
  · by_cases hg : groupOf E server inputs dbName = []
    · left
      refine ⟨hg, ?_⟩
      obtain ⟨visit, h1, -, hcase⟩ := RunExplain_project E W server inputs dbName hv
      rcases hcase with ⟨_, rfl⟩ | ⟨hne, _⟩
      · rw [h1]
        simp [eventsOf]
      · exact absurd hg hne
    · right
      obtain ⟨before, after, hsplit⟩ := RunExplain_attempt_exists E W server inputs dbName hv hg
      cases hc : W.EstablishConnection before dbName with
      | error err =>
        exact Or.inl ⟨before, after, err, hsplit, hc, ((htied before after hsplit).2 err hc).2⟩
      | ok conn =>
        exact Or.inr ⟨before, after, conn, hsplit, hc, ((htied before after hsplit).1 conn hc).2⟩
  · intro hall hne
    obtain ⟨before, after, hsplit⟩ := RunExplain_attempt_exists E W server inputs dbName hv hne
    obtain ⟨conn, hc⟩ := hall before
    exact ((htied before after hsplit).1 conn hc).1

/-- C15, at a concrete input: the connection of a run on one sample opens and is closed
exactly once. -/
theorem RunExplain_close_last_witness :
    (RunExplain sampleDeps (plainWorld (okDriver "[plan]")) appdbServer
      [mkSample "appdb" "SELECT 1" []]).1.count (Event.Close "appdb") = 1 :=
  (RunExplain_close_last sampleDeps (plainWorld (okDriver "[plan]")) appdbServer
    [mkSample "appdb" "SELECT 1" []] "appdb" (fun _ => List.Perm.refl _)).2.2.1
    (fun _ => ⟨_, rfl⟩) (by decide)

/-! ## C11: a connection that fails -/

/-- The outputs of the body on an entry whose samples are stored under its database
belong to that database. -/
theorem rangeBody_database (E : Deps) (W : World) (server : Server) (events : List Event)
    (entry : String × List PostgresQuerySample)
    (hw : ∀ sample ∈ entry.2, sample.Database = entry.1) :
    ∀ out ∈ (rangeBody E W server events entry).2, out.Database = entry.1 := by
  unfold rangeBody
  cases hc : W.EstablishConnection events entry.1 with
  | error err => simp [failedVisit]
  | ok conn => exact runDbExplain_database E conn.db conn.statsHelperExists entry.2 [] entry.1 hw

/-- Two runs of the second loop over the same entries, in a world where the connection
to `down` fails and in a world that answers alike for every other database: the first
appends what the second appends for the other databases, and the events on every other
database are the same. -/
theorem rangeSamplesByDb_failure (E : Deps) (W1 W2 : World) (server : Server) (down : String)
    (entries : SampleMap) (events1 events2 : List Event)
    (outputs1 outputs2 : List PostgresQuerySample)
    (hfail : ∀ before, ∃ err, W1.EstablishConnection before down = .error err)
    (hsame : ∀ before1 before2 dbName, dbName ≠ down →
      W1.EstablishConnection before1 dbName = W2.EstablishConnection before2 dbName)
    (hw : ∀ entry ∈ entries, ∀ sample ∈ entry.2, sample.Database = entry.1) :
    (∃ added,
      (rangeSamplesByDb E W1 server entries events1 outputs1).2 = outputs1 ++ added ∧
      (rangeSamplesByDb E W2 server entries events2 outputs2).2.filter
          (fun sample => sample.Database ≠ down) =
        outputs2.filter (fun sample => sample.Database ≠ down) ++ added) ∧
    (∀ other, other ≠ down → ∃ added,
      eventsOf other (rangeSamplesByDb E W1 server entries events1 outputs1).1 =
        eventsOf other events1 ++ added ∧
      eventsOf other (rangeSamplesByDb E W2 server entries events2 outputs2).1 =
        eventsOf other events2 ++ added) := by
  induction entries generalizing events1 events2 outputs1 outputs2 with
  | nil =>
    refine ⟨⟨[], by simp [rangeSamplesByDb], by simp [rangeSamplesByDb]⟩, fun other _ =>
      ⟨[], by simp [rangeSamplesByDb], by simp [rangeSamplesByDb]⟩⟩
  | cons entry rest ih =>
    obtain ⟨k, v⟩ := entry
    have hv : ∀ sample ∈ (k, v).2, sample.Database = (k, v).1 :=
      hw (k, v) (List.mem_cons_self _ _)
    obtain ⟨⟨added, ha1, ha2⟩, hev⟩ := ih (events1 ++ (rangeBody E W1 server events1 (k, v)).1)
      (events2 ++ (rangeBody E W2 server events2 (k, v)).1)
      (outputs1 ++ (rangeBody E W1 server events1 (k, v)).2)
      (outputs2 ++ (rangeBody E W2 server events2 (k, v)).2)
      (fun e he => hw e (List.mem_cons_of_mem _ he))
    rw [rangeSamplesByDb_cons, rangeSamplesByDb_cons]
    by_cases hk : k = down
    · subst hk
      obtain ⟨err, herr⟩ := hfail events1
      have hb1 : rangeBody E W1 server events1 (k, v) = failedVisit k err := by
        unfold rangeBody
        rw [herr]
      have hb2 : (rangeBody E W2 server events2 (k, v)).2.filter
          (fun sample => sample.Database ≠ k) = [] := by
        rw [List.filter_eq_nil_iff]
        intro out ho
        simpa using rangeBody_database E W2 server events2 (k, v) hv out ho
      refine ⟨⟨added, ?_, ?_⟩, ?_⟩
      · rw [ha1, hb1]
        simp [failedVisit]
      · rw [ha2, List.filter_append, hb2]
        simp
      · intro other ho
        obtain ⟨x, hx1, hx2⟩ := hev other ho
        have hnil : ∀ W : World, ∀ events,
            eventsOf other (rangeBody E W server events (k, v)).1 = [] := by
          intro W events
          apply eventsOf_eq_nil
          intro e he
          rcases rangeBody_dbName E W server events (k, v) e he with h | h
          · rw [h]
            intro hh
            exact ho (Option.some.inj hh).symm
          · rw [h]
            simp
        refine ⟨x, ?_, ?_⟩
        · rw [hx1, eventsOf_append, hnil]
          simp
        · rw [hx2, eventsOf_append, hnil]
          simp
    · have hconn := hsame events1 events2 k hk
      have hb : rangeBody E W2 server events2 (k, v) = rangeBody E W1 server events1 (k, v) := by
        unfold rangeBody
        rw [hconn]
      have hkeep : (rangeBody E W1 server events1 (k, v)).2.filter
          (fun sample => sample.Database ≠ down) = (rangeBody E W1 server events1 (k, v)).2 := by
        rw [List.filter_eq_self]
        intro out ho
        have := rangeBody_database E W1 server events1 (k, v) hv out ho
        simp only [ne_eq, decide_not, Bool.not_eq_true', decide_eq_false_iff_not]
        rw [this]
        exact hk
      refine ⟨⟨(rangeBody E W1 server events1 (k, v)).2 ++ added, ?_, ?_⟩, ?_⟩
      · rw [ha1]
        simp
      · rw [ha2, hb, List.filter_append, hkeep]
        simp
      · intro other ho
        obtain ⟨x, hx1, hx2⟩ := hev other ho
        refine ⟨eventsOf other (rangeBody E W1 server events1 (k, v)).1 ++ x, ?_, ?_⟩
        · rw [hx1, eventsOf_append]
          simp
        · rw [hx2, hb, eventsOf_append]
          simp

/-- C11 fails as stated: the connection to `appdb` is refused, and the sample of `appdb`,
which is not skipped, is not in the output of `RunExplain`. -/
theorem RunExplain_drops_unreachable :
    ¬ (skip sampleDeps appdbServer (mkSample "appdb" "SELECT 1" []) = false →
      mkSample "appdb" "SELECT 1" [] ∈
        (RunExplain sampleDeps (refusingWorld (okDriver "[plan]") "appdb") appdbServer
          [mkSample "appdb" "SELECT 1" [], mkSample "" "UPDATE t SET a = 1" []]).2) := by
  decide

/-- C11, amended: when establishing the connection for one database fails, and `range`
visits every entry of the map once, no sample of that database is in the output of
`RunExplain` and nothing is done on that database beyond the connection attempt; and in
a world that differs only in the outcome of that connection (the outcome for every other
database being the same whatever was done before), the output is the same once the
samples of that database are left out, and the events on every other database are the
same. -/
theorem RunExplain_connection_failure (E : Deps) (W1 W2 : World) (server : Server)
    (inputs : List PostgresQuerySample) (down : String) (hv : W1.Valid)
    (hord : W2.rangeOrder = W1.rangeOrder)
    (hfail : ∀ before, ∃ err, W1.EstablishConnection before down = .error err)
    (hsame : ∀ before1 before2 dbName, dbName ≠ down →
      W1.EstablishConnection before1 dbName = W2.EstablishConnection before2 dbName) :
    samplesOf down (RunExplain E W1 server inputs).2 = [] ∧
    (eventsOf down (RunExplain E W1 server inputs).1 = [] ∨
      eventsOf down (RunExplain E W1 server inputs).1 = [Event.EstablishConnection down]) ∧
    (RunExplain E W1 server inputs).2 =
      (RunExplain E W2 server inputs).2.filter (fun sample => sample.Database ≠ down) ∧
    (∀ other, other ≠ down →
      eventsOf other (RunExplain E W1 server inputs).1 =
        eventsOf other (RunExplain E W2 server inputs).1) := by
  obtain ⟨visit, h1, h2, h3⟩ := RunExplain_project E W1 server inputs down hv
  obtain ⟨-, hent, -, -⟩ := rangeOrder_groupSamples E W1 server inputs hv
  have hw : ∀ entry ∈ W1.rangeOrder (groupSamples E server inputs []),
      ∀ sample ∈ entry.2, sample.Database = entry.1 := by
    intro entry he sample hs
    rw [hent entry he] at hs
    exact groupOf_database E server inputs entry.1 sample hs
  obtain ⟨⟨added, ha1, ha2⟩, hev⟩ := rangeSamplesByDb_failure E W1 W2 server down
    (W1.rangeOrder (groupSamples E server inputs [])) [] [] [] [] hfail hsame hw
  have hvisit : visit = ([], []) ∨ ∃ err, visit = failedVisit down err := by
    rcases h3 with ⟨_, h⟩ | ⟨_, ⟨_, err, _, h⟩ | ⟨before, conn, hc, _⟩⟩
    · exact Or.inl h
    · exact Or.inr ⟨err, h⟩
    · obtain ⟨err, he⟩ := hfail before
      rw [hc] at he
      cases he
  refine ⟨?_, ?_, ?_, ?_⟩
  · rw [h2]
    rcases hvisit with rfl | ⟨err, rfl⟩ <;> rfl
  · rw [h1]
    rcases hvisit with rfl | ⟨err, rfl⟩
    · exact Or.inl (by simp [eventsOf])
    · exact Or.inr (eventsOf_failedVisit down err)
  · unfold RunExplain
    rw [hord, ha1, ha2]
    simp
  · intro other ho
    obtain ⟨x, hx1, hx2⟩ := hev other ho
    unfold RunExplain
    rw [hord, hx1, hx2]

/-- C11, amended, at a concrete input: with the connection to `appdb` refused, the output
is that of the run in which it opens, without the samples of `appdb`. -/
theorem RunExplain_connection_failure_witness :
    (RunExplain sampleDeps (refusingWorld (okDriver "[plan]") "appdb") appdbServer
        [mkSample "appdb" "SELECT 1" [], mkSample "" "UPDATE t SET a = 1" []]).2 =
      (RunExplain sampleDeps (plainWorld (okDriver "[plan]")) appdbServer
        [mkSample "appdb" "SELECT 1" [], mkSample "" "UPDATE t SET a = 1" []]).2.filter
        (fun sample => sample.Database ≠ "appdb") :=
  (RunExplain_connection_failure sampleDeps (refusingWorld (okDriver "[plan]") "appdb")
    (plainWorld (okDriver "[plan]")) appdbServer
    [mkSample "appdb" "SELECT 1" [], mkSample "" "UPDATE t SET a = 1" []] "appdb"
    (fun _ => List.Perm.refl _) rfl
    (fun _ => ⟨"connection refused", by simp [refusingWorld]⟩)
    (fun _ _ dbName h => by simp [refusingWorld, plainWorld, h])).2.2.1

/-! ## C17: a second pass over the output -/

/-- A sample that already has a plan is skipped. -/
theorem skip_of_hasExplain (E : Deps) (server : Server) (sample : PostgresQuerySample)
    (h : sample.HasExplain = true) : skip E server sample = true := by
  unfold skip
  simp [h]

/-- On a list of ineligible samples `runDbExplain` issues no call and returns samples of
the list, as they were. -/
theorem runDbExplain_all_ineligible (E : Deps) (db : Driver) (useHelper : Bool)
    (inputs : List PostgresQuerySample) (log : List Call)
    (h : ∀ sample ∈ inputs, Ineligible E sample) :
    (runDbExplain E db inputs useHelper log).1 = log ∧
      ∀ out ∈ (runDbExplain E db inputs useHelper log).2, out ∈ inputs := by
  induction inputs generalizing log with
  | nil => simp [runDbExplain_nil]
  | cons x xs ih =>
    have hrest := ih log (fun s hs => h s (List.mem_cons_of_mem _ hs))
    rw [runDbExplain_cons]
    rcases loopBody_ineligible E db useHelper x (h x (List.mem_cons_self _ _)) with hb | hb
    · rw [hb log]
      refine ⟨hrest.1, ?_⟩
      intro out ho
      simp only [Option.toList, List.nil_append] at ho
      exact List.mem_cons_of_mem _ (hrest.2 out ho)
    · rw [hb log]
      refine ⟨hrest.1, ?_⟩
      intro out ho
      simp only [Option.toList, List.singleton_append, List.mem_cons] at ho
      rcases ho with rfl | ho
      · exact List.mem_cons_self _ _
      · exact List.mem_cons_of_mem _ (hrest.2 out ho)

/-- C17 fails as stated: the first run over a SELECT and a `VACUUM` returns both, the
`VACUUM` with `HasExplain` false; the second pass over that batch returns the `VACUUM`
alone, not the batch it was given. -/
theorem RunExplain_second_pass_differs :
    ¬ (∀ sample ∈ (RunExplain sampleDeps (plainWorld (okDriver "[plan]")) appdbServer
        [mkSample "appdb" "SELECT 1" [], mkSample "appdb" "VACUUM" []]).2,
        sample.HasExplain = true) ∧
    (RunExplain sampleDeps (plainWorld (okDriver "[plan]")) appdbServer
      (RunExplain sampleDeps (plainWorld (okDriver "[plan]")) appdbServer
        [mkSample "appdb" "SELECT 1" [], mkSample "appdb" "VACUUM" []]).2).2 ≠
      (RunExplain sampleDeps (plainWorld (okDriver "[plan]")) appdbServer
        [mkSample "appdb" "SELECT 1" [], mkSample "appdb" "VACUUM" []]).2 := by
  constructor <;> decide

/-- C17, amended: on a second pass over the output batch of a first run, every sample of
the batch whose query is a single SELECT, INSERT, UPDATE or DELETE has `HasExplain` true
and is skipped; no helper call, `PREPARE`, `EXPLAIN` or `DEALLOCATE` is issued; when
`range` visits every entry of the map once, the batch returned by the second pass holds
only samples of the given batch that are not skipped and not eligible, as they were (the
skipped samples are left out); and when every sample of the batch is eligible the second
pass does nothing and returns the empty batch. -/
theorem RunExplain_second_pass (E : Deps) (W1 W2 : World) (server : Server)
    (inputs : List PostgresQuerySample) (hv : W2.Valid) :
    (∀ sample ∈ (RunExplain E W1 server inputs).2, Eligible E sample →
      sample.HasExplain = true ∧ skip E server sample = true) ∧
    (∀ dbName call,
      Event.Call dbName call ∉ (RunExplain E W2 server (RunExplain E W1 server inputs).2).1) ∧
    (∀ out ∈ (RunExplain E W2 server (RunExplain E W1 server inputs).2).2,
      out ∈ (RunExplain E W1 server inputs).2 ∧ skip E server out = false ∧ ¬ Eligible E out) ∧
    ((∀ sample ∈ (RunExplain E W1 server inputs).2, Eligible E sample) →
      RunExplain E W2 server (RunExplain E W1 server inputs).2 = ([], [])) := by
  have first : ∀ sample ∈ (RunExplain E W1 server inputs).2, Eligible E sample →
      sample.HasExplain = true ∧ skip E server sample = true := by
    intro sample hs he
    unfold RunExplain at hs
    rcases rangeSamplesByDb_mem E W1 server _ [] [] sample hs with h | ⟨entry, _, d, u, hr⟩
    · cases h
    · obtain ⟨x, _, log1, hb⟩ := runDbExplain_mem E d u entry.2 [] sample hr
      rcases loopBody_some_cases E d u log1 x sample hb with ⟨hne, rfl⟩ | ⟨_, r, rfl⟩
      · exact absurd he hne
      · have h4 := (recordScan_fields (markExplain x) r).2.2.2.1
        have hh : (recordScan (markExplain x) r).HasExplain = true := h4
        exact ⟨hh, skip_of_hasExplain E server _ hh⟩
  -- the groups of the second pass hold ineligible samples of the batch only
  have group : ∀ entry ∈ W2.rangeOrder (groupSamples E server (RunExplain E W1 server inputs).2 []),
      ∀ sample ∈ entry.2, sample ∈ (RunExplain E W1 server inputs).2 ∧
        skip E server sample = false ∧ ¬ Eligible E sample := by
    intro entry he sample hs
    have he2 := (hv _).subset he
    rcases groupSamples_mem E server _ [] entry sample he2 hs with ⟨h1, h2⟩ | ⟨old, ho, _⟩
    · refine ⟨h1, h2, fun hel => ?_⟩
      rw [(first sample h1 hel).2] at h2
      cases h2
    · cases ho
  refine ⟨first, ?_, ?_, ?_⟩
  · intro dbName call hc
    rw [RunExplain] at hc
    rcases rangeSamplesByDb_call_mem E W2 server _ [] [] dbName call hc with h | ⟨entry, he, d, u, h⟩
    · cases h
    · have hlog := (runDbExplain_all_ineligible E d u entry.2 []
        (fun s hs => (not_eligible_iff E s).mp (group entry he s hs).2.2)).1
      rw [hlog] at h
      cases h
  · intro out hout
    rw [RunExplain] at hout
    rcases rangeSamplesByDb_mem E W2 server _ [] [] out hout with h | ⟨entry, he, d, u, hr⟩
    · cases h
    · have hmem := (runDbExplain_all_ineligible E d u entry.2 []
        (fun s hs => (not_eligible_iff E s).mp (group entry he s hs).2.2)).2 out hr
      exact group entry he out hmem
  · intro hall
    rw [RunExplain, groupSamples_all_skipped E server _ []
      (fun s hs => (first s hs (hall s hs)).2), List.Perm.eq_nil (hv [])]
    rfl

/-- C17, amended, at a concrete input: the second pass over the output of a run on one
SELECT does nothing and returns the empty batch. -/
theorem RunExplain_second_pass_witness :
    RunExplain sampleDeps (plainWorld (okDriver "[plan]")) appdbServer
      (RunExplain sampleDeps (plainWorld (okDriver "[plan]")) appdbServer
        [mkSample "appdb" "SELECT 1" []]).2 = ([], []) :=
  (RunExplain_second_pass sampleDeps (plainWorld (okDriver "[plan]"))
    (plainWorld (okDriver "[plan]")) appdbServer [mkSample "appdb" "SELECT 1" []]
    (fun _ => List.Perm.refl _)).2.2.2
    (by
      intro sample hs
      have hq : sample.Query = "SELECT 1" := by
        revert sample
        decide
      exact ⟨⟨Node.SelectStmt⟩, by rw [hq]; rfl, Or.inl rfl⟩)

/-! ## C18: the indices of the roles -/

theorem OidToIdx.read_write (m : OidToIdx) (oid other : Oid) (idx : Int) :
    (m.set oid idx).get other = if oid = other then idx else m.get other := by
  induction m with
  | nil => simp [OidToIdx.set, OidToIdx.get]
  | cons e rest ih =>
    obtain ⟨k, v⟩ := e
    unfold OidToIdx.set
    by_cases hk : k = oid
    · subst hk
      rw [if_pos rfl]
      by_cases ho : k = other <;> simp [OidToIdx.get, ho]
    · rw [if_neg hk]
      by_cases ho : k = other
      · subst ho
        have hk2 : ¬ oid = k := fun e => hk e.symm
        simp [OidToIdx.get, hk2]
      · simp only [OidToIdx.get, ho, if_false]
        exact ih

/-- In the range of `int32` the conversion of a length is the length. -/
theorem int32_of_lt (n : Nat) (h : n < 2 ^ 31) : int32 n = (n : Int) := by
  unfold int32
  have h2 : (n + 2 ^ 31) % 2 ^ 32 = n + 2 ^ 31 := Nat.mod_eq_of_lt (by omega)
  rw [h2]
  push_cast
  ring

/-- The first loop of `transformPostgresRoles` appends one reference for each role, in
order, and changes nothing else in the snapshot. -/
theorem roleReferencesLoop_snapshot (roles : List PostgresRole) (s : FullSnapshot)
    (m : OidToIdx) :
    (roleReferencesLoop roles s m).1 =
      { s with RoleReferences :=
          s.RoleReferences ++ roles.map (fun role => ({ Name := role.Name } : RoleReference)) } := by
  induction roles generalizing s m with
  | nil => simp [roleReferencesLoop]
  | cons role rest ih =>
    simp only [roleReferencesLoop]
    rw [ih]
    simp

/-- The map after the first loop of `transformPostgresRoles`, for roles with pairwise
distinct oids: the oid of a role is sent to the converted position of its reference, and
every other oid is as before. -/
theorem roleReferencesLoop_get (roles : List PostgresRole) (s : FullSnapshot) (m : OidToIdx)
    (oid : Oid) (hd : (roles.map (fun role => role.Oid)).Nodup) :
    (roleReferencesLoop roles s m).2.get oid =
      if oid ∈ roles.map (fun role => role.Oid) then
        int32 (s.RoleReferences.length + (roles.map (fun role => role.Oid)).indexOf oid)
      else m.get oid := by
  induction roles generalizing s m with
  | nil => simp [roleReferencesLoop]
  | cons role rest ih =>
    simp only [List.map_cons, List.nodup_cons] at hd
    simp only [roleReferencesLoop]
    rw [ih _ _ hd.2, OidToIdx.read_write]
    by_cases ho : role.Oid = oid
    · subst ho
      simp [hd.1]
    · have ho2 : ¬ oid = role.Oid := fun e => ho e.symm
      simp only [List.map_cons, List.mem_cons, ho2, false_or, ho, if_false,
        List.indexOf_cons_ne _ ho, List.length_append, List.length_singleton]
      split
      · congr 1
        omega
      · rfl

theorem memberOfLoop_eq (m : OidToIdx) (oids : List Oid) (memberOf : List Int) :
    memberOfLoop m oids memberOf = memberOf ++ oids.map m.get := by
  induction oids generalizing memberOf with
  | nil => simp [memberOfLoop]
  | cons oid rest ih => simp [memberOfLoop, ih]

/-- The second loop of `transformPostgresRoles` appends one information for each role, in
order, and changes nothing else in the snapshot. -/
theorem roleInformationsLoop_snapshot (conv : Option Int → Option Int) (m : OidToIdx)
    (roles : List PostgresRole) (s : FullSnapshot) :
    roleInformationsLoop conv m roles s =
      { s with RoleInformations := s.RoleInformations ++ roles.map (roleInformation conv m) } := by
  induction roles generalizing s with
  | nil => simp [roleInformationsLoop]
  | cons role rest ih =>
    simp only [roleInformationsLoop]
    rw [ih]
    simp

/-- The map returned by `transformPostgresRoles`, for roles with pairwise distinct oids. -/
theorem transformPostgresRoles_get (conv : Option Int → Option Int) (s : FullSnapshot)
    (newState : State) (oid : Oid) (hd : (newState.Roles.map (fun role => role.Oid)).Nodup) :
    (transformPostgresRoles conv s newState).2.get oid =
      if oid ∈ newState.Roles.map (fun role => role.Oid) then
        int32 (s.RoleReferences.length + (newState.Roles.map (fun role => role.Oid)).indexOf oid)
      else 0 := by
  unfold transformPostgresRoles
  simp only
  rw [roleReferencesLoop_get _ _ _ _ hd]
  rfl

/-- On a snapshot with `2 ^ 31` role references the oid of a single role is sent to the
conversion of `2 ^ 31`. -/
theorem transformPostgresRoles_at_limit (refs : List RoleReference)
    (h : refs.length = 2 ^ 31) :
    (transformPostgresRoles id ⟨refs, [], [], []⟩ ⟨[mkRole 10 "a" []], []⟩).2.get 10 =
      int32 (2 ^ 31) := by
  rw [transformPostgresRoles_get id _ _ 10 (by simp [mkRole])]
  simp only [mkRole, List.map_cons, List.map_nil, List.mem_singleton, if_true,
    List.indexOf_cons_self, h, Nat.add_zero]

/-- C18 fails as stated: on a snapshot that already holds `2 ^ 31` role references, the
oid of the first (and only) role is not sent to `2 ^ 31 + 0`: the conversion to `int32`
wraps. -/
theorem transformPostgresRoles_wraps :
    (transformPostgresRoles id ⟨List.replicate (2 ^ 31) ⟨"r"⟩, [], [], []⟩
      ⟨[mkRole 10 "a" []], []⟩).2.get 10 ≠ ((2 ^ 31 + 0 : Nat) : Int) :=
  fun h =>
    absurd ((transformPostgresRoles_at_limit (List.replicate (2 ^ 31) ⟨"r"⟩)
      (List.length_replicate _ _)).symm.trans h) (by unfold int32; norm_num)

/-- C18, amended: for a state whose roles have pairwise distinct oids and a snapshot that
already holds `k` role references, with `k` plus the number of roles at most `2 ^ 31`,
`transformPostgresRoles` appends exactly one `RoleReference` and one `RoleInformation`
for each role, in input order; the returned map sends the oid of the `i`-th role to
`k + i`; the `RoleIdx` of its `RoleInformation` is `k + i`, the position of the
`RoleReference` that carries its name; and when all the oids of its `MemberOf` are oids of
listed roles, the `MemberOf` indices are the indices of those roles, in the same order. -/
theorem transformPostgresRoles_indices (conv : Option Int → Option Int) (s : FullSnapshot)
    (newState : State) (hd : (newState.Roles.map (fun role => role.Oid)).Nodup)
    (hb : s.RoleReferences.length + newState.Roles.length ≤ 2 ^ 31) :
    (transformPostgresRoles conv s newState).1.RoleReferences =
      s.RoleReferences ++
        newState.Roles.map (fun role => ({ Name := role.Name } : RoleReference)) ∧
    (transformPostgresRoles conv s newState).1.RoleInformations =
      s.RoleInformations ++
        newState.Roles.map (roleInformation conv (transformPostgresRoles conv s newState).2) ∧
    (∀ (i : Nat) (role : PostgresRole), newState.Roles[i]? = some role →
      (transformPostgresRoles conv s newState).2.get role.Oid =
        ((s.RoleReferences.length + i : Nat) : Int) ∧
      (roleInformation conv (transformPostgresRoles conv s newState).2 role).RoleIdx =
        ((s.RoleReferences.length + i : Nat) : Int) ∧
      (transformPostgresRoles conv s newState).1.RoleReferences[s.RoleReferences.length + i]? =
        some { Name := role.Name } ∧
      ((∀ oid ∈ role.MemberOf, oid ∈ newState.Roles.map (fun r => r.Oid)) →
        (roleInformation conv (transformPostgresRoles conv s newState).2 role).MemberOf =
          role.MemberOf.map (fun oid =>
            ((s.RoleReferences.length +
              (newState.Roles.map (fun r => r.Oid)).indexOf oid : Nat) : Int)))) := by
  have hrefs : (transformPostgresRoles conv s newState).1.RoleReferences =
      s.RoleReferences ++
        newState.Roles.map (fun role => ({ Name := role.Name } : RoleReference)) := by
    unfold transformPostgresRoles
    simp only
    rw [roleInformationsLoop_snapshot, roleReferencesLoop_snapshot]
  have hidx : ∀ oid ∈ newState.Roles.map (fun r => r.Oid),
      (transformPostgresRoles conv s newState).2.get oid =
        ((s.RoleReferences.length +
          (newState.Roles.map (fun r => r.Oid)).indexOf oid : Nat) : Int) := by
    intro oid ho
    rw [transformPostgresRoles_get conv s newState oid hd, if_pos ho]
    apply int32_of_lt
    have hlt := List.indexOf_lt_length.mpr ho
    rw [List.length_map] at hlt
    omega
  refine ⟨hrefs, ?_, ?_⟩
  · unfold transformPostgresRoles
    simp only
    rw [roleInformationsLoop_snapshot, roleReferencesLoop_snapshot]
  · intro i role hi
    have hlt : i < newState.Roles.length := (List.getElem?_eq_some_iff.mp hi).1
    have hrole : newState.Roles[i] = role := (List.getElem?_eq_some_iff.mp hi).2
    have hmem : role.Oid ∈ newState.Roles.map (fun r => r.Oid) :=
      List.mem_map.mpr ⟨role, hrole ▸ List.getElem_mem _, rfl⟩
    have hpos : (newState.Roles.map (fun r => r.Oid)).indexOf role.Oid = i := by
      have hlt2 : i < (newState.Roles.map (fun r => r.Oid)).length := by
        rw [List.length_map]
        exact hlt
      have hget : (newState.Roles.map (fun r => r.Oid))[i] = role.Oid := by
        rw [List.getElem_map, hrole]
      rw [← hget]
      exact List.indexOf_getElem hd i hlt2
    have hmap := hidx role.Oid hmem
    rw [hpos] at hmap
    refine ⟨hmap, hmap, ?_, ?_⟩
    · rw [hrefs, List.getElem?_append_right (Nat.le_add_right _ _), Nat.add_sub_cancel_left,
        List.getElem?_map, hi]
      rfl
    · intro hall
      show memberOfLoop _ role.MemberOf [] = _
      rw [memberOfLoop_eq, List.nil_append]
      apply List.map_congr_left
      intro oid ho
      exact hidx oid (hall oid ho)

/-- C18, amended, at a concrete input: two roles, the first a member of the second, added
to a snapshot with one role reference. -/
theorem transformPostgresRoles_indices_witness :
    (transformPostgresRoles id ⟨[⟨"x"⟩], [], [], []⟩
      ⟨[mkRole 10 "a" [11], mkRole 11 "b" []], []⟩).2.get 11 = ((1 + 1 : Nat) : Int) :=
  ((transformPostgresRoles_indices id ⟨[⟨"x"⟩], [], [], []⟩
    ⟨[mkRole 10 "a" [11], mkRole 11 "b" []], []⟩ (by decide) (by decide)).2.2 1
    (mkRole 11 "b" []) rfl).1

/-! ## C20: oids that match no role -/

theorem OidToIdx.read_of_not_mem (m : OidToIdx) (oid : Oid) (h : oid ∉ m.keys) :
    m.get oid = 0 := by
  induction m with
  | nil => rfl
  | cons e rest ih =>
    obtain ⟨k, v⟩ := e
    simp only [OidToIdx.keys, List.map_cons, List.mem_cons, not_or] at h
    have hk : ¬ k = oid := fun e => h.1 e.symm
    simp only [OidToIdx.get, hk, if_false]
    exact ih h.2

theorem OidToIdx.read_of_mem (m : OidToIdx) (oid : Oid) (idx : Int) (hn : m.keys.Nodup)
    (h : (oid, idx) ∈ m) : m.get oid = idx := by
  induction m with
  | nil => cases h
  | cons e rest ih =>
    obtain ⟨k, v⟩ := e
    simp only [OidToIdx.keys, List.map_cons, List.nodup_cons] at hn
    rcases List.mem_cons.mp h with h | h
    · cases h
      simp [OidToIdx.get]
    · have hk : ¬ k = oid := by
        intro e
        subst e
        exact hn.1 (List.mem_map.mpr ⟨(k, idx), h, rfl⟩)
      simp only [OidToIdx.get, hk, if_false]
      exact ih hn.2 h

theorem OidToIdx.keys_write (m : OidToIdx) (oid : Oid) (idx : Int) :
    (m.set oid idx).keys = if oid ∈ m.keys then m.keys else m.keys ++ [oid] := by
  induction m with
  | nil => simp [OidToIdx.set, OidToIdx.keys]
  | cons e rest ih =>
    obtain ⟨k, v⟩ := e
    unfold OidToIdx.set
    by_cases hk : k = oid
    · subst hk
      simp [OidToIdx.keys]
    · have hk2 : ¬ oid = k := fun e => hk e.symm
      rw [if_neg hk]
      simp only [OidToIdx.keys, List.map_cons, List.mem_cons, hk2, false_or] at ih ⊢
      rw [ih]
      split <;> simp

/-- The keys of the map after the first loop of `transformPostgresRoles` are the keys
before it and the oids of the roles. -/
theorem roleReferencesLoop_mem_keys (roles : List PostgresRole) (s : FullSnapshot)
    (m : OidToIdx) (oid : Oid) :
    oid ∈ (roleReferencesLoop roles s m).2.keys ↔
      oid ∈ m.keys ∨ oid ∈ roles.map (fun role => role.Oid) := by
  induction roles generalizing s m with
  | nil => simp [roleReferencesLoop]
  | cons role rest ih =>
    simp only [roleReferencesLoop]
    rw [ih, OidToIdx.keys_write]
    by_cases hk : role.Oid ∈ m.keys
    · simp only [hk, if_true, List.map_cons, List.mem_cons]
      constructor
      · rintro (h | h)
        · exact Or.inl h
        · exact Or.inr (Or.inr h)
      · rintro (h | h | h)
        · exact Or.inl h
        · exact Or.inl (h ▸ hk)
        · exact Or.inr h
    · simp only [hk, if_false, List.mem_append, List.mem_singleton, List.map_cons, List.mem_cons]
      tauto

/-- The first loop of `transformPostgresDatabases` appends one reference for each
database, in order, and changes nothing else in the snapshot. -/
theorem databaseReferencesLoop_snapshot (databases : List PostgresDatabase) (s : FullSnapshot)
    (m : OidToIdx) :
    (databaseReferencesLoop databases s m).1 =
      { s with DatabaseReferences :=
          s.DatabaseReferences ++
            databases.map (fun database => ({ Name := database.Name } : DatabaseReference)) } := by
  induction databases generalizing s m with
  | nil => simp [databaseReferencesLoop]
  | cons database rest ih =>
    simp only [databaseReferencesLoop]
    rw [ih]
    simp

/-- The second loop of `transformPostgresDatabases` appends one information for each
database, in order, and changes nothing else in the snapshot. -/
theorem databaseInformationsLoop_snapshot (dm rm : OidToIdx) (databases : List PostgresDatabase)
    (s : FullSnapshot) :
    databaseInformationsLoop dm rm databases s =
      { s with DatabaseInformations :=
          s.DatabaseInformations ++ databases.map (databaseInformation dm rm) } := by
  induction databases generalizing s with
  | nil => simp [databaseInformationsLoop]
  | cons database rest ih =>
    simp only [databaseInformationsLoop]
    rw [ih]
    simp

/-- C20: in `transformPostgresDatabases` one `DatabaseInformation` is written for each
database; its `OwnerRoleIdx` is the index the role map holds for `OwnerRoleOid` when that
oid is a key of the map, and 0 when it is not.  In `transformPostgresRoles` the keys of
the returned map are the oids of the roles, and a `MemberOf` oid that matches no role is
rendered as index 0.  The index 0 is also the index of the first role reference of an
empty snapshot, and it is no position at all when there is no role reference: with no
role and no role reference, every database gets `OwnerRoleIdx` 0 while the list of role
references stays empty. -/
theorem transform_missing_oid (conv : Option Int → Option Int) (s : FullSnapshot)
    (newState : State) (roleOidToIdx : OidToIdx) :
    ((transformPostgresDatabases s newState roleOidToIdx).1.DatabaseInformations =
      s.DatabaseInformations ++ newState.Databases.map
        (databaseInformation (transformPostgresDatabases s newState roleOidToIdx).2
          roleOidToIdx)) ∧
    (∀ (dm : OidToIdx) (database : PostgresDatabase),
      (∀ idx, roleOidToIdx.keys.Nodup → (database.OwnerRoleOid, idx) ∈ roleOidToIdx →
        (databaseInformation dm roleOidToIdx database).OwnerRoleIdx = idx) ∧
      (database.OwnerRoleOid ∉ roleOidToIdx.keys →
        (databaseInformation dm roleOidToIdx database).OwnerRoleIdx = 0)) ∧
    (∀ oid, oid ∈ (transformPostgresRoles conv s newState).2.keys ↔
      oid ∈ newState.Roles.map (fun role => role.Oid)) ∧
    (∀ role : PostgresRole,
      (roleInformation conv (transformPostgresRoles conv s newState).2 role).MemberOf =
        role.MemberOf.map (transformPostgresRoles conv s newState).2.get ∧
      ∀ oid, oid ∉ newState.Roles.map (fun r => r.Oid) →
        (transformPostgresRoles conv s newState).2.get oid = 0) ∧
    (∀ role rest, newState.Roles = role :: rest →
      (newState.Roles.map (fun r => r.Oid)).Nodup → s.RoleReferences = [] →
      (transformPostgresRoles conv s newState).2.get role.Oid = 0) ∧
    (newState.Roles = [] → s.RoleReferences = [] →
      (transformPostgresDatabases (transformPostgresRoles conv s newState).1 newState
        (transformPostgresRoles conv s newState).2).1.RoleReferences = [] ∧
      ∀ info ∈ (newState.Databases.map
          (databaseInformation
            (transformPostgresDatabases (transformPostgresRoles conv s newState).1 newState
              (transformPostgresRoles conv s newState).2).2
            (transformPostgresRoles conv s newState).2)),
        info.OwnerRoleIdx = 0) := by
  have hkeys : ∀ oid, oid ∈ (transformPostgresRoles conv s newState).2.keys ↔
      oid ∈ newState.Roles.map (fun role => role.Oid) := by
    intro oid
    unfold transformPostgresRoles
    simp only
    rw [roleReferencesLoop_mem_keys]
    simp [OidToIdx.keys]
  refine ⟨?_, ?_, hkeys, ?_, ?_, ?_⟩
  · unfold transformPostgresDatabases
    simp only
    rw [databaseInformationsLoop_snapshot, databaseReferencesLoop_snapshot]
  · intro dm database
    exact ⟨fun idx hn hm => OidToIdx.read_of_mem roleOidToIdx _ idx hn hm,
      fun hm => OidToIdx.read_of_not_mem roleOidToIdx _ hm⟩
  · intro role
    refine ⟨?_, ?_⟩
    · show memberOfLoop _ role.MemberOf [] = _
      rw [memberOfLoop_eq, List.nil_append]
    · intro oid ho
      exact OidToIdx.read_of_not_mem _ oid (fun h => ho ((hkeys oid).mp h))
  · intro role rest hr hd hs
    rw [transformPostgresRoles_get conv s newState role.Oid hd, hr, hs]
    simp [int32]
  · intro hr hs
    refine ⟨?_, ?_⟩
    · unfold transformPostgresDatabases transformPostgresRoles
      simp only
      rw [databaseInformationsLoop_snapshot, databaseReferencesLoop_snapshot,
        roleInformationsLoop_snapshot, roleReferencesLoop_snapshot, hr, hs]
      rfl
    · intro info hi
      obtain ⟨database, _, rfl⟩ := List.mem_map.mp hi
      apply OidToIdx.read_of_not_mem
      intro hm
      have := (hkeys database.OwnerRoleOid).mp hm
      rw [hr] at this
      cases this

/-- C20, at a concrete input: a database owned by the oid 99, which matches no role, gets
the owner index 0, the index of the role `a`. -/
theorem transform_missing_oid_witness :
    (databaseInformation [] (transformPostgresRoles id emptySnapshot
        ⟨[mkRole 10 "a" []], [mkDatabase 1 "d" 99]⟩).2 (mkDatabase 1 "d" 99)).OwnerRoleIdx = 0 ∧
    (transformPostgresRoles id emptySnapshot
      ⟨[mkRole 10 "a" []], [mkDatabase 1 "d" 99]⟩).2.get (mkRole 10 "a" []).Oid = 0 :=
  have t := transform_missing_oid id emptySnapshot ⟨[mkRole 10 "a" []], [mkDatabase 1 "d" 99]⟩
    (transformPostgresRoles id emptySnapshot ⟨[mkRole 10 "a" []], [mkDatabase 1 "d" 99]⟩).2
  ⟨(t.2.1 [] (mkDatabase 1 "d" 99)).2 (by decide), t.2.2.2.2.1 _ _ rfl (by decide) rfl⟩

end Collector
